import Mathlib

/-!
# File Converter: sketch codec, raster/sketch converter and sketch interpreter

A shallow embedding of `src/File Converter/converter.c` and
`src/File Converter/sketch.c`.

Conventions of the embedding:
* an `unsigned char` is a natural number below 256; a value stored into one is
  reduced `% 256`;
* an `unsigned int` is a natural number below `2^32`;
* the C operators `&`, `|`, `<<`, `>>` are `&&&`, `|||`, `<<<`, `>>>` on `Nat`;
* a file opened for reading is a `Stream`: the bytes not yet read and the
  end-of-file indicator; a file opened for writing is the list of bytes written;
* a `while` loop is a function with a fuel argument that answers `none` when
  the fuel is used up while the loop condition still holds;
* `double` arithmetic is IEEE 754 binary64, each operation rounded to
  nearest, ties to even.
-/

namespace FileConverter

/-! ## Codec (converter.c, lines 9-70) -/

/-- Source `firstData`: the two leftmost bits of the byte. -/
def firstData (data : Nat) : Nat := ((data &&& 192) >>> 6) % 256

/-- Source `secondData`: the six rightmost bits of the byte. -/
def secondData (data : Nat) : Nat := (data &&& 63) % 256

/-- Source `thirdData`: the six leftmost bits of the byte. -/
def thirdData (data : Nat) : Nat := ((data &&& 252) >>> 2) % 256

/-- Source `fourthData`. -/
def fourthData (data : Nat) : Nat :=
  let dataField := ((data &&& 3) <<< 4) % 256
  let dataFieldHelper := ((data &&& 240) >>> 4) % 256
  let dataField := (dataField ||| dataFieldHelper) % 256
  dataField

/-- Source `fifthData`. -/
def fifthData (data : Nat) : Nat :=
  let dataField := ((data &&& 15) <<< 2) % 256
  let dataField := (dataField ||| 3) % 256
  dataField

/-- Source `getRedOrOthers`. -/
def getRedOrOthers (dataHigh dataLow : Nat) : Nat :=
  let data := ((dataHigh &&& 3) <<< 6) % 256
  let data := (data ||| (dataLow &&& 63)) % 256
  data

/-- Source `getGreen`. -/
def getGreen (dataHigh dataLow : Nat) : Nat :=
  let data := ((dataHigh &&& 63) <<< 2) % 256
  let data := (data ||| ((dataLow &&& 48) >>> 4)) % 256
  data

/-- Source `getBlue`. -/
def getBlue (dataHigh dataLow : Nat) : Nat :=
  let data := ((dataHigh &&& 15) <<< 4) % 256
  let data := (data ||| ((dataLow &&& 60) >>> 2)) % 256
  data

/-! ## Sketch interpreter (sketch.c) -/

/-- Modelled from the spec: `sketch.h` is not among the sources; the four
opcodes are numbered as in section 3 of the specification. -/
def DX : Nat := 0
/-- Modelled from the spec: opcode `DY` of the missing `sketch.h`. -/
def DY : Nat := 1
/-- Modelled from the spec: opcode `TOOL` of the missing `sketch.h`. -/
def TOOL : Nat := 2
/-- Modelled from the spec: opcode `DATA` of the missing `sketch.h`. -/
def DATA : Nat := 3

/-- Modelled from the spec: the tool sub-opcodes of the missing `sketch.h`, in
the order of section 3 of the specification; `converter.c` confirms
`128 = TOOL NONE`, `130 = TOOL BLOCK`, `131 = TOOL COLOUR`,
`132 = TOOL TARGETX` and `133 = TOOL TARGETY`. -/
def NONE : Int := 0
/-- Modelled from the spec: tool sub-opcode `LINE`. -/
def LINE : Int := 1
/-- Modelled from the spec: tool sub-opcode `BLOCK`. -/
def BLOCK : Int := 2
/-- Modelled from the spec: tool sub-opcode `COLOUR`. -/
def COLOUR : Int := 3
/-- Modelled from the spec: tool sub-opcode `TARGETX`. -/
def TARGETX : Int := 4
/-- Modelled from the spec: tool sub-opcode `TARGETY`. -/
def TARGETY : Int := 5
/-- Modelled from the spec: tool sub-opcode `SHOW`. -/
def SHOW : Int := 6
/-- Modelled from the spec: tool sub-opcode `PAUSE`. -/
def PAUSE : Int := 7
/-- Modelled from the spec: tool sub-opcode `NEXTFRAME`. -/
def NEXTFRAME : Int := 8

/-- Modelled from the spec: the drawing state of the missing `sketch.h`, with
the fields in the order of the initialiser `{0, 0, 0, 0, LINE, 0, 0, 0}` of
`newState`. The cursor and the target are signed integers (C `int`, 32 bits
in two's complement where a conversion shows it), `start` is a stream offset,
`data` is the 32-bit `unsigned int` accumulator (`converter.c`, lines 98-114,
documents its width) and `ended` is the field `end`. -/
structure State where
  x : Int
  y : Int
  tx : Int
  ty : Int
  tool : Int
  start : Nat
  data : Nat
  ended : Bool
  deriving DecidableEq, Repr

/-- Modelled from the spec: the calls that `obey` makes on the display
collaborator (`displayfull.h` is not among the sources). `colour` and `pause`
record the value of the argument `s->data`, the accumulator. -/
inductive Call where
  | line (x y tx ty : Int)
  | block (x y w h : Int)
  | colour (data : Nat)
  | show
  | pause (data : Nat)
  deriving DecidableEq, Repr

/-- Source `newState`: the initial drawing state. -/
def newState : State := ⟨0, 0, 0, 0, LINE, 0, 0, false⟩

/-- The bits of a C `int` (32-bit two's complement) as an unsigned word. -/
def toU32 (i : Int) : Nat := (i % 4294967296).toNat

/-- The C `int` whose two's-complement bits are the low 32 bits of `n`. -/
def toI32 (n : Nat) : Int :=
  if n % 4294967296 < 2147483648 then ((n % 4294967296 : Nat) : Int)
  else ((n % 4294967296 : Nat) : Int) - 4294967296

/-- Source `getOpcode`: the two most significant bits of a byte. -/
def getOpcode (b : Nat) : Nat := b >>> 6

/-- Source `getOperand`: `b & 63`, or `(b & 63) | -64` when bit 5 is set; the
bitwise or with the `int` `-64` is taken on the two's-complement words. -/
def getOperand (b : Nat) : Int :=
  if b &&& 32 = 0 then ((b &&& 63 : Nat) : Int)
  else toI32 ((b &&& 63) ||| toU32 (-64))

/-- Source `obey`, the branch `opCode == TOOL`: nine independent `if`s. Lines
64 and 68, `s->tx = s->data` and `s->ty = s->data`, store the `unsigned int`
accumulator into an `int`: the 32 bits are kept and read as two's complement. -/
def obeyTool (s : State) (operand : Int) : State × List Call :=
  let s := if operand = NONE then { s with tool := operand, data := 0 } else s
  let s := if operand = LINE then { s with tool := operand, data := 0 } else s
  let s := if operand = BLOCK then { s with tool := operand, data := 0 } else s
  let c1 := if operand = COLOUR then [Call.colour s.data] else []
  let s := if operand = COLOUR then { s with data := 0 } else s
  let s := if operand = TARGETX then { s with tx := toI32 s.data, data := 0 } else s
  let s := if operand = TARGETY then { s with ty := toI32 s.data, data := 0 } else s
  let c2 := if operand = SHOW then [Call.show] else []
  let s := if operand = SHOW then { s with data := 0 } else s
  let c3 := if operand = PAUSE then [Call.pause s.data] else []
  let s := if operand = PAUSE then { s with data := 0 } else s
  let s := if operand = NEXTFRAME then { s with ended := true, data := 0 } else s
  (s, c1 ++ c2 ++ c3)

/-- Source `obey`: execute one byte; the result is the new state and the
display calls made, in order. -/
def obey (s : State) (op : Nat) : State × List Call :=
  let opCode := getOpcode op
  let operand := getOperand op
  let r : State × List Call :=
    if opCode = DX then ({ s with tx := s.tx + operand }, [])
    else if opCode = DY then
      let s := { s with ty := s.ty + operand }
      let calls :=
        if s.tool = LINE then [Call.line s.x s.y s.tx s.ty]
        else if s.tool = BLOCK then [Call.block s.x s.y (s.tx - s.x) (s.ty - s.y)]
        else []
      ({ s with x := s.tx, y := s.ty }, calls)
    else if opCode = TOOL then obeyTool s operand
    else if opCode = DATA then
      ({ s with data := ((s.data <<< 6) % 4294967296) ||| (toU32 operand &&& 63) }, [])
    else (s, [])
  ({ r.1 with start := r.1.start + 1 }, r.2)

/-- Execute a sequence of bytes with `obey`, collecting the display calls. -/
def obeyAll (s : State) : List Nat → State × List Call
  | [] => (s, [])
  | op :: ops =>
    let r := obey s op
    let r2 := obeyAll r.1 ops
    (r2.1, r.2 ++ r2.2)

/-! ## Files -/

/-- A file opened for reading: the bytes not yet read and the end-of-file
indicator. -/
structure Stream where
  rest : List Nat
  eof : Bool
  deriving DecidableEq, Repr

/-- C `fgetc` whose result is stored into an `unsigned char`: the next byte,
or `EOF` (`-1`, stored as 255) with the end-of-file indicator set. -/
def fgetc (f : Stream) : Nat × Stream :=
  match f.rest with
  | [] => (255, ⟨[], true⟩)
  | b :: t => (b, ⟨t, f.eof⟩)

/-- The variable together with the file after `variable = fgetc (file)` on a
freshly opened file holding `bytes`. -/
def look (bytes : List Nat) : Nat × Stream := fgetc ⟨bytes, false⟩

/-! ## Raster to sketch encoder (converter.c, `pgmToSk`) -/

/-- Source `width = 200` (lines 95 and 202). -/
def width : Nat := 200

/-- Source `height = 200` (lines 95 and 203). -/
def height : Nat := 200

/-- Source lines 119-123 (and 127-131, 146-150, 154-158): the bytes written
for a coordinate, one `DATA` byte below 64 and two otherwise. -/
def putCoord (v : Nat) : List Nat :=
  if v < 64 then [(192 + v) % 256]
  else [(192 + firstData v) % 256, (192 + secondData v) % 256]

/-- Source lines 102-117: the bytes written for the colour of a run. -/
def putColour (colour : Nat) : List Nat :=
  [(192 + firstData colour) % 256, (192 + secondData colour) % 256,
   (192 + thirdData colour) % 256, (192 + fourthData colour) % 256,
   (192 + fifthData colour) % 256, 255, 131]

/-- Source lines 102-137: the bytes written before the inner loop. -/
def putHead (colour wStart hStart : Nat) : List Nat :=
  putColour colour ++ putCoord wStart ++ [132] ++ putCoord hStart ++ [133, 128, 64]

/-- Source lines 145-166: the bytes written after the inner loop. -/
def putTail (wFinal hFinal : Nat) : List Nat :=
  putCoord wFinal ++ [132] ++ putCoord hFinal ++ [133, 130, 64]

/-- The five quantities that one iteration of the outer loop of `pgmToSk`
writes: `colour`, `wStart`, `hStart` before the inner loop and `wFinal`,
`hFinal` after it. -/
structure Run where
  colour : Nat
  wStart : Nat
  hStart : Nat
  wFinal : Nat
  hFinal : Nat
  deriving DecidableEq, Repr

/-- All the bytes that one iteration of the outer loop writes: those of lines
102-137 before the inner loop and those of lines 145-166 after it. The inner
loop changes none of `colour` (kept in `intermediate`), `wStart`, `hStart` and
`hFinal`, so the bytes are a function of the five quantities of the run. -/
def putRun (r : Run) : List Nat :=
  putHead r.colour r.wStart r.hStart ++ putTail r.wFinal r.hFinal

/-- The variables of `pgmToSk` at the head of its outer loop. -/
structure EncState where
  colour : Nat
  wStart : Nat
  wFinal : Nat
  hStart : Nat
  hFinal : Nat
  file : Stream
  deriving DecidableEq, Repr

/-- Source lines 141-144, the inner loop
`while (colour == intermediate && wFinal < width)`; the result is
`(wFinal, colour, file)`. -/
def scanRun (intermediate : Nat) : Nat → Nat → Nat → Stream → Option (Nat × Nat × Stream)
  | 0, wFinal, colour, file =>
    if colour = intermediate ∧ wFinal < width then none else some (wFinal, colour, file)
  | fuel + 1, wFinal, colour, file =>
    if colour = intermediate ∧ wFinal < width then
      scanRun intermediate fuel ((wFinal + 1) % 256) (fgetc file).1 (fgetc file).2
    else some (wFinal, colour, file)

/-- Source lines 98-178, one iteration of the outer loop: the quantities
written and the variables afterwards. -/
def pgmBody (s : EncState) : Option (Run × EncState) :=
  let intermediate := s.colour
  let colour := (fgetc s.file).1
  let file := (fgetc s.file).2
  match scanRun intermediate (width - s.wFinal) s.wFinal colour file with
  | none => none
  | some (wFinal, colour, file) =>
    let run : Run := ⟨intermediate, s.wStart, s.hStart, wFinal, s.hFinal⟩
    if wFinal = width then
      some (run, ⟨colour, 0, 1, (s.hStart + 1) % 256, (s.hFinal + 1) % 256, file⟩)
    else
      some (run, ⟨colour, wFinal, (wFinal + 1) % 256, s.hStart, s.hFinal, file⟩)

/-- Source line 97, the outer loop `while (!feof(pgmFile) && hFinal < height + 1)`:
the quantities written by the successive iterations. -/
def pgmRuns : Nat → EncState → Option (List Run)
  | 0, s => if s.file.eof = false ∧ s.hFinal < height + 1 then none else some []
  | fuel + 1, s =>
    if s.file.eof = false ∧ s.hFinal < height + 1 then
      match pgmBody s with
      | none => none
      | some (run, s') =>
        match pgmRuns fuel s' with
        | none => none
        | some runs => some (run :: runs)
    else some []

/-- Source line 97, the outer loop: the bytes written. -/
def pgmLoop : Nat → EncState → Option (List Nat)
  | 0, s => if s.file.eof = false ∧ s.hFinal < height + 1 then none else some []
  | fuel + 1, s =>
    if s.file.eof = false ∧ s.hFinal < height + 1 then
      match pgmBody s with
      | none => none
      | some (run, s') =>
        match pgmLoop fuel s' with
        | none => none
        | some bytes => some (putRun run ++ bytes)
    else some []

/-- The variables of `pgmToSk` when its outer loop is first reached (line 95),
`pgm` being the bytes of the raster file after its header. -/
def pgmInit (pgm : List Nat) : EncState := ⟨(look pgm).1, 0, 1, 0, 1, (look pgm).2⟩

/-- Source `pgmToSk` on a raster file that opens: the bytes of the sketch file
written, `pgm` being the bytes of the raster file after its header. -/
def pgmToSk (pgm : List Nat) : Option (List Nat) := pgmLoop (pgm.length + 1) (pgmInit pgm)

/-- The runs that `pgmToSk` writes, one per iteration of its outer loop. -/
def pgmToSkRuns (pgm : List Nat) : Option (List Run) := pgmRuns (pgm.length + 1) (pgmInit pgm)

/-! ## Double precision arithmetic (line 223 of converter.c)

The expression `0.2126 * red + 0.7152 * green + 0.0722 * blue` is evaluated in
IEEE 754 binary64 with rounding to nearest, ties to even. A finite
non-negative double is `m * 2 ^ e` with `m < 2 ^ 53 + 1`; the exponent range
plays no part for the values of this program. -/

/-- Number of binary digits of `n`, for `n < 2 ^ fuel`. -/
def bitLength : Nat → Nat → Nat
  | 0, _ => 0
  | fuel + 1, n => if n = 0 then 0 else bitLength fuel (n / 2) + 1

/-- A finite non-negative binary64 value, `m * 2 ^ e`. -/
structure Dbl where
  m : Nat
  e : Int
  deriving DecidableEq, Repr

/-- The binary64 value nearest to `(num / den) * 2 ^ e`, ties to even: the
quotient is scaled to more than 53 digits and cut back to 53. -/
def roundDbl (num den : Nat) (e : Int) : Dbl :=
  if num = 0 then ⟨0, 0⟩ else
  let k := 64 + bitLength 256 den
  let n := num * 2 ^ k
  let s := bitLength 512 (n / den) - 53
  let ulp := den * 2 ^ s
  let q := n / ulp
  let r := n % ulp
  let q := if 2 * r < ulp then q
           else if ulp < 2 * r then q + 1
           else if q % 2 = 0 then q else q + 1
  ⟨q, e - k + s⟩

/-- The double denoted by the decimal constant `num / den`. -/
def dblOfDecimal (num den : Nat) : Dbl := roundDbl num den 0

/-- Conversion of an `unsigned char` to `double`. -/
def dblOfNat (n : Nat) : Dbl := roundDbl n 1 0

/-- Product of two doubles. -/
def dblMul (a b : Dbl) : Dbl := roundDbl (a.m * b.m) 1 (a.e + b.e)

/-- Sum of two doubles. -/
def dblAdd (a b : Dbl) : Dbl :=
  let e := min a.e b.e
  roundDbl (a.m * 2 ^ (a.e - e).toNat + b.m * 2 ^ (b.e - e).toNat) 1 e

/-- Conversion of a double to `unsigned char`: the integer part. -/
def dblToUChar (a : Dbl) : Nat :=
  (if 0 ≤ a.e then a.m * 2 ^ a.e.toNat else a.m / 2 ^ (-a.e).toNat) % 256

/-- Source line 223: `colour = 0.2126 * red + 0.7152 * green + 0.0722 * blue`. -/
def luminance (red green blue : Nat) : Nat :=
  dblToUChar (dblAdd (dblAdd (dblMul (dblOfDecimal 2126 10000) (dblOfNat red))
      (dblMul (dblOfDecimal 7152 10000) (dblOfNat green)))
    (dblMul (dblOfDecimal 722 10000) (dblOfNat blue)))

/-! ## Sketch to raster decoder (converter.c, `skToPgm`) -/

/-- The variables of `skToPgm` at the head of its loop; `image` is the array
`image[height][width]` row after row, and `datas0` to `datas4` are the array
`datas[5]`. -/
structure DecState where
  instruction : Nat
  wStart : Nat
  wFinal : Nat
  h : Nat
  countData : Nat
  colour : Nat
  image : List Nat
  datas0 : Nat
  datas1 : Nat
  datas2 : Nat
  datas3 : Nat
  datas4 : Nat
  write : Bool
  read : Bool
  file : Stream
  deriving DecidableEq, Repr

/-- Source line 264: `for (int i = wStart; i < wFinal; ++i) image[h][i] = colour`,
the cell `image[h][i]` being the cell `h * width + i` of the array; a write
past the end of the array is left out. -/
def fillRow (image : List Nat) (h colour wStart wFinal : Nat) : List Nat :=
  (List.range' wStart (wFinal - wStart)).foldl
    (fun img i => img.set (h * width + i) colour) image

/-- Source lines 207-271: one iteration of the loop of `skToPgm`. -/
def skBody (s : DecState) : DecState :=
  let s : DecState :=
    if (s.instruction &&& 192) = 192 ∧ s.countData < 5 then
      let s :=
        if s.countData = 0 then { s with datas0 := s.instruction }
        else if s.countData = 1 then { s with datas1 := s.instruction }
        else if s.countData = 2 then { s with datas2 := s.instruction }
        else if s.countData = 3 then { s with datas3 := s.instruction }
        else if s.countData = 4 then { s with datas4 := s.instruction }
        else s
      { s with countData := (s.countData + 1) % 256 }
    else if (s.instruction &&& 192) = 192 ∧ s.countData = 5 then
      let red := getRedOrOthers s.datas0 s.datas1
      let green := getGreen s.datas2 s.datas3
      let blue := getBlue s.datas3 s.datas4
      { s with colour := luminance red green blue, countData := 0 }
    else if s.instruction = 131 then
      let dataHigh := (fgetc s.file).1
      let file1 := (fgetc s.file).2
      let dataLow := (fgetc file1).1
      let file2 := (fgetc file1).2
      let s := { s with instruction := dataLow, file := file2 }
      let s :=
        if (s.instruction &&& 192) = 192 then
          { s with wStart := getRedOrOthers dataHigh dataLow }
        else { s with wStart := (dataHigh &&& 63) % 256, read := false }
      { s with countData := 0 }
    else if s.instruction = 128 then
      let file0 := (fgetc s.file).2
      let dataHigh := (fgetc file0).1
      let file1 := (fgetc file0).2
      let dataLow := (fgetc file1).1
      let file2 := (fgetc file1).2
      let s := { s with instruction := dataLow, file := file2 }
      let s :=
        if (s.instruction &&& 192) = 192 then
          { s with wFinal := getRedOrOthers dataHigh dataLow }
        else { s with wFinal := (dataHigh &&& 63) % 256, read := false }
      { s with countData := 0, write := true }
    else { s with countData := 0 }
  let s : DecState :=
    if s.write = true then
      let s := { s with image := fillRow s.image s.h s.colour s.wStart s.wFinal }
      let s := if s.wFinal = 200 then { s with h := (s.h + 1) % 256 } else s
      { s with write := false }
    else s
  let s : DecState :=
    if s.read = true then
      { s with instruction := (fgetc s.file).1, file := (fgetc s.file).2 }
    else s
  { s with read := true }

/-- Source line 206, the loop `while (!feof(skFile) && h < height)`. -/
def skLoop : Nat → DecState → Option DecState
  | 0, s => if s.file.eof = false ∧ s.h < height then none else some s
  | fuel + 1, s =>
    if s.file.eof = false ∧ s.h < height then skLoop fuel (skBody s) else some s

/-- The locals of `skToPgm` that are declared without a value (lines 202-203):
whatever they hold when the function starts. -/
structure Uninit where
  wStart : Nat
  wFinal : Nat
  colour : Nat
  image : List Nat
  datas0 : Nat
  datas1 : Nat
  datas2 : Nat
  datas3 : Nat
  datas4 : Nat
  deriving DecidableEq, Repr

/-- The variables of `skToPgm` when its loop is first reached (lines 202-204). -/
def skInit (u : Uninit) (sk : List Nat) : DecState :=
  { instruction := (look sk).1, wStart := u.wStart, wFinal := u.wFinal, h := 0, countData := 0,
    colour := u.colour, image := u.image, datas0 := u.datas0, datas1 := u.datas1,
    datas2 := u.datas2, datas3 := u.datas3, datas4 := u.datas4, write := false, read := true,
    file := (look sk).2 }

/-- Source `skToPgm` on a sketch file that opens: the bytes of the raster file
written after its header, `sk` being the bytes of the sketch file. -/
def skToPgm (u : Uninit) (sk : List Nat) : Option (List Nat) :=
  match skLoop (sk.length + 1) (skInit u sk) with
  | none => none
  | some s => some s.image

/-- Encode a raster with `pgmToSk`, then decode the sketch with `skToPgm`. -/
def roundTrip (u : Uninit) (pgm : List Nat) : Option (List Nat) :=
  match pgmToSk pgm with
  | none => none
  | some sk => skToPgm u sk

/-! ## Specification functions used by the theorems -/

/-- The accumulator of the interpreter after a sequence of `DATA` bytes. -/
def accumulate (data : Nat) : List Nat → Nat
  | [] => data
  | b :: bs => accumulate (((data <<< 6) % 4294967296) ||| (b &&& 63)) bs

/-- The runs of one raster row: `c` is the colour of the run being extended,
which spans the columns `[wStart, wFinal)`, and the list holds the pixels of the
row from column `wFinal` on. -/
def rowRuns (h c wStart wFinal : Nat) : List Nat → List Run
  | [] => [⟨c, wStart, h, wFinal, h + 1⟩]
  | p :: ps =>
    if p = c then rowRuns h c wStart (wFinal + 1) ps
    else ⟨c, wStart, h, wFinal, h + 1⟩ :: rowRuns h p wFinal (wFinal + 1) ps

/-- The runs of the raster row `h` holding the pixels `row`. -/
def rowRunsOf (h : Nat) : List Nat → List Run
  | [] => []
  | c :: rest => rowRuns h c 0 1 rest

/-- The runs of `n` successive raster rows from row `h` on. -/
def imageRuns : Nat → Nat → List Nat → List Run
  | 0, _, _ => []
  | n + 1, h, pgm => rowRunsOf h (pgm.take width) ++ imageRuns n (h + 1) (pgm.drop width)

/-- The pixel of the raster `pgm` in row `r` and column `i`. -/
def pixel (pgm : List Nat) (r i : Nat) : Nat := pgm.getD (r * width + i) 0

/-- The runs of row `r` among `runs`, in their order. -/
def rowOf (runs : List Run) (r : Nat) : List Run :=
  runs.filter (fun run => decide (run.hStart = r))

/-- The runs tile the row `r` from column `w` to its end: each run lies in row
`r`, starts where the one before it ended (the first at `w`), is not empty
and has the colour of all the pixels it spans, and the last ends at `width`. -/
def TilesRow (pgm : List Nat) (r : Nat) : Nat → List Run → Prop
  | w, [] => w = width
  | w, run :: rest =>
    run.hStart = r ∧ run.hFinal = r + 1 ∧ run.wStart = w ∧ run.wStart < run.wFinal ∧
    (∀ i, run.wStart ≤ i → i < run.wFinal → pixel pgm r i = run.colour) ∧
    TilesRow pgm r run.wFinal rest

/-- The raster whose 40000 pixels all have the grey value 7. -/
def grey7 : List Nat := List.replicate 40000 7

/-- The state `s` of `skToPgm` with `bytes` as the bytes still to come, the
first of them already read into `instruction`. -/
def DecState.reading (s : DecState) (bytes : List Nat) : DecState :=
  { s with instruction := (look bytes).1, file := (look bytes).2 }

/-- `k` iterations of the loop of `skToPgm` lead from `s` to `s'`. -/
def Steps (k : Nat) (s s' : DecState) : Prop :=
  ∀ fuel, skLoop (fuel + k) s = skLoop fuel s'

/-- The variables of the decoder that a run is written from, and its flags,
are the same in `s` and `s'`. -/
def SameFrame (s s' : DecState) : Prop :=
  s'.wStart = s.wStart ∧ s'.wFinal = s.wFinal ∧ s'.h = s.h ∧ s'.colour = s.colour ∧
  s'.image = s.image ∧ s'.read = s.read ∧ s'.write = s.write

/-- The image after the decoder has gone through the bytes of `runs` from
row `h` on: each run is written into the current row with the luminance of
its colour, the row advances after a run that ends at column 200, and the
decoder stops once the row is 200. -/
def paintRuns : List Run → Nat → List Nat → List Nat
  | [], _, image => image
  | run :: runs, h, image =>
    if h < height then
      paintRuns runs (if run.wFinal = 200 then (h + 1) % 256 else h)
        (fillRow image h (luminance run.colour run.colour run.colour) run.wStart run.wFinal)
    else image

/-- The colour that `skToPgm` computes for a run whose three channels all
hold the byte `c`. -/
def grey (c : Nat) : Nat := luminance c c c

/-- The first `n` cells of the image hold the decoded colours of the first `n`
pixels of the raster `pgm`. -/
def Painted (pgm image : List Nat) (n : Nat) : Prop :=
  image.length = 40000 ∧ ∀ j, j < n → image.getD j 0 = grey (pgm.getD j 0)

/-- The locals of `skToPgm` when the memory they are given holds zeros. -/
def zeroUninit : Uninit := ⟨0, 0, 0, List.replicate 40000 0, 0, 0, 0, 0, 0⟩

/-- The accumulation `data := (data << 6) | (operand & 63)` of a sequence of
`DATA` bytes without the cut to 32 bits. -/
def accumulateExact (data : Nat) : List Nat → Nat
  | [] => data
  | b :: bs => accumulateExact ((data <<< 6) ||| (b &&& 63)) bs

/-- The 32-bit word `colour colour colour 255`. -/
def colourWord (c : Nat) : Nat := c * 16777216 + c * 65536 + c * 256 + 255

/-- The byte is a `DATA` instruction. -/
def isData (b : Nat) : Bool := decide (getOpcode b = DATA)

/-- The byte is one of the nine `TOOL` instructions 128 to 136, which clear
`data`. -/
def clearsData (b : Nat) : Bool := decide (128 ≤ b ∧ b ≤ 136)

/-- The byte is a `DATA` instruction or one of the nine `TOOL` instructions. -/
def affectsData (b : Nat) : Bool := isData b || clearsData b

/-- The block of consecutive `DATA` instructions that ends the sequence. -/
def trailingData : List Nat → List Nat
  | [] => []
  | b :: bs => if (b :: bs).all isData = true then b :: bs else trailingData bs

/-! ## Render sessions (sketch.c, `processSketch`) -/

/-- Source `processSketch`, lines 99-103, the loop
`while (!feof(file)) { obey; if (s->end == true) break; instruction = fgetc }`:
the state and the display calls when the loop is left. -/
def sketchLoop : Nat → State → Nat → Stream → Option (State × List Call)
  | 0, s, _, file => if file.eof = false then none else some (s, [])
  | fuel + 1, s, instruction, file =>
    if file.eof = false then
      if (obey s instruction).1.ended = true then some (obey s instruction)
      else
        match sketchLoop fuel (obey s instruction).1 (fgetc file).1 (fgetc file).2 with
        | none => none
        | some r => some (r.1, (obey s instruction).2 ++ r.2)
    else some (s, [])

/-- Source `processSketch` on a sketch file that opens and holds `bytes`: the
state left in `*data` (when `data` is not `NULL`), the display calls made and
the value returned. The file is read from the offset `s->start` on. -/
def processSketch (bytes : List Nat) (data : Option State) (pressedKey : Int) :
    Option (Option State × List Call × Bool) :=
  match data with
  | none => some (none, [], decide (pressedKey = 27))
  | some s =>
    let file : Stream := ⟨bytes.drop s.start, false⟩
    match sketchLoop (bytes.length + 1) s (fgetc file).1 (fgetc file).2 with
    | none => none
    | some r =>
      let s' : State :=
        if r.1.ended = false then ⟨0, 0, 0, 0, LINE, 0, 0, false⟩
        else ⟨0, 0, 0, 0, LINE, r.1.start, 0, false⟩
      some (some s', r.2 ++ [Call.show], decide (pressedKey = 27))

/-- The bytes of a frame: those up to and including the first `NEXTFRAME`
instruction (136), or all of them when there is none. -/
def frameOf : List Nat → List Nat
  | [] => []
  | b :: bs => if b = 136 then [b] else b :: frameOf bs

/-! ## Sketch to raster decoder: the executions of line 264 -/

/-- Source lines 208-261: the branch that an iteration of the loop of
`skToPgm` takes, counted from 1: a `DATA` byte that is stored (line 208), the
sixth `DATA` byte (line 218), the byte 131 (line 228), the byte 128 (line 243),
any other byte (line 261). -/
def skBranch (s : DecState) : Nat :=
  if (s.instruction &&& 192) = 192 ∧ s.countData < 5 then 1
  else if (s.instruction &&& 192) = 192 ∧ s.countData = 5 then 2
  else if s.instruction = 131 then 3
  else if s.instruction = 128 then 4
  else 5

/-- Which of the locals `colour`, `wStart` and `wFinal` of `skToPgm`, declared
without a value, have been assigned. -/
structure Assigned where
  colour : Bool
  wStart : Bool
  wFinal : Bool
  deriving DecidableEq, Repr

/-- The locals assigned after one iteration of the loop of `skToPgm`: line 223
assigns `colour`, lines 234 and 236 `wStart`, lines 252 and 254 `wFinal`. -/
def skAssigned (s : DecState) (a : Assigned) : Assigned :=
  if skBranch s = 2 then ⟨true, a.wStart, a.wFinal⟩
  else if skBranch s = 3 then ⟨a.colour, true, a.wFinal⟩
  else if skBranch s = 4 then ⟨a.colour, a.wStart, true⟩
  else a

/-- One execution of line 264, `for (int i = wStart; i < wFinal; ++i)
image[h][i] = colour`: the values of `h`, `wStart`, `wFinal` and `colour` it
reads, and which of the three locals had been assigned by then. -/
structure Fill where
  h : Nat
  wStart : Nat
  wFinal : Nat
  colour : Nat
  assigned : Assigned
  deriving DecidableEq, Repr

/-- The value of `write` at line 263: it was set before the iteration, or
line 257 has set it. -/
def skWrites (s : DecState) : Bool := s.write || decide (skBranch s = 4)

/-- The execution of line 264 in one iteration of the loop of `skToPgm`, if
there is one. Line 264 reads `h` before line 266 changes it, and nothing after
the branches of lines 208-261 changes `wStart`, `wFinal` and `colour`. -/
def skFill (s : DecState) (a : Assigned) : List Fill :=
  if skWrites s = true then
    [⟨s.h, (skBody s).wStart, (skBody s).wFinal, (skBody s).colour, skAssigned s a⟩]
  else []

/-- The executions of line 264 during the loop of `skToPgm` (line 206), in
order. -/
def skFills : Nat → DecState → Assigned → Option (List Fill)
  | 0, s, _ => if s.file.eof = false ∧ s.h < height then none else some []
  | fuel + 1, s, a =>
    if s.file.eof = false ∧ s.h < height then
      match skFills fuel (skBody s) (skAssigned s a) with
      | none => none
      | some l => some (skFill s a ++ l)
    else some []

/-- The executions of line 264 during `skToPgm` on a sketch file that opens,
`sk` being the bytes of the file: none of `colour`, `wStart` and `wFinal` is
assigned when the loop starts. -/
def skToPgmFills (u : Uninit) (sk : List Nat) : Option (List Fill) :=
  skFills (sk.length + 1) (skInit u sk) ⟨false, false, false⟩

/-- `k` iterations of the loop of `skToPgm` lead from `s` to `s'`, from the
assigned locals `a` to `a'`, and execute line 264 as `log` tells. -/
def StepsF (k : Nat) (s : DecState) (a : Assigned) (s' : DecState) (a' : Assigned)
    (log : List Fill) : Prop :=
  ∀ fuel, skFills (fuel + k) s a = (skFills fuel s' a').map (fun l => log ++ l)

/-- The executions of line 264 while the decoder goes through the bytes of
`runs` from row `h` on. -/
def fillsOf : List Run → Nat → List Fill
  | [], _ => []
  | run :: runs, h =>
    if h < height then
      ⟨h, run.wStart, run.wFinal, luminance run.colour run.colour run.colour,
        ⟨true, true, true⟩⟩ :: fillsOf runs (if run.wFinal = 200 then (h + 1) % 256 else h)
    else []

/-! ## Sketch to raster decoder: the two parts of the loop body -/

/-- Source lines 208-261: the branches of one iteration of the loop of
`skToPgm`. -/
def skDispatch (s : DecState) : DecState :=
  if (s.instruction &&& 192) = 192 ∧ s.countData < 5 then
    let s :=
      if s.countData = 0 then { s with datas0 := s.instruction }
      else if s.countData = 1 then { s with datas1 := s.instruction }
      else if s.countData = 2 then { s with datas2 := s.instruction }
      else if s.countData = 3 then { s with datas3 := s.instruction }
      else if s.countData = 4 then { s with datas4 := s.instruction }
      else s
    { s with countData := (s.countData + 1) % 256 }
  else if (s.instruction &&& 192) = 192 ∧ s.countData = 5 then
    let red := getRedOrOthers s.datas0 s.datas1
    let green := getGreen s.datas2 s.datas3
    let blue := getBlue s.datas3 s.datas4
    { s with colour := luminance red green blue, countData := 0 }
  else if s.instruction = 131 then
    let dataHigh := (fgetc s.file).1
    let file1 := (fgetc s.file).2
    let dataLow := (fgetc file1).1
    let file2 := (fgetc file1).2
    let s := { s with instruction := dataLow, file := file2 }
    let s :=
      if (s.instruction &&& 192) = 192 then
        { s with wStart := getRedOrOthers dataHigh dataLow }
      else { s with wStart := (dataHigh &&& 63) % 256, read := false }
    { s with countData := 0 }
  else if s.instruction = 128 then
    let file0 := (fgetc s.file).2
    let dataHigh := (fgetc file0).1
    let file1 := (fgetc file0).2
    let dataLow := (fgetc file1).1
    let file2 := (fgetc file1).2
    let s := { s with instruction := dataLow, file := file2 }
    let s :=
      if (s.instruction &&& 192) = 192 then
        { s with wFinal := getRedOrOthers dataHigh dataLow }
      else { s with wFinal := (dataHigh &&& 63) % 256, read := false }
    { s with countData := 0, write := true }
  else { s with countData := 0 }

/-- Source lines 263-270: the pending write and the next read of one iteration
of the loop of `skToPgm`. -/
def skFinish (s : DecState) : DecState :=
  let s : DecState :=
    if s.write = true then
      let s := { s with image := fillRow s.image s.h s.colour s.wStart s.wFinal }
      let s := if s.wFinal = 200 then { s with h := (s.h + 1) % 256 } else s
      { s with write := false }
    else s
  let s : DecState :=
    if s.read = true then
      { s with instruction := (fgetc s.file).1, file := (fgetc s.file).2 }
    else s
  { s with read := true }

end FileConverter

namespace FileConverter

/-! ## Codec theorems -/

set_option maxRecDepth 100000 in
/-- C1: for every byte `v` each unpack function applied to its adjacent pair of
packed fields gives back `v`. -/
theorem codec_roundtrip (v : Nat) (hv : v < 256) :
    getRedOrOthers (firstData v) (secondData v) = v ∧
    getGreen (thirdData v) (fourthData v) = v ∧
    getBlue (fourthData v) (fifthData v) = v := by
  revert v
  decide

/-- Witness of `codec_roundtrip` at the byte 178. -/
theorem codec_roundtrip_witness :
    178 < 256 ∧
    (getRedOrOthers (firstData 178) (secondData 178) = 178 ∧
     getGreen (thirdData 178) (fourthData 178) = 178 ∧
     getBlue (fourthData 178) (fifthData 178) = 178) :=
  ⟨by decide, codec_roundtrip 178 (by decide)⟩

set_option maxRecDepth 100000 in
/-- C5: for every byte `v` the five pack functions return the documented bit
fields, each below 64; the fields of 178 are (2, 50, 44, 43, 11) and those of
126 are (1, 62, 31, 39, 59). -/
theorem pack_fields (v : Nat) (hv : v < 256) :
    (firstData v = v / 64 ∧ secondData v = v % 64 ∧ thirdData v = v / 4 ∧
      fourthData v = (v % 4) * 16 + v / 16 ∧ fifthData v = (v % 16) * 4 + 3) ∧
    (firstData v < 64 ∧ secondData v < 64 ∧ thirdData v < 64 ∧ fourthData v < 64 ∧
      fifthData v < 64) ∧
    (firstData 178, secondData 178, thirdData 178, fourthData 178, fifthData 178)
      = (2, 50, 44, 43, 11) ∧
    (firstData 126, secondData 126, thirdData 126, fourthData 126, fifthData 126)
      = (1, 62, 31, 39, 59) := by
  have h1 : ∀ w, w < 256 → (firstData w = w / 64 ∧ secondData w = w % 64 ∧
      thirdData w = w / 4 ∧ fourthData w = (w % 4) * 16 + w / 16 ∧
      fifthData w = (w % 16) * 4 + 3) := by decide
  have h2 : ∀ w, w < 256 → (firstData w < 64 ∧ secondData w < 64 ∧ thirdData w < 64 ∧
      fourthData w < 64 ∧ fifthData w < 64) := by decide
  exact ⟨h1 v hv, h2 v hv, by decide, by decide⟩

/-- Witness of `pack_fields` at the byte 126. -/
theorem pack_fields_witness :
    126 < 256 ∧
    ((firstData 126 = 126 / 64 ∧ secondData 126 = 126 % 64 ∧ thirdData 126 = 126 / 4 ∧
      fourthData 126 = (126 % 4) * 16 + 126 / 16 ∧ fifthData 126 = (126 % 16) * 4 + 3) ∧
    (firstData 126 < 64 ∧ secondData 126 < 64 ∧ thirdData 126 < 64 ∧ fourthData 126 < 64 ∧
      fifthData 126 < 64) ∧
    (firstData 178, secondData 178, thirdData 178, fourthData 178, fifthData 178)
      = (2, 50, 44, 43, 11) ∧
    (firstData 126, secondData 126, thirdData 126, fourthData 126, fifthData 126)
      = (1, 62, 31, 39, 59)) :=
  ⟨by decide, pack_fields 126 (by decide)⟩

/-- C6, as stated, fails: at the byte 178 `fifthData` is 11, while the top four
bits in bits 2-5 with the marker would be `(178 / 16) * 4 + 3 = 47`. -/
theorem fifthData_top_bits_counterexample :
    fifthData 178 = 11 ∧ (178 / 16) * 4 + 3 = 47 ∧ fifthData 178 ≠ (178 / 16) * 4 + 3 := by
  decide

set_option maxRecDepth 100000 in
/-- C6, amended: for every byte `v`, `fifthData` places the bottom four bits of
`v` in bits 2-5 of the result and forces the bottom two bits to 11. -/
theorem fifthData_bottom_bits (v : Nat) (hv : v < 256) :
    fifthData v / 4 = v % 16 ∧ fifthData v % 4 = 3 ∧ fifthData v = (v % 16) * 4 + 3 := by
  revert v
  decide

/-- Witness of `fifthData_bottom_bits` at the byte 178. -/
theorem fifthData_bottom_bits_witness :
    178 < 256 ∧
    (fifthData 178 / 4 = 178 % 16 ∧ fifthData 178 % 4 = 3 ∧
      fifthData 178 = (178 % 16) * 4 + 3) :=
  ⟨by decide, fifthData_bottom_bits 178 (by decide)⟩

/-! ## Interpreter theorems -/

set_option maxRecDepth 100000 in
theorem operand_low_bits (b : Nat) (hb : b < 256) : toU32 (getOperand b) &&& 63 = b &&& 63 := by
  revert b
  decide

set_option maxRecDepth 100000 in
theorem opcode_cases (b : Nat) (hb : b < 256) :
    getOpcode b = 0 ∨ getOpcode b = 1 ∨ getOpcode b = 2 ∨ getOpcode b = 3 := by
  revert b
  decide

theorem obey_data (s : State) (b : Nat) (hb : b < 256) (hop : getOpcode b = DATA) :
    obey s b = ({ s with data := ((s.data <<< 6) % 4294967296) ||| (b &&& 63),
                         start := s.start + 1 }, []) := by
  simp [obey, hop, DATA, DX, DY, TOOL, operand_low_bits b hb]

theorem obeyAll_data (bs : List Nat) : ∀ (s : State), (∀ b ∈ bs, b < 256 ∧ getOpcode b = DATA) →
    obeyAll s bs = ({ s with data := accumulate s.data bs, start := s.start + bs.length }, []) := by
  induction bs with
  | nil => intro s _; simp [obeyAll, accumulate]
  | cons b bs ih =>
    intro s h
    have hb := h b (by simp)
    have h2 : ∀ c ∈ bs, c < 256 ∧ getOpcode c = DATA := fun c hc => h c (by simp [hc])
    simp [obeyAll, obey_data s b hb.1 hb.2, ih _ h2, accumulate]
    omega

theorem obeyAll_append (xs ys : List Nat) : ∀ (s : State),
    obeyAll s (xs ++ ys) =
      ((obeyAll (obeyAll s xs).1 ys).1, (obeyAll s xs).2 ++ (obeyAll (obeyAll s xs).1 ys).2) := by
  induction xs with
  | nil => intro s; simp [obeyAll]
  | cons x xs ih => intro s; simp [obeyAll, ih]

set_option maxRecDepth 100000 in
theorem putCoord_data (p : Nat) (hp : p < 256) :
    (∀ b ∈ putCoord p, b < 256 ∧ getOpcode b = DATA) ∧ accumulate 0 (putCoord p) = p := by
  revert p
  decide

set_option maxRecDepth 100000 in
theorem putCoord_shape (p : Nat) (hp : p < 256) :
    putCoord p = if p < 64 then [192 + p] else [192 + firstData p, 192 + secondData p] := by
  revert p
  decide

/-- An accumulator below `2^31` is the same number as an `int`. -/
theorem toI32_small (n : Nat) (h : n < 2147483648) : toI32 n = (n : Int) := by
  have e : n % 4294967296 = n := Nat.mod_eq_of_lt (by omega)
  simp [toI32, e, h]

theorem obey_targetx (s : State) :
    obey s 132 = ({ s with tx := toI32 s.data, data := 0, start := s.start + 1 }, []) := by
  have h1 : getOpcode 132 = 2 := by decide
  have h2 : getOperand 132 = 4 := by decide
  simp [obey, obeyTool, h1, h2, DX, DY, TOOL, DATA, NONE, LINE, BLOCK, COLOUR, TARGETX, TARGETY,
      SHOW, PAUSE, NEXTFRAME]

theorem obey_targety (s : State) :
    obey s 133 = ({ s with ty := toI32 s.data, data := 0, start := s.start + 1 }, []) := by
  have h1 : getOpcode 133 = 2 := by decide
  have h2 : getOperand 133 = 5 := by decide
  simp [obey, obeyTool, h1, h2, DX, DY, TOOL, DATA, NONE, LINE, BLOCK, COLOUR, TARGETX, TARGETY,
      SHOW, PAUSE, NEXTFRAME]

/-- C8: the encoder writes a coordinate below 64 as one `DATA` byte and any
other as the two `DATA` bytes of `firstData` and `secondData`; from a state with
an empty accumulator these bytes followed by `TOOL TARGETX` (132) leave
`tx = p` and `data = 0`, and followed by `TOOL TARGETY` (133) leave `ty = p`
and `data = 0`. -/
theorem wide_operand (p : Nat) (hp : p < 256) (s : State) (hs : s.data = 0) :
    putCoord p = (if p < 64 then [192 + p] else [192 + firstData p, 192 + secondData p]) ∧
    (obeyAll s (putCoord p ++ [132])).1.tx = (p : Int) ∧
    (obeyAll s (putCoord p ++ [132])).1.data = 0 ∧
    (obeyAll s (putCoord p ++ [133])).1.ty = (p : Int) ∧
    (obeyAll s (putCoord p ++ [133])).1.data = 0 := by
  have h := putCoord_data p hp
  refine ⟨putCoord_shape p hp, ?_, ?_, ?_, ?_⟩ <;>
    simp [obeyAll_append, obeyAll_data _ s h.1, hs, h.2, obeyAll, obey_targetx, obey_targety,
      toI32_small p (by omega)]

set_option maxRecDepth 100000 in
/-- C9: for every byte `b`, `getOpcode b = b / 64` is at most 3 and
`getOperand b` is the signed 6-bit value of the low six bits: it lies in
`-32..31`, is `b % 64` below 32 and `b % 64 - 64` otherwise, and
`b = 64 * getOpcode b + getOperand b % 64`. -/
theorem opcode_operand (b : Nat) (hb : b < 256) :
    getOpcode b = b / 64 ∧ getOpcode b ≤ 3 ∧
    -32 ≤ getOperand b ∧ getOperand b ≤ 31 ∧
    getOperand b = (if b % 64 < 32 then ((b % 64 : Nat) : Int) else ((b % 64 : Nat) : Int) - 64) ∧
    (b : Int) = 64 * (getOpcode b : Int) + getOperand b % 64 := by
  revert b
  decide

theorem obeyTool_cursor (s : State) (k : Int) :
    (obeyTool s k).1.x = s.x ∧ (obeyTool s k).1.y = s.y := by
  simp [obeyTool, apply_ite State.x, apply_ite State.y]

/-- C10: a byte whose opcode is not `DY` leaves the cursor `x`, `y` unchanged,
and a `DX` byte changes only `tx` (by the signed operand) and `start`, with no
display call. -/
theorem dx_frame (s : State) (b : Nat) (hb : b < 256) :
    (getOpcode b ≠ DY → (obey s b).1.x = s.x ∧ (obey s b).1.y = s.y) ∧
    (getOpcode b = DX →
      obey s b = ({ s with tx := s.tx + getOperand b, start := s.start + 1 }, [])) := by
  constructor
  · intro h
    rcases opcode_cases b hb with h0 | h1 | h2 | h3
    · simp [obey, h0, DX]
    · exact absurd h1 h
    · simp [obey, h2, DX, DY, TOOL, obeyTool_cursor]
    · simp [obey, h3, DX, DY, TOOL, DATA]
  · intro h
    simp [obey, h]


/-- Witness of `wide_operand` at the coordinate 200 and the initial state. -/
theorem wide_operand_witness :
    (200 < 256 ∧ newState.data = 0) ∧
    (putCoord 200 = (if 200 < 64 then [192 + 200]
        else [192 + firstData 200, 192 + secondData 200]) ∧
    (obeyAll newState (putCoord 200 ++ [132])).1.tx = ((200 : Nat) : Int) ∧
    (obeyAll newState (putCoord 200 ++ [132])).1.data = 0 ∧
    (obeyAll newState (putCoord 200 ++ [133])).1.ty = ((200 : Nat) : Int) ∧
    (obeyAll newState (putCoord 200 ++ [133])).1.data = 0) :=
  ⟨⟨by decide, rfl⟩, wide_operand 200 (by decide) newState rfl⟩

/-- Witness of `opcode_operand` at the byte 255. -/
theorem opcode_operand_witness :
    255 < 256 ∧
    (getOpcode 255 = 255 / 64 ∧ getOpcode 255 ≤ 3 ∧
    -32 ≤ getOperand 255 ∧ getOperand 255 ≤ 31 ∧
    getOperand 255 = (if 255 % 64 < 32 then ((255 % 64 : Nat) : Int)
      else ((255 % 64 : Nat) : Int) - 64) ∧
    ((255 : Nat) : Int) = 64 * (getOpcode 255 : Int) + getOperand 255 % 64) :=
  ⟨by decide, opcode_operand 255 (by decide)⟩

/-- Witness of `dx_frame` at the `DX` byte 35 (operand -29) and the initial
state. -/
theorem dx_frame_witness :
    35 < 256 ∧
    ((getOpcode 35 ≠ DY → (obey newState 35).1.x = newState.x ∧
        (obey newState 35).1.y = newState.y) ∧
    (getOpcode 35 = DX →
      obey newState 35 =
        ({ newState with tx := newState.tx + getOperand 35, start := newState.start + 1 },
          []))) :=
  ⟨by decide, dx_frame newState 35 (by decide)⟩

/-! ## Encoder: the loop of `pgmToSk` writes the runs of the rows -/

theorem look_cons (b : Nat) (bs : List Nat) : look (b :: bs) = (b, ⟨bs, false⟩) := rfl

theorem look_nil : look [] = (255, ⟨[], true⟩) := rfl

theorem fgetc_look (bs : List Nat) : fgetc ⟨bs, false⟩ = look bs := rfl

/-- The inner loop stops at the first pixel that differs from the colour of the
run, or at the end of the row. -/
theorem scanRun_row (c : Nat) (tail : List Nat) :
    ∀ (rowRest : List Nat) (wF : Nat), rowRest.length + wF = 200 →
      scanRun c (width - wF) wF (look (rowRest ++ tail)).1 (look (rowRest ++ tail)).2 =
        some (wF + (rowRest.takeWhile (fun p => decide (p = c))).length,
          (look (rowRest.dropWhile (fun p => decide (p = c)) ++ tail)).1,
          (look (rowRest.dropWhile (fun p => decide (p = c)) ++ tail)).2) := by
  intro rowRest
  induction rowRest with
  | nil =>
    intro wF h
    simp at h
    subst h
    simp [width, scanRun]
  | cons p ps ih =>
    intro wF h
    simp at h
    have hw : width - wF = (width - (wF + 1)) + 1 := by simp [width]; omega
    rw [hw]
    by_cases hpc : p = c
    · subst hpc
      have hlt : wF < width := by simp [width]; omega
      have hmod : (wF + 1) % 256 = wF + 1 := by omega
      simp only [scanRun, List.cons_append, look_cons, hlt, and_self, if_true, hmod, fgetc_look]
      rw [ih (wF + 1) (by omega)]
      simp
      omega
    · simp [scanRun, look_cons, hpc]

theorem takeWhile_length_add (c : Nat) (l : List Nat) :
    (l.takeWhile (fun p => decide (p = c))).length +
      (l.dropWhile (fun p => decide (p = c))).length = l.length := by
  rw [← List.length_append, List.takeWhile_append_dropWhile]

/-- One iteration of the outer loop inside a row. -/
theorem pgmBody_row (c w h : Nat) (rowRest tail : List Nat)
    (hlen : rowRest.length + w = 199) (hh : h < 200) :
    pgmBody ⟨c, w, w + 1, h, h + 1, ⟨rowRest ++ tail, false⟩⟩ =
      some (⟨c, w, h, w + 1 + (rowRest.takeWhile (fun p => decide (p = c))).length, h + 1⟩,
        if w + 1 + (rowRest.takeWhile (fun p => decide (p = c))).length = 200 then
          ⟨(look tail).1, 0, 1, h + 1, h + 2, (look tail).2⟩
        else
          ⟨(look (rowRest.dropWhile (fun p => decide (p = c)) ++ tail)).1,
            w + 1 + (rowRest.takeWhile (fun p => decide (p = c))).length,
            w + 1 + (rowRest.takeWhile (fun p => decide (p = c))).length + 1, h, h + 1,
            (look (rowRest.dropWhile (fun p => decide (p = c)) ++ tail)).2⟩) := by
  have hs := scanRun_row c tail rowRest (w + 1) (by omega)
  have hadd := takeWhile_length_add c rowRest
  simp only [pgmBody, fgetc_look, hs]
  by_cases hk : w + 1 + (rowRest.takeWhile (fun p => decide (p = c))).length = 200
  · have hd : rowRest.dropWhile (fun p => decide (p = c)) = [] := by
      apply List.eq_nil_of_length_eq_zero
      omega
    have h1 : (h + 1) % 256 = h + 1 := by omega
    have h2 : (h + 1 + 1) % 256 = h + 2 := by omega
    simp [hk, width, hd, h1, h2]
  · have h1 : (w + 1 + (rowRest.takeWhile (fun p => decide (p = c))).length + 1) % 256 =
        w + 1 + (rowRest.takeWhile (fun p => decide (p = c))).length + 1 := by omega
    simp [hk, width, h1]

/-- The runs of a row, one run at a time. -/
theorem rowRuns_skip (h c w : Nat) : ∀ (rest : List Nat) (wF : Nat),
    rowRuns h c w wF rest =
      match rest.dropWhile (fun p => decide (p = c)) with
      | [] => [⟨c, w, h, wF + (rest.takeWhile (fun p => decide (p = c))).length, h + 1⟩]
      | p :: ps =>
        ⟨c, w, h, wF + (rest.takeWhile (fun p => decide (p = c))).length, h + 1⟩ ::
          rowRuns h p (wF + (rest.takeWhile (fun p => decide (p = c))).length)
            (wF + (rest.takeWhile (fun p => decide (p = c))).length + 1) ps := by
  intro rest
  induction rest with
  | nil => intro wF; simp [rowRuns]
  | cons p ps ih =>
    intro wF
    by_cases hpc : p = c
    · subst hpc
      simp only [rowRuns, if_true, List.dropWhile_cons, List.takeWhile_cons, decide_True,
        List.length_cons]
      rw [ih (wF + 1)]
      have e : wF + 1 + (ps.takeWhile (fun q => decide (q = p))).length =
          wF + ((ps.takeWhile (fun q => decide (q = p))).length + 1) := by omega
      rw [e]
    · simp [rowRuns, hpc]

theorem pgmRuns_succ (fuel : Nat) (s : EncState) (hc : s.file.eof = false ∧ s.hFinal < height + 1)
    (run : Run) (s' : EncState) (hb : pgmBody s = some (run, s')) :
    pgmRuns (fuel + 1) s = (pgmRuns fuel s').map (fun runs => run :: runs) := by
  simp only [pgmRuns, hc, and_self, if_true, hb]
  cases pgmRuns fuel s' <;> rfl

/-- The outer loop over one row writes the runs of that row and goes on with
the next row. -/
theorem pgmRuns_row (h : Nat) (hh : h < 200) (tail : List Nat) :
    ∀ (n : Nat) (rowRest : List Nat), rowRest.length < n → ∀ (c w fuel : Nat),
      rowRest.length + w = 199 →
      pgmRuns (fuel + (rowRuns h c w (w + 1) rowRest).length)
          ⟨c, w, w + 1, h, h + 1, ⟨rowRest ++ tail, false⟩⟩ =
        (pgmRuns fuel ⟨(look tail).1, 0, 1, h + 1, h + 2, (look tail).2⟩).map
          (fun runs => rowRuns h c w (w + 1) rowRest ++ runs) := by
  intro n
  induction n with
  | zero => intro rowRest hn; omega
  | succ n ih =>
    intro rowRest hn c w fuel hlen
    have hb := pgmBody_row c w h rowRest tail hlen hh
    have hadd := takeWhile_length_add c rowRest
    rw [rowRuns_skip]
    cases hD : rowRest.dropWhile (fun p => decide (p = c)) with
    | nil =>
      rw [hD] at hadd hb
      have hk : w + 1 + (rowRest.takeWhile (fun p => decide (p = c))).length = 200 := by
        simp at hadd; omega
      simp only [hk, if_true] at hb
      simp only [List.length_singleton]
      rw [pgmRuns_succ fuel _ (by simp [height]; omega) _ _ hb]
      simp [hk]
    | cons p ps =>
      rw [hD] at hadd hb
      simp at hadd
      have hk : ¬ (w + 1 + (rowRest.takeWhile (fun p => decide (p = c))).length = 200) := by
        omega
      simp only [hk, if_false, List.cons_append, look_cons] at hb
      simp only [List.length_cons]
      rw [← Nat.add_assoc, pgmRuns_succ _ _ (by simp [height]; omega) _ _ hb]
      rw [ih ps (by omega) p _ fuel (by omega)]
      cases pgmRuns fuel ⟨(look tail).1, 0, 1, h + 1, h + 2, (look tail).2⟩ <;> simp

theorem pgmRuns_eof (fuel : Nat) (a b c d e : Nat) :
    pgmRuns fuel ⟨a, b, c, d, e, (look []).2⟩ = some [] := by
  cases fuel <;> simp [pgmRuns, look_nil]

/-- The outer loop over `n` whole rows writes the runs of these rows. -/
theorem pgmRuns_image : ∀ (n h : Nat) (pgm : List Nat) (fuel : Nat),
    pgm.length = 200 * n → h + n = 200 →
    pgmRuns (fuel + (imageRuns n h pgm).length)
        ⟨(look pgm).1, 0, 1, h, h + 1, (look pgm).2⟩ = some (imageRuns n h pgm) := by
  intro n
  induction n with
  | zero =>
    intro h pgm fuel hlen hn
    have hnil : pgm = [] := List.eq_nil_of_length_eq_zero (by omega)
    subst hnil
    simp only [imageRuns, List.length_nil, Nat.add_zero]
    exact pgmRuns_eof fuel _ _ _ _ _
  | succ n ih =>
    intro h pgm fuel hlen hn
    have hsplit : pgm = pgm.take 200 ++ pgm.drop 200 := (List.take_append_drop 200 pgm).symm
    have htl : (pgm.take 200).length = 200 := by simp; omega
    have hdl : (pgm.drop 200).length = 200 * n := by simp; omega
    cases hrow : pgm.take 200 with
    | nil => rw [hrow] at htl; simp at htl
    | cons c rowRest =>
      rw [hrow] at htl hsplit
      simp at htl
      have hlook : look pgm = (c, ⟨rowRest ++ pgm.drop 200, false⟩) := by
        conv => lhs; rw [hsplit]
        rfl
      simp only [imageRuns, width, hrow, rowRunsOf, hlook, List.length_append]
      have e : fuel + ((rowRuns h c 0 1 rowRest).length + (imageRuns n (h + 1) (pgm.drop 200)).length)
          = (fuel + (imageRuns n (h + 1) (pgm.drop 200)).length) + (rowRuns h c 0 1 rowRest).length := by
        omega
      rw [e]
      have hr := pgmRuns_row h (by omega) (pgm.drop 200) (rowRest.length + 1) rowRest (by omega) c 0
        (fuel + (imageRuns n (h + 1) (pgm.drop 200)).length) (by omega)
      simp only [Nat.zero_add] at hr
      rw [hr, ih (h + 1) (pgm.drop 200) fuel hdl (by omega)]
      simp

theorem rowRuns_length_le (h : Nat) : ∀ (rest : List Nat) (c w wF : Nat),
    (rowRuns h c w wF rest).length ≤ rest.length + 1 := by
  intro rest
  induction rest with
  | nil => intro c w wF; simp [rowRuns]
  | cons p ps ih =>
    intro c w wF
    by_cases hpc : p = c
    · simp only [rowRuns, hpc, if_true, List.length_cons]
      have := ih c w (wF + 1)
      omega
    · simp only [rowRuns, hpc, if_false, List.length_cons]
      have := ih p wF (wF + 1)
      omega

theorem rowRunsOf_length_le (h : Nat) (row : List Nat) : (rowRunsOf h row).length ≤ row.length := by
  cases row with
  | nil => simp [rowRunsOf]
  | cons c rest => simpa [rowRunsOf] using rowRuns_length_le h rest c 0 1

theorem imageRuns_length_le : ∀ (n h : Nat) (pgm : List Nat),
    (imageRuns n h pgm).length ≤ pgm.length := by
  intro n
  induction n with
  | zero => intro h pgm; simp [imageRuns]
  | succ n ih =>
    intro h pgm
    have h1 := rowRunsOf_length_le h (pgm.take width)
    have h2 := ih (h + 1) (pgm.drop width)
    simp only [imageRuns, List.length_append]
    simp only [List.length_take, List.length_drop] at h1 h2
    omega

/-- The runs written for a 200 x 200 raster are the runs of its rows. -/
theorem pgmToSkRuns_eq (pgm : List Nat) (hlen : pgm.length = 40000) :
    pgmToSkRuns pgm = some (imageRuns 200 0 pgm) := by
  have hle := imageRuns_length_le 200 0 pgm
  have h := pgmRuns_image 200 0 pgm (pgm.length + 1 - (imageRuns 200 0 pgm).length)
    (by omega) (by omega)
  have e : pgm.length + 1 - (imageRuns 200 0 pgm).length + (imageRuns 200 0 pgm).length
      = pgm.length + 1 := by omega
  rw [e] at h
  exact h

/-- The bytes written by the outer loop are the bytes of its runs. -/
theorem pgmLoop_eq_map : ∀ (fuel : Nat) (s : EncState),
    pgmLoop fuel s = (pgmRuns fuel s).map (fun runs => runs.flatMap putRun) := by
  intro fuel
  induction fuel with
  | zero => intro s; by_cases hc : s.file.eof = false ∧ s.hFinal < height + 1 <;> simp [pgmLoop, pgmRuns, hc]
  | succ fuel ih =>
    intro s
    by_cases hc : s.file.eof = false ∧ s.hFinal < height + 1
    · simp only [pgmLoop, pgmRuns, hc, and_self, if_true]
      cases hb : pgmBody s with
      | none => simp
      | some r =>
        obtain ⟨run, s'⟩ := r
        simp only [ih s']
        cases pgmRuns fuel s' <;> simp
    · simp [pgmLoop, pgmRuns, hc]

theorem pgmToSk_eq_map (pgm : List Nat) :
    pgmToSk pgm = (pgmToSkRuns pgm).map (fun runs => runs.flatMap putRun) :=
  pgmLoop_eq_map _ _

theorem pgmToSk_eq (pgm : List Nat) (hlen : pgm.length = 40000) :
    pgmToSk pgm = some ((imageRuns 200 0 pgm).flatMap putRun) := by
  rw [pgmToSk_eq_map, pgmToSkRuns_eq pgm hlen]
  rfl

/-! ## Encoder: the runs of a row tile it -/

theorem take_drop_cons (l : List Nat) (k m p : Nat) (ps : List Nat)
    (h : (l.drop k).take (m + 1) = p :: ps) :
    l.getD k 0 = p ∧ (l.drop (k + 1)).take m = ps := by
  cases hd : l.drop k with
  | nil => rw [hd] at h; simp at h
  | cons a t =>
    rw [hd] at h
    simp at h
    have h1 : l[k]? = some a := by
      have := List.getElem?_drop l k 0
      rw [hd] at this
      simpa using this.symm
    have h2 : l.drop (k + 1) = t := by
      have : (l.drop k).drop 1 = t := by rw [hd]; rfl
      rw [List.drop_drop] at this
      simpa [Nat.add_comm] using this
    constructor
    · simp [List.getD, h1, h.1]
    · rw [h2]; exact h.2

/-- The runs of a row tile it. -/
theorem rowRuns_tiles (pgm : List Nat) (r : Nat) :
    ∀ (rest : List Nat) (c w wF : Nat), w < wF → wF + rest.length = 200 →
      rest = (pgm.drop (r * width + wF)).take (200 - wF) →
      (∀ i, w ≤ i → i < wF → pixel pgm r i = c) →
      TilesRow pgm r w (rowRuns r c w wF rest) := by
  intro rest
  induction rest with
  | nil =>
    intro c w wF hw hlen _ hpix
    simp at hlen
    subst hlen
    simp only [rowRuns, TilesRow, width, true_and]
    exact ⟨hw, hpix, trivial⟩
  | cons p ps ih =>
    intro c w wF hw hlen hrest hpix
    simp at hlen
    have e : 200 - wF = (200 - (wF + 1)) + 1 := by omega
    rw [e] at hrest
    obtain ⟨hp, hps⟩ := take_drop_cons pgm _ _ p ps hrest.symm
    by_cases hpc : p = c
    · simp only [rowRuns, hpc, if_true]
      apply ih c w (wF + 1) (by omega) (by omega) hps.symm
      intro i hi1 hi2
      by_cases hi : i < wF
      · exact hpix i hi1 hi
      · have : i = wF := by omega
        subst this
        unfold pixel
        rw [hp, hpc]
    · simp only [rowRuns, hpc, if_false, TilesRow, true_and]
      refine ⟨hw, hpix, ?_⟩
      apply ih p wF (wF + 1) (by omega) (by omega) hps.symm
      intro i hi1 hi2
      have : i = wF := by omega
      subst this
      unfold pixel
      rw [hp]

theorem rowRunsOf_tiles (pgm : List Nat) (r : Nat) (hlen : r * width + 200 ≤ pgm.length) :
    TilesRow pgm r 0 (rowRunsOf r ((pgm.drop (r * width)).take width)) := by
  have hwd : width = 200 := rfl
  cases hrow : (pgm.drop (r * width)).take width with
  | nil =>
    have := congrArg List.length hrow
    simp [hwd] at this hlen
    omega
  | cons c rest =>
    have hl := congrArg List.length hrow
    simp [hwd] at hl hlen
    have hrow2 : (pgm.drop (r * width)).take (199 + 1) = c :: rest := hrow
    obtain ⟨hc, hrest⟩ := take_drop_cons pgm _ _ c rest hrow2
    simp only [rowRunsOf]
    apply rowRuns_tiles pgm r rest c 0 1 (by omega) (by omega) hrest.symm
    intro i _ hi
    have : i = 0 := by omega
    subst this
    simpa [pixel] using hc

theorem rowRuns_rows (h : Nat) : ∀ (rest : List Nat) (c w wF : Nat),
    ∀ run ∈ rowRuns h c w wF rest, run.hStart = h ∧ run.hFinal = h + 1 := by
  intro rest
  induction rest with
  | nil => intro c w wF run hrun; simp [rowRuns] at hrun; subst hrun; simp
  | cons p ps ih =>
    intro c w wF run hrun
    by_cases hpc : p = c
    · simp only [rowRuns, hpc, if_true] at hrun
      exact ih c w (wF + 1) run hrun
    · simp only [rowRuns, hpc, if_false, List.mem_cons] at hrun
      rcases hrun with h1 | h1
      · subst h1; simp
      · exact ih p wF (wF + 1) run h1

theorem rowRunsOf_rows (h : Nat) (row : List Nat) :
    ∀ run ∈ rowRunsOf h row, run.hStart = h ∧ run.hFinal = h + 1 := by
  cases row with
  | nil => intro run hrun; simp [rowRunsOf] at hrun
  | cons c rest => exact rowRuns_rows h rest c 0 1

theorem imageRuns_rows : ∀ (n h : Nat) (pgm : List Nat),
    ∀ run ∈ imageRuns n h pgm,
      h ≤ run.hStart ∧ run.hStart < h + n ∧ run.hFinal = run.hStart + 1 := by
  intro n
  induction n with
  | zero => intro h pgm run hrun; simp [imageRuns] at hrun
  | succ n ih =>
    intro h pgm run hrun
    simp only [imageRuns, List.mem_append] at hrun
    rcases hrun with h1 | h1
    · have := rowRunsOf_rows h _ run h1
      omega
    · have := ih (h + 1) _ run h1
      omega

/-- The runs of row `r` among the runs of an image are the runs of that row. -/
theorem rowOf_imageRuns : ∀ (n h : Nat) (pgm : List Nat) (r : Nat), h ≤ r → r < h + n →
    rowOf (imageRuns n h pgm) r = rowRunsOf r ((pgm.drop ((r - h) * width)).take width) := by
  intro n
  induction n with
  | zero => intro h pgm r h1 h2; omega
  | succ n ih =>
    intro h pgm r h1 h2
    have hwd : width = 200 := rfl
    simp only [rowOf, imageRuns, List.filter_append]
    by_cases hr : r = h
    · subst hr
      have e1 : (rowRunsOf r (pgm.take width)).filter (fun run => decide (run.hStart = r))
          = rowRunsOf r (pgm.take width) := by
        rw [List.filter_eq_self]
        intro run hrun
        simp [(rowRunsOf_rows r _ run hrun).1]
      have e2 : (imageRuns n (r + 1) (pgm.drop width)).filter
          (fun run => decide (run.hStart = r)) = [] := by
        rw [List.filter_eq_nil_iff]
        intro run hrun
        have := imageRuns_rows n (r + 1) _ run hrun
        simp
        omega
      rw [e1, e2]
      simp
    · have e1 : (rowRunsOf h (pgm.take width)).filter (fun run => decide (run.hStart = r))
          = [] := by
        rw [List.filter_eq_nil_iff]
        intro run hrun
        have := rowRunsOf_rows h _ run hrun
        simp
        omega
      have e2 := ih (h + 1) (pgm.drop width) r (by omega) (by omega)
      simp only [rowOf] at e2
      rw [e1, e2, List.drop_drop]
      have e3 : width + (r - (h + 1)) * width = (r - h) * width := by
        simp only [hwd]; omega
      rw [e3]
      simp

/-- The runs of an image are in the order of the rows. -/
theorem imageRuns_pairwise : ∀ (n h : Nat) (pgm : List Nat),
    List.Pairwise (fun a b : Run => a.hStart ≤ b.hStart) (imageRuns n h pgm) := by
  intro n
  induction n with
  | zero => intro h pgm; simp [imageRuns]
  | succ n ih =>
    intro h pgm
    simp only [imageRuns]
    rw [List.pairwise_append]
    refine ⟨?_, ih (h + 1) _, ?_⟩
    · apply List.pairwise_of_forall_mem_list
      intro a ha b hb
      have h1 := rowRunsOf_rows h _ a ha
      have h2 := rowRunsOf_rows h _ b hb
      omega
    · intro a ha b hb
      have h1 := rowRunsOf_rows h _ a ha
      have h2 := imageRuns_rows n (h + 1) _ b hb
      omega

/-- C3: the runs that `pgmToSk` writes for a 200 x 200 raster come in the order
of the rows, and the runs of each row `r` tile it: they lie in row `r`
(`hStart = r`, `hFinal = r + 1`), the first starts at column 0, each other one
starts where the one before it ended, the last ends at column 200, none is
empty, and the colour of a run is that of every pixel it spans. -/
theorem runs_tile_rows (pgm : List Nat) (hlen : pgm.length = 40000) :
    ∃ runs, pgmToSkRuns pgm = some runs ∧ pgmToSk pgm = some (runs.flatMap putRun) ∧
      List.Pairwise (fun a b : Run => a.hStart ≤ b.hStart) runs ∧
      (∀ run ∈ runs, run.hStart < 200) ∧
      ∀ r, r < 200 → TilesRow pgm r 0 (rowOf runs r) := by
  refine ⟨imageRuns 200 0 pgm, pgmToSkRuns_eq pgm hlen, pgmToSk_eq pgm hlen,
    imageRuns_pairwise 200 0 pgm, ?_, ?_⟩
  · intro run hrun
    have := imageRuns_rows 200 0 pgm run hrun
    omega
  · intro r hr
    rw [rowOf_imageRuns 200 0 pgm r (by omega) (by omega)]
    have hwd : width = 200 := rfl
    exact rowRunsOf_tiles pgm r (by rw [hwd]; omega)

/-! ## Encoder: the runs are maximal -/

theorem rowRuns_head (h : Nat) : ∀ (rest : List Nat) (c w wF : Nat),
    ∀ y ∈ (rowRuns h c w wF rest).head?, y.colour = c := by
  intro rest
  induction rest with
  | nil => intro c w wF y hy; simp [rowRuns] at hy; subst hy; rfl
  | cons p ps ih =>
    intro c w wF y hy
    by_cases hpc : p = c
    · simp only [rowRuns, hpc, if_true] at hy
      exact ih c w (wF + 1) y hy
    · simp [rowRuns, hpc] at hy
      subst hy; rfl

/-- Two successive runs of a row differ in colour. -/
theorem rowRuns_chain (h : Nat) : ∀ (rest : List Nat) (c w wF : Nat),
    List.Chain' (fun a b : Run => a.colour ≠ b.colour) (rowRuns h c w wF rest) := by
  intro rest
  induction rest with
  | nil => intro c w wF; simp [rowRuns]
  | cons p ps ih =>
    intro c w wF
    by_cases hpc : p = c
    · simp only [rowRuns, hpc, if_true]
      exact ih c w (wF + 1)
    · simp only [rowRuns, hpc, if_false]
      rw [List.chain'_cons']
      refine ⟨?_, ih p wF (wF + 1)⟩
      intro y hy
      have := rowRuns_head h ps p wF (wF + 1) y hy
      simp only [this]
      exact fun e => hpc e.symm

theorem rowRuns_wFinal_le (h : Nat) : ∀ (rest : List Nat) (c w wF : Nat),
    ∀ run ∈ rowRuns h c w wF rest, run.wFinal ≤ wF + rest.length := by
  intro rest
  induction rest with
  | nil => intro c w wF run hrun; simp [rowRuns] at hrun; subst hrun; simp
  | cons p ps ih =>
    intro c w wF run hrun
    by_cases hpc : p = c
    · simp only [rowRuns, hpc, if_true] at hrun
      have := ih c w (wF + 1) run hrun
      simp only [List.length_cons]; omega
    · simp only [rowRuns, hpc, if_false, List.mem_cons] at hrun
      rcases hrun with h1 | h1
      · subst h1; simp
      · have := ih p wF (wF + 1) run h1
        simp only [List.length_cons]; omega

/-- A row of one colour is a single run. -/
theorem rowRuns_const (h : Nat) : ∀ (rest : List Nat) (c w wF : Nat), (∀ p ∈ rest, p = c) →
    rowRuns h c w wF rest = [⟨c, w, h, wF + rest.length, h + 1⟩] := by
  intro rest
  induction rest with
  | nil => intro c w wF _; simp [rowRuns]
  | cons p ps ih =>
    intro c w wF hall
    have hp : p = c := hall p (by simp)
    simp only [rowRuns, hp, if_true]
    rw [ih c w (wF + 1) (fun q hq => hall q (by simp [hq]))]
    simp only [List.length_cons]
    have e : wF + 1 + ps.length = wF + (ps.length + 1) := by omega
    rw [e]

/-- A row whose colour changes at every pixel is made of runs of length 1. -/
theorem rowRuns_alternating (h : Nat) : ∀ (rest : List Nat) (c w : Nat),
    List.Chain' (fun a b : Nat => a ≠ b) (c :: rest) →
    (rowRuns h c w (w + 1) rest).length = rest.length + 1 ∧
      ∀ run ∈ rowRuns h c w (w + 1) rest, run.wFinal = run.wStart + 1 := by
  intro rest
  induction rest with
  | nil => intro c w _; simp [rowRuns]
  | cons p ps ih =>
    intro c w hch
    rw [List.chain'_cons] at hch
    have hpc : ¬ p = c := fun e => hch.1 e.symm
    have := ih p (w + 1) hch.2
    simp only [rowRuns, hpc, if_false, List.length_cons, List.mem_cons]
    refine ⟨by omega, ?_⟩
    intro run hrun
    rcases hrun with h1 | h1
    · subst h1; rfl
    · exact this.2 run h1

theorem row_getD (pgm : List Nat) (r i : Nat) (hi : i < 200) :
    ((pgm.drop (r * width)).take width).getD i 0 = pixel pgm r i := by
  have hwd : width = 200 := rfl
  simp [pixel, List.getD, List.getElem?_take, hi, hwd]

theorem row_length (pgm : List Nat) (r : Nat) (hlen : pgm.length = 40000) (hr : r < 200) :
    ((pgm.drop (r * width)).take width).length = 200 := by
  have hwd : width = 200 := rfl
  simp [hwd, hlen]
  omega

/-- The runs of a raster never span two rows nor pass the last column. -/
theorem imageRuns_bounds : ∀ (n h : Nat) (pgm : List Nat),
    ∀ run ∈ imageRuns n h pgm, run.hFinal = run.hStart + 1 ∧ run.wFinal ≤ 200 := by
  intro n
  induction n with
  | zero => intro h pgm run hrun; simp [imageRuns] at hrun
  | succ n ih =>
    intro h pgm run hrun
    simp only [imageRuns, List.mem_append] at hrun
    rcases hrun with h1 | h1
    · have h2 := rowRunsOf_rows h _ run h1
      refine ⟨by omega, ?_⟩
      cases hrow : pgm.take width with
      | nil => rw [hrow] at h1; simp [rowRunsOf] at h1
      | cons c rest =>
        rw [hrow] at h1
        have h3 := rowRuns_wFinal_le h rest c 0 1 run h1
        have h4 : (pgm.take width).length ≤ 200 := by simp [width]
        rw [hrow] at h4
        simp at h4
        omega
    · exact ih (h + 1) _ run h1

/-- Two successive runs of an image that lie in the same row differ in colour. -/
theorem imageRuns_chain : ∀ (n h : Nat) (pgm : List Nat),
    List.Chain' (fun a b : Run => a.hStart = b.hStart → a.colour ≠ b.colour)
      (imageRuns n h pgm) := by
  intro n
  induction n with
  | zero => intro h pgm; simp [imageRuns]
  | succ n ih =>
    intro h pgm
    simp only [imageRuns]
    rw [List.chain'_append]
    refine ⟨?_, ih (h + 1) _, ?_⟩
    · cases hrow : pgm.take width with
      | nil => simp [rowRunsOf]
      | cons c rest =>
        simp only [rowRunsOf]
        refine List.Chain'.imp ?_ (rowRuns_chain h rest c 0 1)
        intro a b hab _
        exact hab
    · intro x hx y hy hxy
      have h1 := rowRunsOf_rows h _ x (List.mem_of_mem_getLast? hx)
      have h2 := imageRuns_rows n (h + 1) _ y (List.mem_of_mem_head? hy)
      omega

/-- C4: the runs that `pgmToSk` writes for a 200 x 200 raster stay within one
row and within its 200 columns, and are maximal: two successive runs of the
same row have different colours. A row of 200 equal pixels is the single run
`[0,200)`, and a row whose colour changes at every pixel is 200 runs of length
1, whatever the pixels of the rows next to it. -/
theorem runs_maximal (pgm : List Nat) (hlen : pgm.length = 40000) :
    ∃ runs, pgmToSkRuns pgm = some runs ∧ pgmToSk pgm = some (runs.flatMap putRun) ∧
      (∀ run ∈ runs, run.hFinal = run.hStart + 1 ∧ run.wFinal ≤ 200) ∧
      List.Chain' (fun a b : Run => a.hStart = b.hStart → a.colour ≠ b.colour) runs ∧
      (∀ r, r < 200 → List.Chain' (fun a b : Run => a.colour ≠ b.colour) (rowOf runs r)) ∧
      (∀ r c, r < 200 → (∀ i, i < 200 → pixel pgm r i = c) →
        rowOf runs r = [⟨c, 0, r, 200, r + 1⟩]) ∧
      (∀ r, r < 200 → (∀ i, i + 1 < 200 → pixel pgm r i ≠ pixel pgm r (i + 1)) →
        (rowOf runs r).length = 200 ∧ ∀ run ∈ rowOf runs r, run.wFinal = run.wStart + 1) := by
  refine ⟨imageRuns 200 0 pgm, pgmToSkRuns_eq pgm hlen, pgmToSk_eq pgm hlen,
    imageRuns_bounds 200 0 pgm, imageRuns_chain 200 0 pgm, ?_, ?_, ?_⟩
  · intro r hr
    rw [rowOf_imageRuns 200 0 pgm r (by omega) (by omega)]
    cases hrow : (pgm.drop ((r - 0) * width)).take width with
    | nil => simp [rowRunsOf]
    | cons c rest => exact rowRuns_chain r rest c 0 1
  · intro r c hr hall
    rw [rowOf_imageRuns 200 0 pgm r (by omega) (by omega)]
    have hl := row_length pgm r hlen hr
    have hg := fun i hi => row_getD pgm r i hi
    cases hrow : (pgm.drop ((r - 0) * width)).take width with
    | nil => rw [show (r - 0) = r from rfl] at hrow; rw [hrow] at hl; simp at hl
    | cons c0 rest =>
      rw [show (r - 0) = r from rfl] at hrow
      rw [hrow] at hl hg
      simp at hl
      have hc0 : c0 = c := by
        have := hg 0 (by omega)
        simp at this
        rw [this]; exact hall 0 (by omega)
      have hrest : ∀ p ∈ rest, p = c := by
        intro p hp
        obtain ⟨j, hj, hpj⟩ := List.getElem_of_mem hp
        have := hg (j + 1) (by omega)
        simp [List.getD, hj] at this
        rw [← hpj, this]
        exact hall (j + 1) (by omega)
      simp only [rowRunsOf]
      rw [rowRuns_const r rest c0 0 1 (by rw [hc0]; exact hrest), hc0, hl]
  · intro r hr halt
    rw [rowOf_imageRuns 200 0 pgm r (by omega) (by omega)]
    have hl := row_length pgm r hlen hr
    have hg := fun i hi => row_getD pgm r i hi
    cases hrow : (pgm.drop ((r - 0) * width)).take width with
    | nil => rw [show (r - 0) = r from rfl] at hrow; rw [hrow] at hl; simp at hl
    | cons c0 rest =>
      rw [show (r - 0) = r from rfl] at hrow
      rw [hrow] at hl hg
      have hch : List.Chain' (fun a b : Nat => a ≠ b) (c0 :: rest) := by
        rw [List.chain'_iff_get]
        intro i hi
        have h1 := hg i (by simp at hl hi; omega)
        have h2 := hg (i + 1) (by simp at hl hi; omega)
        have hi1 : i < (c0 :: rest).length := by omega
        have hi2 : i + 1 < (c0 :: rest).length := by omega
        rw [List.getD_eq_getElem _ _ hi1] at h1
        rw [List.getD_eq_getElem _ _ hi2] at h2
        simp only [List.get_eq_getElem]
        rw [h1, h2]
        exact halt i (by simp at hl hi; omega)
      have halt2 := rowRuns_alternating r rest c0 0 hch
      simp only [Nat.zero_add] at halt2
      have hlen2 := halt2.1
      simp at hl
      simp only [rowRunsOf]
      exact ⟨by omega, halt2.2⟩

/-! ## Encoder: the bytes of a colour -/

theorem grey7_length : grey7.length = 40000 := by
  rw [grey7, List.length_replicate]

theorem imageRuns_succ (n h : Nat) (pgm : List Nat) :
    imageRuns (n + 1) h pgm =
      rowRunsOf h (pgm.take width) ++ imageRuns n (h + 1) (pgm.drop width) := rfl

theorem grey7_row : grey7.take width = 7 :: List.replicate 199 7 := by
  have hwd : width = 200 := rfl
  rw [grey7, hwd, List.take_replicate]
  rfl

theorem pgmBody_colour (s : EncState) (run : Run) (s' : EncState)
    (hb : pgmBody s = some (run, s')) :
    run.colour = s.colour ∧ run.wStart = s.wStart ∧ run.hStart = s.hStart ∧
      run.hFinal = s.hFinal := by
  unfold pgmBody at hb
  simp only at hb
  split at hb
  · exact absurd hb (by simp)
  · split at hb <;>
    · simp only [Option.some.injEq, Prod.mk.injEq] at hb
      rw [← hb.1]
      simp

set_option maxRecDepth 100000 in
theorem putColour_shape (c : Nat) (hc : c < 256) :
    putColour c = [192 + firstData c, 192 + secondData c, 192 + thirdData c,
      192 + fourthData c, 192 + fifthData c, 255, 131] ∧
    getOpcode (192 + firstData c) = DATA ∧ getOpcode (192 + secondData c) = DATA ∧
    getOpcode (192 + thirdData c) = DATA ∧ getOpcode (192 + fourthData c) = DATA ∧
    getOpcode (192 + fifthData c) = DATA := by
  revert c
  decide

/-- C7, as stated, fails: for the raster whose 40000 pixels are 7 the five
`DATA` bytes of the colour are followed by the byte 255, a sixth `DATA`
instruction, and `TOOL COLOUR` (131) comes only after it. -/
theorem colour_bytes_counterexample :
    ∃ out, pgmToSk grey7 = some out ∧
      out.take 5 = [192 + firstData 7, 192 + secondData 7, 192 + thirdData 7,
        192 + fourthData 7, 192 + fifthData 7] ∧
      out[5]? = some 255 ∧ out[5]? ≠ some 131 ∧ getOpcode 255 = DATA := by
  have h := pgmToSk_eq grey7 grey7_length
  have e1 := imageRuns_succ 199 0 grey7
  have e2 := grey7_row
  have e3 : rowRunsOf 0 (7 :: List.replicate 199 7) = [⟨7, 0, 0, 200, 1⟩] := by
    simp only [rowRunsOf]
    rw [rowRuns_const 0 (List.replicate 199 7) 7 0 1 (fun p hp => List.eq_of_mem_replicate hp),
      List.length_replicate]
  have e4 : putRun ⟨7, 0, 0, 200, 1⟩ = [192, 199, 193, 240, 223, 255, 131, 192, 132, 192, 133,
      128, 64, 195, 200, 132, 193, 133, 130, 64] := by decide
  rw [e1, e2, e3] at h
  simp only [List.flatMap_append, List.flatMap_cons, List.flatMap_nil, List.append_nil, e4] at h
  generalize List.flatMap (imageRuns 199 1 (List.drop width grey7)) putRun = rest at h
  have hpre : ([192, 199, 193, 240, 223, 255, 131, 192, 132, 192, 133,
      128, 64, 195, 200, 132, 193, 133, 130, 64] ++ rest)[5]? = some 255 := by
    rw [List.getElem?_append_left (by decide)]
    rfl
  refine ⟨_, h, ?_, hpre, ?_, ?_⟩
  · rw [List.take_append_of_le_length (by decide)]
    decide
  · rw [hpre]
    decide
  · decide

/-- C7, amended: the bytes that an iteration of the outer loop of `pgmToSk`
writes for the colour `c` of its run are six `DATA` instructions, the five
pack bytes `192 + firstData c`, ..., `192 + fifthData c` and then 255,
followed by the `TOOL COLOUR` instruction (131). -/
theorem colour_bytes (s : EncState) (run : Run) (s' : EncState) (hc : s.colour < 256)
    (hb : pgmBody s = some (run, s')) :
    run.colour = s.colour ∧
    (∃ rest, putRun run = [192 + firstData s.colour, 192 + secondData s.colour,
        192 + thirdData s.colour, 192 + fourthData s.colour, 192 + fifthData s.colour,
        255, 131] ++ rest) ∧
    getOpcode (192 + firstData s.colour) = DATA ∧ getOpcode (192 + secondData s.colour) = DATA ∧
    getOpcode (192 + thirdData s.colour) = DATA ∧ getOpcode (192 + fourthData s.colour) = DATA ∧
    getOpcode (192 + fifthData s.colour) = DATA ∧ getOpcode 255 = DATA ∧
    getOpcode 131 = TOOL ∧ getOperand 131 = COLOUR := by
  have h1 := pgmBody_colour s run s' hb
  have h2 := putColour_shape s.colour hc
  refine ⟨h1.1, ?_, h2.2.1, h2.2.2.1, h2.2.2.2.1, h2.2.2.2.2.1, h2.2.2.2.2.2, by decide,
    by decide, by decide⟩
  refine ⟨putCoord run.wStart ++ [132] ++ putCoord run.hStart ++ [133, 128, 64] ++
    putTail run.wFinal run.hFinal, ?_⟩
  simp only [putRun, putHead, h1.1, h2.1]
  simp

/-- Witness of `colour_bytes` at the first iteration on the one-pixel file `[7]`. -/
theorem colour_bytes_witness :
    ((pgmInit [7]).colour < 256 ∧
      pgmBody (pgmInit [7]) = some (⟨7, 0, 0, 1, 1⟩, ⟨255, 1, 2, 0, 1, ⟨[], true⟩⟩)) ∧
    ((⟨7, 0, 0, 1, 1⟩ : Run).colour = (pgmInit [7]).colour ∧
    (∃ rest, putRun ⟨7, 0, 0, 1, 1⟩ = [192 + firstData (pgmInit [7]).colour,
        192 + secondData (pgmInit [7]).colour,
        192 + thirdData (pgmInit [7]).colour, 192 + fourthData (pgmInit [7]).colour,
        192 + fifthData (pgmInit [7]).colour, 255, 131] ++ rest) ∧
    getOpcode (192 + firstData (pgmInit [7]).colour) = DATA ∧
    getOpcode (192 + secondData (pgmInit [7]).colour) = DATA ∧
    getOpcode (192 + thirdData (pgmInit [7]).colour) = DATA ∧
    getOpcode (192 + fourthData (pgmInit [7]).colour) = DATA ∧
    getOpcode (192 + fifthData (pgmInit [7]).colour) = DATA ∧ getOpcode 255 = DATA ∧
    getOpcode 131 = TOOL ∧ getOperand 131 = COLOUR) :=
  ⟨⟨by decide, by decide⟩,
    colour_bytes (pgmInit [7]) ⟨7, 0, 0, 1, 1⟩ ⟨255, 1, 2, 0, 1, ⟨[], true⟩⟩ (by decide)
      (by decide)⟩

/-- Witness of `runs_tile_rows` at the raster `grey7`. -/
theorem runs_tile_rows_witness :
    grey7.length = 40000 ∧
    ∃ runs, pgmToSkRuns grey7 = some runs ∧
      pgmToSk grey7 = some (runs.flatMap putRun) ∧
      List.Pairwise (fun a b : Run => a.hStart ≤ b.hStart) runs ∧
      (∀ run ∈ runs, run.hStart < 200) ∧
      ∀ r, r < 200 → TilesRow grey7 r 0 (rowOf runs r) :=
  ⟨grey7_length, runs_tile_rows grey7 grey7_length⟩

/-- Witness of `runs_maximal` at the raster `grey7`. -/
theorem runs_maximal_witness :
    grey7.length = 40000 ∧
    ∃ runs, pgmToSkRuns grey7 = some runs ∧
      pgmToSk grey7 = some (runs.flatMap putRun) ∧
      (∀ run ∈ runs, run.hFinal = run.hStart + 1 ∧ run.wFinal ≤ 200) ∧
      List.Chain' (fun a b : Run => a.hStart = b.hStart → a.colour ≠ b.colour) runs ∧
      (∀ r, r < 200 → List.Chain' (fun a b : Run => a.colour ≠ b.colour) (rowOf runs r)) ∧
      (∀ r c, r < 200 → (∀ i, i < 200 → pixel grey7 r i = c) →
        rowOf runs r = [⟨c, 0, r, 200, r + 1⟩]) ∧
      (∀ r, r < 200 →
        (∀ i, i + 1 < 200 →
          pixel grey7 r i ≠ pixel grey7 r (i + 1)) →
        (rowOf runs r).length = 200 ∧ ∀ run ∈ rowOf runs r, run.wFinal = run.wStart + 1) :=
  ⟨grey7_length, runs_maximal grey7 grey7_length⟩

/-! ## Decoder: the bytes of one run -/

theorem fgetc_cons (b : Nat) (t : List Nat) (e : Bool) :
    fgetc ⟨b :: t, e⟩ = (b, ⟨t, e⟩) := rfl

theorem steps_zero (s : DecState) : Steps 0 s s := fun _ => rfl

theorem steps_one (s : DecState) (he : s.file.eof = false) (hh : s.h < 200) :
    Steps 1 s (skBody s) := by
  intro fuel
  simp [skLoop, he, hh, height]

theorem steps_trans {a b : Nat} {s s' s'' : DecState} (h1 : Steps a s s') (h2 : Steps b s' s'') :
    Steps (a + b) s s'' := by
  intro fuel
  have e : fuel + (a + b) = (fuel + b) + a := by omega
  rw [e, h1, h2]

theorem steps_step {k : Nat} (s : DecState) {s'' : DecState} (he : s.file.eof = false)
    (hh : s.h < 200) (h2 : Steps k (skBody s) s'') : Steps (k + 1) s s'' := by
  have h := steps_trans (steps_one s he hh) h2
  rwa [Nat.add_comm] at h

theorem body_other (s : DecState) (t : Nat) (tail : List Nat) (hr : s.read = true)
    (hw : s.write = false) (h1 : t &&& 192 ≠ 192) (h2 : t ≠ 131) (h3 : t ≠ 128) :
    skBody (s.reading (t :: tail)) = ({ s with countData := 0 }).reading tail := by
  simp [skBody, DecState.reading, look_cons, h1, h2, h3, hr, hw, fgetc_look]

theorem body_data0 (s : DecState) (b : Nat) (tail : List Nat) (hr : s.read = true)
    (hw : s.write = false) (hb : b &&& 192 = 192) (hk : s.countData = 0) :
    skBody (s.reading (b :: tail)) = ({ s with datas0 := b, countData := 1 }).reading tail := by
  simp [skBody, DecState.reading, look_cons, hb, hr, hw, hk, fgetc_look]

theorem body_data1 (s : DecState) (b : Nat) (tail : List Nat) (hr : s.read = true)
    (hw : s.write = false) (hb : b &&& 192 = 192) (hk : s.countData = 1) :
    skBody (s.reading (b :: tail)) = ({ s with datas1 := b, countData := 2 }).reading tail := by
  simp [skBody, DecState.reading, look_cons, hb, hr, hw, hk, fgetc_look]

theorem body_data2 (s : DecState) (b : Nat) (tail : List Nat) (hr : s.read = true)
    (hw : s.write = false) (hb : b &&& 192 = 192) (hk : s.countData = 2) :
    skBody (s.reading (b :: tail)) = ({ s with datas2 := b, countData := 3 }).reading tail := by
  simp [skBody, DecState.reading, look_cons, hb, hr, hw, hk, fgetc_look]

theorem body_data3 (s : DecState) (b : Nat) (tail : List Nat) (hr : s.read = true)
    (hw : s.write = false) (hb : b &&& 192 = 192) (hk : s.countData = 3) :
    skBody (s.reading (b :: tail)) = ({ s with datas3 := b, countData := 4 }).reading tail := by
  simp [skBody, DecState.reading, look_cons, hb, hr, hw, hk, fgetc_look]

theorem body_data4 (s : DecState) (b : Nat) (tail : List Nat) (hr : s.read = true)
    (hw : s.write = false) (hb : b &&& 192 = 192) (hk : s.countData = 4) :
    skBody (s.reading (b :: tail)) = ({ s with datas4 := b, countData := 5 }).reading tail := by
  simp [skBody, DecState.reading, look_cons, hb, hr, hw, hk, fgetc_look]

/-- The sixth `DATA` byte in a row: the colour is computed from the five
stored ones. -/
theorem body_sixth (s : DecState) (b : Nat) (tail : List Nat) (hr : s.read = true)
    (hw : s.write = false) (hb : b &&& 192 = 192) (hk : s.countData = 5) :
    skBody (s.reading (b :: tail)) =
      ({ s with
          colour := (luminance (getRedOrOthers s.datas0 s.datas1) (getGreen s.datas2 s.datas3)
            (getBlue s.datas3 s.datas4)),
          countData := 0 }).reading tail := by
  simp [skBody, DecState.reading, look_cons, hb, hr, hw, hk, fgetc_look]

/-- The byte 131 followed by the two `DATA` bytes of a coordinate. -/
theorem body_colour2 (s : DecState) (b1 b2 : Nat) (tail : List Nat) (hr : s.read = true)
    (hw : s.write = false) (hb : b2 &&& 192 = 192) :
    skBody (s.reading (131 :: b1 :: b2 :: tail)) =
      ({ s with wStart := getRedOrOthers b1 b2, countData := 0 }).reading tail := by
  have h131 : ¬ (131 &&& 192 = 192) := by decide
  simp [skBody, DecState.reading, look_cons, hb, hr, hw, fgetc_look, h131, fgetc_cons]

/-- The byte 131 followed by the single `DATA` byte of a coordinate. -/
theorem body_colour1 (s : DecState) (b1 b2 : Nat) (tail : List Nat) (hr : s.read = true)
    (hw : s.write = false) (hb : b2 &&& 192 ≠ 192) :
    skBody (s.reading (131 :: b1 :: b2 :: tail)) =
      ({ s with wStart := (b1 &&& 63) % 256, countData := 0 }).reading (b2 :: tail) := by
  have h131 : ¬ (131 &&& 192 = 192) := by decide
  simp [skBody, DecState.reading, look_cons, hb, hr, hw, fgetc_look, h131, fgetc_cons]

/-- The byte 128, the byte after it and the two `DATA` bytes of a coordinate. -/
theorem body_none2 (s : DecState) (x b1 b2 : Nat) (tail : List Nat) (hr : s.read = true)
    (hw : s.write = false) (hb : b2 &&& 192 = 192) :
    skBody (s.reading (128 :: x :: b1 :: b2 :: tail)) =
      ({ s with
          wFinal := getRedOrOthers b1 b2,
          countData := 0,
          image := fillRow s.image s.h s.colour s.wStart (getRedOrOthers b1 b2),
          h := (if getRedOrOthers b1 b2 = 200 then (s.h + 1) % 256 else s.h) }).reading tail := by
  have h128 : ¬ (128 &&& 192 = 192) := by decide
  by_cases h200 : getRedOrOthers b1 b2 = 200 <;>
    simp [skBody, DecState.reading, look_cons, hb, hr, hw, fgetc_look, h128, fgetc_cons, h200]

/-- The byte 128, the byte after it and the single `DATA` byte of a coordinate. -/
theorem body_none1 (s : DecState) (x b1 b2 : Nat) (tail : List Nat) (hr : s.read = true)
    (hw : s.write = false) (hb : b2 &&& 192 ≠ 192) :
    skBody (s.reading (128 :: x :: b1 :: b2 :: tail)) =
      ({ s with
          wFinal := (b1 &&& 63) % 256,
          countData := 0,
          image := fillRow s.image s.h s.colour s.wStart ((b1 &&& 63) % 256),
          h := (if (b1 &&& 63) % 256 = 200 then (s.h + 1) % 256 else s.h) }).reading
        (b2 :: tail) := by
  have h128 : ¬ (128 &&& 192 = 192) := by decide
  by_cases h200 : (b1 &&& 63) % 256 = 200 <;>
    simp [skBody, DecState.reading, look_cons, hb, hr, hw, fgetc_look, h128, fgetc_cons, h200]

set_option maxRecDepth 100000 in
theorem colour_fields (c : Nat) (hc : c < 256) :
    ((192 + firstData c) % 256) &&& 192 = 192 ∧ ((192 + secondData c) % 256) &&& 192 = 192 ∧
    ((192 + thirdData c) % 256) &&& 192 = 192 ∧ ((192 + fourthData c) % 256) &&& 192 = 192 ∧
    ((192 + fifthData c) % 256) &&& 192 = 192 ∧
    getRedOrOthers ((192 + firstData c) % 256) ((192 + secondData c) % 256) = c ∧
    getGreen ((192 + thirdData c) % 256) ((192 + fourthData c) % 256) = c ∧
    getBlue ((192 + fourthData c) % 256) ((192 + fifthData c) % 256) = c := by
  revert c
  decide

set_option maxRecDepth 100000 in
theorem coord_one (v : Nat) (hv : v < 64) :
    ((192 + v) % 256) &&& 192 = 192 ∧ (((192 + v) % 256) &&& 63) % 256 = v := by
  revert v
  decide

set_option maxRecDepth 100000 in
theorem coord_two (v : Nat) (hv : v < 256) :
    ((192 + firstData v) % 256) &&& 192 = 192 ∧ ((192 + secondData v) % 256) &&& 192 = 192 ∧
    getRedOrOthers ((192 + firstData v) % 256) ((192 + secondData v) % 256) = v := by
  revert v
  decide

/-- The six `DATA` bytes of a colour: the decoder stores five of them and, on
the sixth, computes the luminance of the three unpacked channels. -/
theorem steps_colour (c : Nat) (hc : c < 256) (s : DecState) (tail : List Nat)
    (hr : s.read = true) (hw : s.write = false) (hk : s.countData = 0) (hh : s.h < 200) :
    Steps 6 (s.reading (putColour c ++ tail))
      (({ s with
          datas0 := (192 + firstData c) % 256,
          datas1 := (192 + secondData c) % 256,
          datas2 := (192 + thirdData c) % 256,
          datas3 := (192 + fourthData c) % 256,
          datas4 := (192 + fifthData c) % 256,
          colour := luminance c c c,
          countData := 0 }).reading (131 :: tail)) := by
  obtain ⟨h0, h1, h2, h3, h4, hred, hgreen, hblue⟩ := colour_fields c hc
  have h255 : 255 &&& 192 = 192 := by decide
  simp only [putColour, List.cons_append, List.nil_append]
  refine steps_step _ rfl (by exact hh) ?_
  rw [body_data0 s _ _ hr hw h0 hk]
  refine steps_step _ rfl (by exact hh) ?_
  simp only [body_data1, hr, hw, h1]
  refine steps_step _ rfl (by exact hh) ?_
  simp only [body_data2, hr, hw, h2]
  refine steps_step _ rfl (by exact hh) ?_
  simp only [body_data3, hr, hw, h3]
  refine steps_step _ rfl (by exact hh) ?_
  simp only [body_data4, hr, hw, h4]
  refine steps_step _ rfl (by exact hh) ?_
  simp only [body_sixth, hr, hw, h255, hred, hgreen, hblue]
  exact steps_zero _

/-- The byte 131 and the coordinate after it: `wStart` is recovered and the
decoder is positioned on the byte that follows the coordinate. -/
theorem steps_wStart (v : Nat) (hv : v < 256) (s : DecState) (t : Nat) (tail : List Nat)
    (hr : s.read = true) (hw : s.write = false) (hh : s.h < 200) (ht : t &&& 192 ≠ 192) :
    Steps 1 (s.reading (131 :: (putCoord v ++ t :: tail)))
      (({ s with wStart := v, countData := 0 }).reading (t :: tail)) := by
  refine steps_step _ rfl (by exact hh) ?_
  by_cases h64 : v < 64
  · obtain ⟨_, e2⟩ := coord_one v h64
    simp only [putCoord, h64, if_true, List.cons_append, List.nil_append]
    rw [body_colour1 s _ _ _ hr hw ht, e2]
    exact steps_zero _
  · obtain ⟨_, e2, e3⟩ := coord_two v hv
    simp only [putCoord, h64, if_false, List.cons_append, List.nil_append]
    rw [body_colour2 s _ _ _ hr hw e2, e3]
    exact steps_zero _

/-- The byte 128, the byte after it and the coordinate that follows: `wFinal`
is recovered, the pending run is written into the image, and the decoder is
positioned on the byte that follows the coordinate. -/
theorem steps_wFinal (v : Nat) (hv : v < 256) (s : DecState) (x t : Nat) (tail : List Nat)
    (hr : s.read = true) (hw : s.write = false) (hh : s.h < 200) (ht : t &&& 192 ≠ 192) :
    Steps 1 (s.reading (128 :: x :: (putCoord v ++ t :: tail)))
      (({ s with
          wFinal := v,
          countData := 0,
          image := fillRow s.image s.h s.colour s.wStart v,
          h := (if v = 200 then (s.h + 1) % 256 else s.h) }).reading (t :: tail)) := by
  refine steps_step _ rfl (by exact hh) ?_
  by_cases h64 : v < 64
  · obtain ⟨_, e2⟩ := coord_one v h64
    simp only [putCoord, h64, if_true, List.cons_append, List.nil_append]
    rw [body_none1 s _ _ _ _ hr hw ht, e2]
    exact steps_zero _
  · obtain ⟨_, e2, e3⟩ := coord_two v hv
    simp only [putCoord, h64, if_false, List.cons_append, List.nil_append]
    rw [body_none2 s _ _ _ _ hr hw e2, e3]
    exact steps_zero _

/-- A byte that is none of `DATA`, 131 and 128, a coordinate and another such
byte are passed over: only `countData` and `datas` change. -/
theorem steps_skip (v : Nat) (hv : v < 256) (s : DecState) (t1 t2 : Nat) (tail : List Nat)
    (hr : s.read = true) (hw : s.write = false) (hh : s.h < 200)
    (h1 : t1 &&& 192 ≠ 192 ∧ t1 ≠ 131 ∧ t1 ≠ 128) (h2 : t2 &&& 192 ≠ 192 ∧ t2 ≠ 131 ∧ t2 ≠ 128) :
    ∃ (k : Nat) (s' : DecState), k ≤ 4 ∧ Steps k (s.reading (t1 :: (putCoord v ++ t2 :: tail))) (s'.reading tail) ∧
      SameFrame s s' ∧ s'.countData = 0 := by
  by_cases h64 : v < 64
  · obtain ⟨e1, _⟩ := coord_one v h64
    refine ⟨3, { s with datas0 := (192 + v) % 256, countData := 0 }, by omega, ?_,
      ⟨rfl, rfl, rfl, rfl, rfl, rfl, rfl⟩, rfl⟩
    simp only [putCoord, h64, if_true, List.cons_append, List.nil_append]
    refine steps_step _ rfl (by exact hh) ?_
    rw [body_other s _ _ hr hw h1.1 h1.2.1 h1.2.2]
    refine steps_step _ rfl (by exact hh) ?_
    simp only [body_data0, hr, hw, e1]
    refine steps_step _ rfl (by exact hh) ?_
    simp only [body_other, hr, hw, h2.1, h2.2.1, h2.2.2, ne_eq, not_false_eq_true]
    exact steps_zero _
  · obtain ⟨e1, e2, _⟩ := coord_two v hv
    refine ⟨4,
      { s with
        datas0 := (192 + firstData v) % 256,
        datas1 := (192 + secondData v) % 256,
        countData := 0 },
      by omega, ?_, ⟨rfl, rfl, rfl, rfl, rfl, rfl, rfl⟩, rfl⟩
    simp only [putCoord, h64, if_false, List.cons_append, List.nil_append]
    refine steps_step _ rfl (by exact hh) ?_
    rw [body_other s _ _ hr hw h1.1 h1.2.1 h1.2.2]
    refine steps_step _ rfl (by exact hh) ?_
    simp only [body_data0, hr, hw, e1]
    refine steps_step _ rfl (by exact hh) ?_
    simp only [body_data1, hr, hw, e2]
    refine steps_step _ rfl (by exact hh) ?_
    simp only [body_other, hr, hw, h2.1, h2.2.1, h2.2.2, ne_eq, not_false_eq_true]
    exact steps_zero _

/-- The first part of the bytes of a run, up to the coordinate `wFinal`: the
decoder writes the run into the image. -/
theorem steps_run_head (run : Run) (hc : run.colour < 256) (hws : run.wStart < 256)
    (hhs : run.hStart < 256) (hwf : run.wFinal < 256) (s : DecState) (tail : List Nat)
    (hr : s.read = true) (hw : s.write = false) (hk : s.countData = 0) (hh : s.h < 200) :
    ∃ (k : Nat) (s' : DecState), k ≤ 12 ∧
      Steps k (s.reading (putRun run ++ tail))
        (s'.reading (132 :: (putCoord run.hFinal ++ 133 :: 130 :: 64 :: tail))) ∧
      s'.read = true ∧ s'.write = false ∧ s'.countData = 0 ∧
      s'.image = fillRow s.image s.h (luminance run.colour run.colour run.colour)
        run.wStart run.wFinal ∧
      s'.h = (if run.wFinal = 200 then (s.h + 1) % 256 else s.h) := by
  have e : putRun run ++ tail = putColour run.colour ++ (putCoord run.wStart ++ 132 ::
      (putCoord run.hStart ++ 133 :: 128 :: 64 :: (putCoord run.wFinal ++ 132 ::
        (putCoord run.hFinal ++ 133 :: 130 :: 64 :: tail)))) := by
    simp [putRun, putHead, putTail]
  rw [e]
  have a1 := steps_colour run.colour hc s (putCoord run.wStart ++ 132 ::
      (putCoord run.hStart ++ 133 :: 128 :: 64 :: (putCoord run.wFinal ++ 132 ::
        (putCoord run.hFinal ++ 133 :: 130 :: 64 :: tail)))) hr hw hk hh
  let s1 : DecState :=
    { s with
      datas0 := (192 + firstData run.colour) % 256,
      datas1 := (192 + secondData run.colour) % 256,
      datas2 := (192 + thirdData run.colour) % 256,
      datas3 := (192 + fourthData run.colour) % 256,
      datas4 := (192 + fifthData run.colour) % 256,
      colour := luminance run.colour run.colour run.colour,
      countData := 0 }
  have a2 := steps_wStart run.wStart hws s1 132 (putCoord run.hStart ++ 133 :: 128 :: 64 ::
      (putCoord run.wFinal ++ 132 :: (putCoord run.hFinal ++ 133 :: 130 :: 64 :: tail)))
      hr hw hh (by decide)
  let s2 : DecState := { s1 with wStart := run.wStart, countData := 0 }
  obtain ⟨k, s3, hk3, a3, hf3, hc3⟩ := steps_skip run.hStart hhs s2 132 133 (128 :: 64 ::
      (putCoord run.wFinal ++ 132 :: (putCoord run.hFinal ++ 133 :: 130 :: 64 :: tail)))
      hr hw hh (by decide) (by decide)
  obtain ⟨f1, f2, f3, f4, f5, f6, f7⟩ := hf3
  have hr3 : s3.read = true := by rw [f6]; exact hr
  have hw3 : s3.write = false := by rw [f7]; exact hw
  have hh3 : s3.h < 200 := by rw [f3]; exact hh
  have a4 := steps_wFinal run.wFinal hwf s3 64 132 (putCoord run.hFinal ++ 133 :: 130 :: 64 ::
      tail) hr3 hw3 hh3 (by decide)
  refine ⟨6 + (1 + (k + 1)), _, by omega,
    steps_trans a1 (steps_trans a2 (steps_trans a3 a4)), hr3, hw3, rfl, ?_, ?_⟩
  · show fillRow s3.image s3.h s3.colour s3.wStart run.wFinal = _
    rw [f5, f3, f4, f1]
  · show (if run.wFinal = 200 then (s3.h + 1) % 256 else s3.h) = _
    rw [f3]

/-- The rest of the bytes of a run, from the byte 132 after `wFinal` on: the
decoder passes over them. -/
theorem steps_run_tail (v : Nat) (hv : v < 256) (s : DecState) (tail : List Nat)
    (hr : s.read = true) (hw : s.write = false) (hh : s.h < 200) :
    ∃ (k : Nat) (s' : DecState), k ≤ 6 ∧
      Steps k (s.reading (132 :: (putCoord v ++ 133 :: 130 :: 64 :: tail))) (s'.reading tail) ∧
      SameFrame s s' ∧ s'.countData = 0 := by
  obtain ⟨k, s1, hk1, a1, hf1, hc1⟩ := steps_skip v hv s 132 133 (130 :: 64 :: tail) hr hw hh
    (by decide) (by decide)
  obtain ⟨f1, f2, f3, f4, f5, f6, f7⟩ := hf1
  have hr1 : s1.read = true := by rw [f6]; exact hr
  have hw1 : s1.write = false := by rw [f7]; exact hw
  have hh1 : s1.h < 200 := by rw [f3]; exact hh
  have a2 : Steps 2 (s1.reading (130 :: 64 :: tail))
      (({ s1 with countData := 0 }).reading tail) := by
    refine steps_step _ rfl (by exact hh1) ?_
    rw [body_other s1 _ _ hr1 hw1 (by decide) (by decide) (by decide)]
    refine steps_step _ rfl (by exact hh1) ?_
    rw [body_other { s1 with countData := 0 } 64 tail hr1 hw1 (by decide) (by decide)
      (by decide)]
    exact steps_zero _
  exact ⟨k + 2, _, by omega, steps_trans a1 a2, ⟨f1, f2, f3, f4, f5, f6, f7⟩, rfl⟩

/-! ## Decoder: the bytes of a list of runs -/

theorem putCoord_length (v : Nat) : 1 ≤ (putCoord v).length := by
  unfold putCoord
  split <;> simp

theorem putRun_length (run : Run) : 19 ≤ (putRun run).length := by
  have h1 := putCoord_length run.wStart
  have h2 := putCoord_length run.hStart
  have h3 := putCoord_length run.wFinal
  have h4 := putCoord_length run.hFinal
  simp only [putRun, putHead, putTail, putColour, List.length_append, List.length_cons,
    List.length_nil]
  omega

theorem skLoop_stop (fuel : Nat) (s : DecState) (h : ¬ (s.file.eof = false ∧ s.h < height)) :
    skLoop fuel s = some s := by
  cases fuel <;> simp only [skLoop, h, if_false]

theorem paintRuns_stop (runs : List Run) (h : Nat) (image : List Nat) (hh : ¬ h < 200) :
    paintRuns runs h image = image := by
  cases runs with
  | nil => rfl
  | cons run runs => simp [paintRuns, height, hh]

/-- The bytes of the runs `runs`, as `pgmToSk` writes them, make the loop of
`skToPgm` write the runs one after the other. -/
theorem skLoop_runs : ∀ (runs : List Run),
    (∀ run ∈ runs, run.colour < 256 ∧ run.wStart < 256 ∧ run.hStart < 256 ∧ run.wFinal < 256 ∧
      run.hFinal < 256) →
    ∀ (s : DecState), s.read = true → s.write = false → s.countData = 0 →
    ∀ (fuel : Nat), (runs.flatMap putRun).length + 1 ≤ fuel →
    ∃ s', skLoop fuel (s.reading (runs.flatMap putRun)) = some s' ∧
      s'.image = paintRuns runs s.h s.image := by
  intro runs
  induction runs with
  | nil =>
    intro _ s _ _ _ fuel _
    refine ⟨s.reading [], ?_, rfl⟩
    exact skLoop_stop fuel _ (by simp [DecState.reading, look_nil])
  | cons run runs ih =>
    intro hb s hr hw hk fuel hfuel
    have hrun := hb run (by simp)
    have hrest : ∀ r ∈ runs, r.colour < 256 ∧ r.wStart < 256 ∧ r.hStart < 256 ∧ r.wFinal < 256 ∧
        r.hFinal < 256 := fun r hr => hb r (by simp [hr])
    have hlen := putRun_length run
    simp only [List.flatMap_cons, List.length_append] at hfuel ⊢
    by_cases hh : s.h < 200
    · obtain ⟨k1, s1, hk1, a1, hr1, hw1, hc1, himg1, hh1⟩ :=
        steps_run_head run hrun.1 hrun.2.1 hrun.2.2.1 hrun.2.2.2.1 s (runs.flatMap putRun)
          hr hw hk hh
      have e1 : fuel = (fuel - k1) + k1 := by omega
      rw [e1, a1]
      by_cases hh2 : s1.h < 200
      · obtain ⟨k2, s2, hk2, a2, hf2, hc2⟩ :=
          steps_run_tail run.hFinal hrun.2.2.2.2 s1 (runs.flatMap putRun) hr1 hw1 hh2
        obtain ⟨f1, f2, f3, f4, f5, f6, f7⟩ := hf2
        have e2 : fuel - k1 = (fuel - k1 - k2) + k2 := by omega
        rw [e2, a2]
        obtain ⟨s', hs', himg'⟩ := ih hrest s2 (by rw [f6]; exact hr1) (by rw [f7]; exact hw1) hc2
          (fuel - k1 - k2) (by omega)
        refine ⟨s', hs', ?_⟩
        rw [himg', f3, f5, himg1, hh1]
        simp [paintRuns, height, hh]
      · refine ⟨_, skLoop_stop _ _ (by simp [DecState.reading, height, hh2]), ?_⟩
        show s1.image = _
        simp only [paintRuns, height, hh, if_true]
        rw [paintRuns_stop runs _ _ (by rw [← hh1]; exact hh2), himg1]
    · refine ⟨_, skLoop_stop _ _ (by simp [DecState.reading, height, hh]), ?_⟩
      simp [paintRuns, height, hh, DecState.reading]

/-- The raster that `skToPgm` writes for the bytes of the runs `runs`. -/
theorem skToPgm_runs (u : Uninit) (runs : List Run)
    (hb : ∀ run ∈ runs, run.colour < 256 ∧ run.wStart < 256 ∧ run.hStart < 256 ∧
      run.wFinal < 256 ∧ run.hFinal < 256) :
    skToPgm u (runs.flatMap putRun) = some (paintRuns runs 0 u.image) := by
  obtain ⟨s', hs', himg⟩ := skLoop_runs runs hb (skInit u []) rfl rfl rfl
    ((runs.flatMap putRun).length + 1) (Nat.le_refl _)
  have e : (skInit u []).reading (runs.flatMap putRun) = skInit u (runs.flatMap putRun) := rfl
  rw [e] at hs'
  simp only [skToPgm, hs', himg]
  rfl

/-! ## Decoder: the image written for the runs of a raster -/

theorem fill_length (h col : Nat) : ∀ (n a : Nat) (image : List Nat),
    ((List.range' a n).foldl (fun img i => img.set (h * width + i) col) image).length
      = image.length := by
  intro n
  induction n with
  | zero => intro a image; rfl
  | succ n ih =>
    intro a image
    simp only [List.range'_succ, List.foldl_cons]
    rw [ih]
    simp

theorem fill_getD (h col j : Nat) : ∀ (n a : Nat) (image : List Nat), j < image.length →
    ((List.range' a n).foldl (fun img i => img.set (h * width + i) col) image).getD j 0 =
      if h * width + a ≤ j ∧ j < h * width + a + n then col else image.getD j 0 := by
  intro n
  induction n with
  | zero =>
    intro a image _
    have h0 : ¬ (h * width + a ≤ j ∧ j < h * width + a + 0) := by omega
    simp only [h0, if_false]
    rfl
  | succ n ih =>
    intro a image hj
    simp only [List.range'_succ, List.foldl_cons]
    rw [ih (a + 1) _ (by simpa using hj)]
    by_cases h1 : h * width + a = j
    · have h2 : ¬ (h * width + (a + 1) ≤ j ∧ j < h * width + (a + 1) + n) := by omega
      have h3 : h * width + a ≤ j ∧ j < h * width + a + (n + 1) := by omega
      simp only [h2, h3, and_self, if_true, if_false]
      subst h1
      simp [List.getD, hj]
    · have e : (image.set (h * width + a) col).getD j 0 = image.getD j 0 := by
        simp [List.getD, List.getElem?_set, h1]
      rw [e]
      by_cases h2 : h * width + (a + 1) ≤ j ∧ j < h * width + (a + 1) + n
      · have h3 : h * width + a ≤ j ∧ j < h * width + a + (n + 1) := by omega
        simp only [h2, h3, and_self, if_true]
      · have h3 : ¬ (h * width + a ≤ j ∧ j < h * width + a + (n + 1)) := by omega
        simp only [h2, h3, if_false]

theorem fillRow_length (image : List Nat) (h col a b : Nat) :
    (fillRow image h col a b).length = image.length :=
  fill_length h col _ _ _

theorem fillRow_getD (image : List Nat) (h col a b j : Nat) (hab : a ≤ b)
    (hj : j < image.length) :
    (fillRow image h col a b).getD j 0 =
      if h * width + a ≤ j ∧ j < h * width + b then col else image.getD j 0 := by
  unfold fillRow
  rw [fill_getD _ _ _ _ _ _ hj]
  have e : h * width + a + (b - a) = h * width + b := by omega
  rw [e]

theorem tiles_le (pgm : List Nat) (h : Nat) : ∀ (runs : List Run) (w : Nat),
    TilesRow pgm h w runs → w ≤ 200 := by
  intro runs
  induction runs with
  | nil => intro w ht; simp [TilesRow, width] at ht; omega
  | cons run rest ih =>
    intro w ht
    simp only [TilesRow] at ht
    have := ih run.wFinal ht.2.2.2.2.2
    omega

theorem tiles_full (pgm : List Nat) (h : Nat) (runs : List Run)
    (ht : TilesRow pgm h 200 runs) : runs = [] := by
  cases runs with
  | nil => rfl
  | cons run rest =>
    simp only [TilesRow] at ht
    have := tiles_le pgm h rest run.wFinal ht.2.2.2.2.2
    omega

/-- The decoder writes the runs that tile a row into the image and moves to
the next row. -/
theorem paint_tiles (pgm : List Nat) (h : Nat) (hh : h < 200) (more : List Run) :
    ∀ (runs : List Run) (w : Nat) (image : List Nat), TilesRow pgm h w runs → w < 200 →
      Painted pgm image (h * 200 + w) →
      ∃ image', paintRuns (runs ++ more) h image = paintRuns more (h + 1) image' ∧
        Painted pgm image' ((h + 1) * 200) := by
  intro runs
  induction runs with
  | nil => intro w image ht hw; simp [TilesRow, width] at ht; omega
  | cons run rest ih =>
    intro w image ht hw hp
    simp only [TilesRow] at ht
    obtain ⟨_, _, h3, h4, h5, h6⟩ := ht
    have hle := tiles_le pgm h rest run.wFinal h6
    have hwd : width = 200 := rfl
    have hp1 : Painted pgm (fillRow image h (grey run.colour) run.wStart run.wFinal)
        (h * 200 + run.wFinal) := by
      refine ⟨by rw [fillRow_length]; exact hp.1, ?_⟩
      intro j hj
      rw [fillRow_getD _ _ _ _ _ _ (by omega) (by rw [hp.1]; omega), hwd]
      by_cases hin : h * 200 + run.wStart ≤ j
      · have hcond : h * 200 + run.wStart ≤ j ∧ j < h * 200 + run.wFinal := by omega
        simp only [hcond, and_self, if_true]
        have := h5 (j - h * 200) (by omega) (by omega)
        simp only [pixel, hwd] at this
        have e : h * 200 + (j - h * 200) = j := by omega
        rw [e] at this
        rw [this]
      · have hcond : ¬ (h * 200 + run.wStart ≤ j ∧ j < h * 200 + run.wFinal) := by
          omega
        simp only [hcond, if_false]
        exact hp.2 j (by omega)
    have hstep : paintRuns (run :: rest ++ more) h image =
        paintRuns (rest ++ more) (if run.wFinal = 200 then (h + 1) % 256 else h)
          (fillRow image h (grey run.colour) run.wStart run.wFinal) := by
      simp [paintRuns, height, hh, grey]
    rw [hstep]
    by_cases h200 : run.wFinal = 200
    · have hnil := tiles_full pgm h rest (by rw [← h200]; exact h6)
      subst hnil
      have hmod : (h + 1) % 256 = h + 1 := by omega
      simp only [h200, if_true, hmod, List.nil_append]
      refine ⟨_, rfl, ?_⟩
      have e : (h + 1) * 200 = h * 200 + 200 := by omega
      rw [e, ← h200]
      rw [h200] at hp1 ⊢
      exact hp1
    · simp only [h200, if_false]
      exact ih run.wFinal _ h6 (by omega) hp1

/-! ## Encoding, then decoding -/

/-- The decoder writes the runs of the rows `h` to 199 of a raster and ends
with the whole image painted. -/
theorem paint_image (pgm : List Nat) (hlen : pgm.length = 40000) :
    ∀ (n h : Nat) (image : List Nat), h + n = 200 → Painted pgm image (h * 200) →
      Painted pgm (paintRuns (imageRuns n h (pgm.drop (h * width))) h image) 40000 := by
  intro n
  induction n with
  | zero =>
    intro h image hn hp
    have e : h * 200 = 40000 := by omega
    rw [e] at hp
    simpa [imageRuns, paintRuns] using hp
  | succ n ih =>
    intro h image hn hp
    have hwd : width = 200 := rfl
    have ht := rowRunsOf_tiles pgm h (by rw [hwd]; omega)
    obtain ⟨image', he, hp'⟩ := paint_tiles pgm h (by omega)
      (imageRuns n (h + 1) (pgm.drop ((h + 1) * width))) _ 0 image ht (by omega) hp
    have e : (pgm.drop (h * width)).drop width = pgm.drop ((h + 1) * width) := by
      rw [List.drop_drop]
      congr 1
      rw [hwd]; omega
    simp only [imageRuns, e]
    rw [he]
    exact ih (h + 1) image' (by omega) hp'

theorem painted_all (pgm image : List Nat) (hlen : pgm.length = 40000)
    (hp : Painted pgm image 40000) : image = pgm.map grey := by
  apply List.ext_getElem
  · simp [hp.1, hlen]
  · intro j h1 h2
    have := hp.2 j (by rw [← hp.1]; exact h1)
    rw [List.getD_eq_getElem _ _ h1, List.getD_eq_getElem _ _ (by rw [hlen, ← hp.1]; exact h1)]
      at this
    simp [this]

theorem rowRuns_fields (h : Nat) : ∀ (rest : List Nat) (c w wF : Nat), w < wF →
    ∀ run ∈ rowRuns h c w wF rest,
      run.wStart < run.wFinal ∧ (run.colour = c ∨ run.colour ∈ rest) := by
  intro rest
  induction rest with
  | nil => intro c w wF hw run hrun; simp [rowRuns] at hrun; subst hrun; simp [hw]
  | cons p ps ih =>
    intro c w wF hw run hrun
    by_cases hpc : p = c
    · simp only [rowRuns, hpc, if_true] at hrun
      have := ih c w (wF + 1) (by omega) run hrun
      refine ⟨this.1, ?_⟩
      rcases this.2 with h1 | h1
      · exact Or.inl h1
      · exact Or.inr (List.mem_cons_of_mem _ h1)
    · simp only [rowRuns, hpc, if_false, List.mem_cons] at hrun
      rcases hrun with h1 | h1
      · subst h1; simp [hw]
      · have := ih p wF (wF + 1) (by omega) run h1
        refine ⟨this.1, Or.inr ?_⟩
        rcases this.2 with h2 | h2
        · rw [h2]; simp
        · exact List.mem_cons_of_mem _ h2

theorem imageRuns_fields : ∀ (n h : Nat) (pgm : List Nat),
    ∀ run ∈ imageRuns n h pgm, run.wStart < run.wFinal ∧ run.colour ∈ pgm := by
  intro n
  induction n with
  | zero => intro h pgm run hrun; simp [imageRuns] at hrun
  | succ n ih =>
    intro h pgm run hrun
    simp only [imageRuns, List.mem_append] at hrun
    rcases hrun with h1 | h1
    · cases hrow : pgm.take width with
      | nil => rw [hrow] at h1; simp [rowRunsOf] at h1
      | cons c rest =>
        rw [hrow] at h1
        have := rowRuns_fields h rest c 0 1 (by omega) run h1
        refine ⟨this.1, ?_⟩
        apply List.mem_of_mem_take
        rw [hrow]
        rcases this.2 with h2 | h2
        · rw [h2]; simp
        · exact List.mem_cons_of_mem _ h2
    · have := ih (h + 1) _ run h1
      exact ⟨this.1, List.mem_of_mem_drop this.2⟩

/-- Encoding a 200 x 200 raster and decoding the result gives, for each
pixel `c`, the luminance that line 223 computes from the channels `(c, c, c)`,
whatever the uninitialised locals of `skToPgm` hold. -/
theorem roundTrip_eq (u : Uninit) (pgm : List Nat) (hlen : pgm.length = 40000)
    (hb : ∀ p ∈ pgm, p < 256) (hu : u.image.length = 40000) :
    roundTrip u pgm = some (pgm.map grey) := by
  have hruns : ∀ run ∈ imageRuns 200 0 pgm, run.colour < 256 ∧ run.wStart < 256 ∧
      run.hStart < 256 ∧ run.wFinal < 256 ∧ run.hFinal < 256 := by
    intro run hrun
    have h1 := imageRuns_fields 200 0 pgm run hrun
    have h2 := imageRuns_bounds 200 0 pgm run hrun
    have h3 := imageRuns_rows 200 0 pgm run hrun
    exact ⟨hb _ h1.2, by omega, by omega, by omega, by omega⟩
  simp only [roundTrip, pgmToSk_eq pgm hlen, skToPgm_runs u _ hruns]
  have hp := paint_image pgm hlen 200 0 u.image (by omega) ⟨hu, fun j hj => by omega⟩
  simp only [Nat.zero_mul, List.drop_zero] at hp
  rw [painted_all pgm _ hlen hp]

set_option maxRecDepth 10000 in
theorem grey_seven : grey 7 = 6 := by decide

/-- C2 fails on the code: the raster `grey7`, whose 40000 pixels are 7, is
encoded by `pgmToSk` and decoded by `skToPgm` into the raster whose 40000
pixels are 6, since in binary64 `0.2126 * 7 + 0.7152 * 7 + 0.0722 * 7` is
just below 7 and the conversion to `unsigned char` cuts it to 6. -/
theorem roundTrip_grey7 :
    grey7.length = 40000 ∧ (∀ p ∈ grey7, p < 256) ∧
    roundTrip zeroUninit grey7 = some (List.replicate 40000 6) ∧
    roundTrip zeroUninit grey7 ≠ some grey7 := by
  have hb : ∀ p ∈ grey7, p < 256 := by
    intro p hp
    rw [grey7] at hp
    rw [List.eq_of_mem_replicate hp]
    decide
  have h : roundTrip zeroUninit grey7 = some (List.replicate 40000 6) := by
    rw [roundTrip_eq zeroUninit grey7 grey7_length hb
      (by rw [zeroUninit, List.length_replicate])]
    rw [grey7, List.map_replicate, grey_seven]
  refine ⟨grey7_length, hb, h, ?_⟩
  rw [h, grey7]
  intro he
  have h2 := (List.replicate_inj.mp (Option.some.inj he)).2
  revert h2
  decide

/-! ## Interpreter: frames, `DY` and the `TOOL` instructions -/

theorem obey_start (s : State) (b : Nat) : (obey s b).1.start = s.start + 1 := by
  unfold obey
  simp only []
  split
  · rfl
  · split
    · rfl
    · split
      · simp [obeyTool, apply_ite State.start]
      · split <;> rfl

set_option maxRecDepth 100000 in
theorem operand_nextframe (b : Nat) (hb : b < 256) :
    (getOpcode b = TOOL ∧ getOperand b = NEXTFRAME) ↔ b = 136 := by
  revert b
  decide

theorem obeyTool_ended (s : State) (k : Int) (hs : s.ended = false) :
    (obeyTool s k).1.ended = true ↔ k = NEXTFRAME := by
  by_cases hk : k = NEXTFRAME
  · simp [obeyTool, hk, NEXTFRAME, NONE, LINE, BLOCK, COLOUR, TARGETX, TARGETY, SHOW, PAUSE]
  · simp [obeyTool, hk, apply_ite State.ended, hs]

/-- C11: `obey` adds one to `start` whatever the byte; and from a state whose
`end` is false, `end` is true afterwards exactly when the byte is 136, the
`TOOL` instruction with sub-opcode `NEXTFRAME`. -/
theorem frame_suspension (s : State) (b : Nat) (hb : b < 256) :
    (obey s b).1.start = s.start + 1 ∧
    (getOpcode 136 = TOOL ∧ getOperand 136 = NEXTFRAME) ∧
    (s.ended = false → ((obey s b).1.ended = true ↔ b = 136)) := by
  refine ⟨obey_start s b, by decide, ?_⟩
  intro hs
  rw [← operand_nextframe b hb]
  rcases opcode_cases b hb with h0 | h1 | h2 | h3
  · simp [obey, h0, DX, TOOL, hs]
  · simp [obey, h1, DX, DY, TOOL, hs]
  · simp [obey, h2, DX, DY, TOOL, obeyTool_ended s _ hs]
  · simp [obey, h3, DX, DY, TOOL, DATA, hs]

/-- Witness of `frame_suspension` at the byte 136 and the initial state. -/
theorem frame_suspension_witness :
    136 < 256 ∧
    ((obey newState 136).1.start = newState.start + 1 ∧
    (getOpcode 136 = TOOL ∧ getOperand 136 = NEXTFRAME) ∧
    (newState.ended = false → ((obey newState 136).1.ended = true ↔ 136 = 136))) :=
  ⟨by decide, frame_suspension newState 136 (by decide)⟩

/-- C14: a `DY` byte with signed operand `k` sets `ty` to `s.ty + k`, makes one
call `line (x, y, tx, ty + k)` when the tool is `LINE`, one call
`block (x, y, tx - x, ty + k - y)` when it is `BLOCK` and none when it is
`NONE`, and then commits `x = tx`, `y = ty + k`; `tx`, `tool`, `data` and `end`
are unchanged. -/
theorem dy_semantics (s : State) (b : Nat) (hop : getOpcode b = DY) :
    (obey s b).1 = ⟨s.tx, s.ty + getOperand b, s.tx, s.ty + getOperand b, s.tool, s.start + 1,
      s.data, s.ended⟩ ∧
    (s.tool = LINE → (obey s b).2 = [Call.line s.x s.y s.tx (s.ty + getOperand b)]) ∧
    (s.tool = BLOCK →
      (obey s b).2 = [Call.block s.x s.y (s.tx - s.x) (s.ty + getOperand b - s.y)]) ∧
    (s.tool = NONE → (obey s b).2 = []) := by
  refine ⟨?_, ?_, ?_, ?_⟩
  · simp [obey, hop, DX, DY]
  · intro ht; simp [obey, hop, DX, DY, ht]
  · intro ht; simp [obey, hop, DX, DY, ht, BLOCK, LINE]
  · intro ht; simp [obey, hop, DX, DY, ht, BLOCK, LINE, NONE]

/-- Witness of `dy_semantics` at the byte 64 (`DY`, operand 0) and the initial
state. -/
theorem dy_semantics_witness :
    getOpcode 64 = DY ∧
    ((obey newState 64).1 = ⟨newState.tx, newState.ty + getOperand 64, newState.tx,
      newState.ty + getOperand 64, newState.tool, newState.start + 1, newState.data,
      newState.ended⟩ ∧
    (newState.tool = LINE →
      (obey newState 64).2 =
        [Call.line newState.x newState.y newState.tx (newState.ty + getOperand 64)]) ∧
    (newState.tool = BLOCK →
      (obey newState 64).2 = [Call.block newState.x newState.y (newState.tx - newState.x)
        (newState.ty + getOperand 64 - newState.y)]) ∧
    (newState.tool = NONE → (obey newState 64).2 = [])) :=
  ⟨by decide, dy_semantics newState 64 (by decide)⟩

theorem obey_none (s : State) :
    obey s 128 = (⟨s.x, s.y, s.tx, s.ty, NONE, s.start + 1, 0, s.ended⟩, []) := by
  have h1 : getOpcode 128 = 2 := by decide
  have h2 : getOperand 128 = 0 := by decide
  simp [obey, obeyTool, h1, h2, DX, DY, TOOL, DATA, NONE, LINE, BLOCK, COLOUR, TARGETX, TARGETY,
      SHOW, PAUSE, NEXTFRAME]

theorem obey_line (s : State) :
    obey s 129 = (⟨s.x, s.y, s.tx, s.ty, LINE, s.start + 1, 0, s.ended⟩, []) := by
  have h1 : getOpcode 129 = 2 := by decide
  have h2 : getOperand 129 = 1 := by decide
  simp [obey, obeyTool, h1, h2, DX, DY, TOOL, DATA, NONE, LINE, BLOCK, COLOUR, TARGETX, TARGETY,
      SHOW, PAUSE, NEXTFRAME]

theorem obey_block (s : State) :
    obey s 130 = (⟨s.x, s.y, s.tx, s.ty, BLOCK, s.start + 1, 0, s.ended⟩, []) := by
  have h1 : getOpcode 130 = 2 := by decide
  have h2 : getOperand 130 = 2 := by decide
  simp [obey, obeyTool, h1, h2, DX, DY, TOOL, DATA, NONE, LINE, BLOCK, COLOUR, TARGETX, TARGETY,
      SHOW, PAUSE, NEXTFRAME]

theorem obey_colour (s : State) :
    obey s 131 = (⟨s.x, s.y, s.tx, s.ty, s.tool, s.start + 1, 0, s.ended⟩,
      [Call.colour s.data]) := by
  have h1 : getOpcode 131 = 2 := by decide
  have h2 : getOperand 131 = 3 := by decide
  simp [obey, obeyTool, h1, h2, DX, DY, TOOL, DATA, NONE, LINE, BLOCK, COLOUR, TARGETX, TARGETY,
      SHOW, PAUSE, NEXTFRAME]

theorem obey_show (s : State) :
    obey s 134 = (⟨s.x, s.y, s.tx, s.ty, s.tool, s.start + 1, 0, s.ended⟩, [Call.show]) := by
  have h1 : getOpcode 134 = 2 := by decide
  have h2 : getOperand 134 = 6 := by decide
  simp [obey, obeyTool, h1, h2, DX, DY, TOOL, DATA, NONE, LINE, BLOCK, COLOUR, TARGETX, TARGETY,
      SHOW, PAUSE, NEXTFRAME]

theorem obey_pause (s : State) :
    obey s 135 = (⟨s.x, s.y, s.tx, s.ty, s.tool, s.start + 1, 0, s.ended⟩,
      [Call.pause s.data]) := by
  have h1 : getOpcode 135 = 2 := by decide
  have h2 : getOperand 135 = 7 := by decide
  simp [obey, obeyTool, h1, h2, DX, DY, TOOL, DATA, NONE, LINE, BLOCK, COLOUR, TARGETX, TARGETY,
      SHOW, PAUSE, NEXTFRAME]

theorem obey_nextframe (s : State) :
    obey s 136 = (⟨s.x, s.y, s.tx, s.ty, s.tool, s.start + 1, 0, true⟩, []) := by
  have h1 : getOpcode 136 = 2 := by decide
  have h2 : getOperand 136 = 8 := by decide
  simp [obey, obeyTool, h1, h2, DX, DY, TOOL, DATA, NONE, LINE, BLOCK, COLOUR, TARGETX, TARGETY,
      SHOW, PAUSE, NEXTFRAME]

/-- C15 fails as stated for an accumulator of `2^31` or more: six `DATA` bytes
255 load the accumulator with `2^32 - 1`, and `TARGETX` (byte 132) then leaves
`tx = -1`, the `int` with those 32 bits, not the accumulator `4294967295`;
likewise `TARGETY` (byte 133) and `ty`. -/
theorem tool_dispatch_counterexample :
    (obeyAll newState [255, 255, 255, 255, 255, 255]).1.data = 4294967295 ∧
    (obey (obeyAll newState [255, 255, 255, 255, 255, 255]).1 132).1.tx = -1 ∧
    (obey (obeyAll newState [255, 255, 255, 255, 255, 255]).1 132).1.tx ≠
      (((obeyAll newState [255, 255, 255, 255, 255, 255]).1.data : Nat) : Int) ∧
    (obey (obeyAll newState [255, 255, 255, 255, 255, 255]).1 133).1.ty = -1 ∧
    (obey (obeyAll newState [255, 255, 255, 255, 255, 255]).1 133).1.ty ≠
      (((obeyAll newState [255, 255, 255, 255, 255, 255]).1.data : Nat) : Int) := by
  decide

/-- C15, amended: the nine `TOOL` instructions, bytes 128 to 136. Each leaves
`data = 0` and `start` one higher; `NONE`, `LINE` and `BLOCK` set `tool` and make
no call; `COLOUR` calls `colour (data)`; `TARGETX` sets `tx`, and `TARGETY` sets
`ty`, to the accumulator read as a 32-bit `int`; `SHOW` calls `show`; `PAUSE`
calls `pause (data)`; `NEXTFRAME` sets `end`; every other field is unchanged.
The accumulator read as an `int` is `data` when `data < 2^31`, so that then
`tx = data` and `ty = data`, and `data - 2^32` from `2^31` on. -/
theorem tool_dispatch (s : State) :
    ((List.range 9).map (fun k => (getOpcode (128 + k), getOperand (128 + k)))
      = [(TOOL, NONE), (TOOL, LINE), (TOOL, BLOCK), (TOOL, COLOUR), (TOOL, TARGETX),
         (TOOL, TARGETY), (TOOL, SHOW), (TOOL, PAUSE), (TOOL, NEXTFRAME)]) ∧
    obey s 128 = (⟨s.x, s.y, s.tx, s.ty, NONE, s.start + 1, 0, s.ended⟩, []) ∧
    obey s 129 = (⟨s.x, s.y, s.tx, s.ty, LINE, s.start + 1, 0, s.ended⟩, []) ∧
    obey s 130 = (⟨s.x, s.y, s.tx, s.ty, BLOCK, s.start + 1, 0, s.ended⟩, []) ∧
    obey s 131 = (⟨s.x, s.y, s.tx, s.ty, s.tool, s.start + 1, 0, s.ended⟩,
      [Call.colour s.data]) ∧
    obey s 132 = (⟨s.x, s.y, toI32 s.data, s.ty, s.tool, s.start + 1, 0, s.ended⟩, []) ∧
    obey s 133 = (⟨s.x, s.y, s.tx, toI32 s.data, s.tool, s.start + 1, 0, s.ended⟩, []) ∧
    obey s 134 = (⟨s.x, s.y, s.tx, s.ty, s.tool, s.start + 1, 0, s.ended⟩, [Call.show]) ∧
    obey s 135 = (⟨s.x, s.y, s.tx, s.ty, s.tool, s.start + 1, 0, s.ended⟩,
      [Call.pause s.data]) ∧
    obey s 136 = (⟨s.x, s.y, s.tx, s.ty, s.tool, s.start + 1, 0, true⟩, []) ∧
    (s.data < 2147483648 →
      obey s 132 = (⟨s.x, s.y, (s.data : Int), s.ty, s.tool, s.start + 1, 0, s.ended⟩, []) ∧
      obey s 133 = (⟨s.x, s.y, s.tx, (s.data : Int), s.tool, s.start + 1, 0, s.ended⟩, [])) ∧
    (2147483648 ≤ s.data → s.data < 4294967296 →
      obey s 132 =
        (⟨s.x, s.y, (s.data : Int) - 4294967296, s.ty, s.tool, s.start + 1, 0, s.ended⟩, []) ∧
      obey s 133 =
        (⟨s.x, s.y, s.tx, (s.data : Int) - 4294967296, s.tool, s.start + 1, 0, s.ended⟩,
          [])) := by
  refine ⟨by decide, obey_none s, obey_line s, obey_block s, obey_colour s, obey_targetx s,
    obey_targety s, obey_show s, obey_pause s, obey_nextframe s, ?_, ?_⟩
  · intro h
    rw [obey_targetx, obey_targety, toI32_small _ h]
    exact ⟨rfl, rfl⟩
  · intro h1 h2
    have e : s.data % 4294967296 = s.data := Nat.mod_eq_of_lt h2
    have h3 : ¬ s.data < 2147483648 := by omega
    have e2 : toI32 s.data = (s.data : Int) - 4294967296 := by simp [toI32, e, h3]
    rw [obey_targetx, obey_targety, e2]
    exact ⟨rfl, rfl⟩

/-- Witness of `tool_dispatch` at a state whose accumulator holds 200 and at a
state whose accumulator holds `2^32 - 1`. -/
theorem tool_dispatch_witness :
    ((⟨1, 2, 3, 4, BLOCK, 5, 200, false⟩ : State).data < 2147483648 ∧
      obey ⟨1, 2, 3, 4, BLOCK, 5, 200, false⟩ 132 = (⟨1, 2, 200, 4, BLOCK, 6, 0, false⟩, []) ∧
      obey ⟨1, 2, 3, 4, BLOCK, 5, 200, false⟩ 133 = (⟨1, 2, 3, 200, BLOCK, 6, 0, false⟩, [])) ∧
    (2147483648 ≤ (⟨1, 2, 3, 4, BLOCK, 5, 4294967295, false⟩ : State).data ∧
      (⟨1, 2, 3, 4, BLOCK, 5, 4294967295, false⟩ : State).data < 4294967296 ∧
      obey ⟨1, 2, 3, 4, BLOCK, 5, 4294967295, false⟩ 132 =
        (⟨1, 2, -1, 4, BLOCK, 6, 0, false⟩, []) ∧
      obey ⟨1, 2, 3, 4, BLOCK, 5, 4294967295, false⟩ 133 =
        (⟨1, 2, 3, -1, BLOCK, 6, 0, false⟩, [])) :=
  ⟨⟨by decide,
      (tool_dispatch ⟨1, 2, 3, 4, BLOCK, 5, 200, false⟩).2.2.2.2.2.2.2.2.2.2.1 (by decide)⟩,
    ⟨by decide, by decide,
      (tool_dispatch ⟨1, 2, 3, 4, BLOCK, 5, 4294967295, false⟩).2.2.2.2.2.2.2.2.2.2.2
        (by decide) (by decide)⟩⟩

set_option maxRecDepth 100000 in
theorem colour_accumulate (c : Nat) (hc : c < 256) :
    (∀ b ∈ (putColour c).take 6, b < 256 ∧ getOpcode b = DATA) ∧
    accumulate 0 ((putColour c).take 6) = colourWord c ∧
    accumulateExact 0 ((putColour c).take 6) = colourWord c := by
  revert c
  decide

theorem putColour_split (c : Nat) : putColour c = (putColour c).take 6 ++ [131] := by
  simp [putColour]

theorem obeyAll_one (s : State) (b : Nat) : obeyAll s [b] = obey s b := by
  simp [obeyAll]

/-- The seven bytes of a colour: the accumulator is loaded with the colour
word, which `TOOL COLOUR` hands to the display. -/
theorem obeyAll_colour (c : Nat) (hc : c < 256) (s : State) (hs : s.data = 0) :
    obeyAll s (putColour c) =
      (⟨s.x, s.y, s.tx, s.ty, s.tool, s.start + 7, 0, s.ended⟩, [Call.colour (colourWord c)]) := by
  obtain ⟨h1, h2, _⟩ := colour_accumulate c hc
  have hl : ((putColour c).take 6).length = 6 := by simp [putColour]
  rw [putColour_split, obeyAll_append, obeyAll_data _ s h1, obeyAll_one, obey_colour, hs, h2, hl]
  simp

/-- A coordinate followed by `TOOL TARGETX`. -/
theorem obeyAll_targetx (p : Nat) (hp : p < 256) (s : State) (hs : s.data = 0) :
    obeyAll s (putCoord p ++ [132]) =
      (⟨s.x, s.y, (p : Int), s.ty, s.tool, s.start + (putCoord p).length + 1, 0, s.ended⟩, []) := by
  obtain ⟨h1, h2⟩ := putCoord_data p hp
  rw [obeyAll_append, obeyAll_data _ s h1, obeyAll_one, obey_targetx, hs, h2]
  simp [toI32_small p (by omega)]

/-- A coordinate followed by `TOOL TARGETY`. -/
theorem obeyAll_targety (p : Nat) (hp : p < 256) (s : State) (hs : s.data = 0) :
    obeyAll s (putCoord p ++ [133]) =
      (⟨s.x, s.y, s.tx, (p : Int), s.tool, s.start + (putCoord p).length + 1, 0, s.ended⟩, []) := by
  obtain ⟨h1, h2⟩ := putCoord_data p hp
  rw [obeyAll_append, obeyAll_data _ s h1, obeyAll_one, obey_targety, hs, h2]
  simp [toI32_small p (by omega)]

/-- The byte 64, `DY` with operand 0. -/
theorem obey_dy0 (s : State) :
    obey s 64 = (⟨s.tx, s.ty, s.tx, s.ty, s.tool, s.start + 1, s.data, s.ended⟩,
      if s.tool = LINE then [Call.line s.x s.y s.tx s.ty]
      else if s.tool = BLOCK then [Call.block s.x s.y (s.tx - s.x) (s.ty - s.y)]
      else []) := by
  have h1 : getOpcode 64 = 1 := by decide
  have h2 : getOperand 64 = 0 := by decide
  simp [obey, h1, h2, DX, DY]

/-- C16: from a state with an empty accumulator, the six `DATA` bytes that
`pgmToSk` writes before `TOOL COLOUR` for the colour `c` leave
`data = c * 2^24 + c * 2^16 + c * 2^8 + 255`; the accumulation never passes 32
bits, so the cut to 32 bits loses nothing; and the byte 131 which follows hands
that value to `colour`. -/
theorem colour_word (c : Nat) (hc : c < 256) (s : State) (hs : s.data = 0) :
    putColour c = [192 + firstData c, 192 + secondData c, 192 + thirdData c,
      192 + fourthData c, 192 + fifthData c, 255, 131] ∧
    (obeyAll s ((putColour c).take 6)).1.data = c * 2 ^ 24 + c * 2 ^ 16 + c * 2 ^ 8 + 255 ∧
    accumulateExact 0 ((putColour c).take 6) = c * 2 ^ 24 + c * 2 ^ 16 + c * 2 ^ 8 + 255 ∧
    (obeyAll s ((putColour c).take 6)).2 = [] ∧
    (obeyAll s (putColour c)).2 = [Call.colour (c * 2 ^ 24 + c * 2 ^ 16 + c * 2 ^ 8 + 255)] ∧
    (obeyAll s (putColour c)).1.data = 0 := by
  obtain ⟨h1, h2, h3⟩ := colour_accumulate c hc
  have hw : c * 2 ^ 24 + c * 2 ^ 16 + c * 2 ^ 8 + 255 = colourWord c := by
    simp [colourWord]
  rw [hw]
  refine ⟨(putColour_shape c hc).1, ?_, h3, ?_, ?_, ?_⟩
  · rw [obeyAll_data _ s h1, hs, h2]
  · rw [obeyAll_data _ s h1]
  · rw [obeyAll_colour c hc s hs]
  · rw [obeyAll_colour c hc s hs]

/-- Witness of `colour_word` at the colour 178 and the initial state. -/
theorem colour_word_witness :
    (178 < 256 ∧ newState.data = 0) ∧
    (putColour 178 = [192 + firstData 178, 192 + secondData 178, 192 + thirdData 178,
      192 + fourthData 178, 192 + fifthData 178, 255, 131] ∧
    (obeyAll newState ((putColour 178).take 6)).1.data
      = 178 * 2 ^ 24 + 178 * 2 ^ 16 + 178 * 2 ^ 8 + 255 ∧
    accumulateExact 0 ((putColour 178).take 6) = 178 * 2 ^ 24 + 178 * 2 ^ 16 + 178 * 2 ^ 8 + 255 ∧
    (obeyAll newState ((putColour 178).take 6)).2 = [] ∧
    (obeyAll newState (putColour 178)).2
      = [Call.colour (178 * 2 ^ 24 + 178 * 2 ^ 16 + 178 * 2 ^ 8 + 255)] ∧
    (obeyAll newState (putColour 178)).1.data = 0) :=
  ⟨⟨by decide, rfl⟩, colour_word 178 (by decide) newState rfl⟩

theorem obeyAll_append_eq {s s' s'' : State} {xs ys : List Nat} {c1 c2 : List Call}
    (h1 : obeyAll s xs = (s', c1)) (h2 : obeyAll s' ys = (s'', c2)) :
    obeyAll s (xs ++ ys) = (s'', c1 ++ c2) := by
  rw [obeyAll_append, h1, h2]

theorem obeyAll_start (bs : List Nat) : ∀ (s : State),
    (obeyAll s bs).1.start = s.start + bs.length := by
  induction bs with
  | nil => intro s; simp [obeyAll]
  | cons b bs ih =>
    intro s
    simp only [obeyAll, ih, obey_start, List.length_cons]
    omega

/-- C17: from a state with an empty accumulator, whatever its tool, cursor and
target, the bytes that `pgmToSk` writes for a run make exactly two display
calls, `colour` with the word `c c c 255` and then
`block (wStart, hStart, wFinal - wStart, hFinal - hStart)`, and end with
`x = tx = wFinal`, `y = ty = hFinal`, `tool = BLOCK` and `data = 0`. -/
theorem run_draws_block (run : Run) (hc : run.colour < 256) (hws : run.wStart < 256)
    (hhs : run.hStart < 256) (hwf : run.wFinal < 256) (hhf : run.hFinal < 256)
    (s : State) (hs : s.data = 0) :
    obeyAll s (putRun run) =
      (⟨(run.wFinal : Int), (run.hFinal : Int), (run.wFinal : Int), (run.hFinal : Int), BLOCK,
          s.start + (putRun run).length, 0, s.ended⟩,
        [Call.colour (run.colour * 2 ^ 24 + run.colour * 2 ^ 16 + run.colour * 2 ^ 8 + 255),
         Call.block (run.wStart : Int) (run.hStart : Int)
           ((run.wFinal : Int) - (run.wStart : Int)) ((run.hFinal : Int) - (run.hStart : Int))]) := by
  have e : putRun run = putColour run.colour ++ ((putCoord run.wStart ++ [132]) ++
      ((putCoord run.hStart ++ [133]) ++ ([128] ++ ([64] ++ ((putCoord run.wFinal ++ [132]) ++
        ((putCoord run.hFinal ++ [133]) ++ ([130] ++ [64]))))))) := by
    simp [putRun, putHead, putTail]
  have h := obeyAll_append_eq (obeyAll_colour run.colour hc s hs)
    (obeyAll_append_eq (obeyAll_targetx run.wStart hws _ rfl)
      (obeyAll_append_eq (obeyAll_targety run.hStart hhs _ rfl)
        (obeyAll_append_eq ((obeyAll_one _ 128).trans (obey_none _))
          (obeyAll_append_eq ((obeyAll_one _ 64).trans (obey_dy0 _))
            (obeyAll_append_eq (obeyAll_targetx run.wFinal hwf _ rfl)
              (obeyAll_append_eq (obeyAll_targety run.hFinal hhf _ rfl)
                (obeyAll_append_eq ((obeyAll_one _ 130).trans (obey_block _))
                  ((obeyAll_one _ 64).trans (obey_dy0 _)))))))))
  have hst := congrArg (fun r => r.1.start) h
  simp only [obeyAll_start] at hst
  rw [e, h]
  have hne1 : ¬ (NONE = LINE) := by decide
  have hne2 : ¬ (NONE = BLOCK) := by decide
  have hne3 : ¬ (BLOCK = LINE) := by decide
  simp only [hne1, hne2, hne3, if_false, if_true, List.append_nil, List.nil_append,
    List.singleton_append, colourWord, Prod.mk.injEq, State.mk.injEq, true_and, and_true]
  refine ⟨hst.symm, ?_⟩
  norm_num

/-- Witness of `run_draws_block` at the first run of `grey7` and the initial
state. -/
theorem run_draws_block_witness :
    ((⟨7, 0, 0, 200, 1⟩ : Run).colour < 256 ∧ (⟨7, 0, 0, 200, 1⟩ : Run).wStart < 256 ∧
      (⟨7, 0, 0, 200, 1⟩ : Run).hStart < 256 ∧ (⟨7, 0, 0, 200, 1⟩ : Run).wFinal < 256 ∧
      (⟨7, 0, 0, 200, 1⟩ : Run).hFinal < 256 ∧ newState.data = 0) ∧
    obeyAll newState (putRun ⟨7, 0, 0, 200, 1⟩) =
      (⟨((200 : Nat) : Int), ((1 : Nat) : Int), ((200 : Nat) : Int), ((1 : Nat) : Int), BLOCK,
          newState.start + (putRun ⟨7, 0, 0, 200, 1⟩).length, 0, newState.ended⟩,
        [Call.colour (7 * 2 ^ 24 + 7 * 2 ^ 16 + 7 * 2 ^ 8 + 255),
         Call.block ((0 : Nat) : Int) ((0 : Nat) : Int)
           (((200 : Nat) : Int) - ((0 : Nat) : Int)) (((1 : Nat) : Int) - ((0 : Nat) : Int))]) :=
  ⟨⟨by decide, by decide, by decide, by decide, by decide, rfl⟩,
    run_draws_block ⟨7, 0, 0, 200, 1⟩ (by decide) (by decide) (by decide) (by decide)
      (by decide) newState rfl⟩

theorem obeyTool_data (s : State) (k : Int) :
    (obeyTool s k).1.data = if 0 ≤ k ∧ k ≤ 8 then 0 else s.data := by
  by_cases hk : 0 ≤ k ∧ k ≤ 8
  · obtain ⟨h1, h2⟩ := hk
    interval_cases k <;>
      simp [obeyTool, NEXTFRAME, NONE, LINE, BLOCK, COLOUR, TARGETX, TARGETY, SHOW, PAUSE]
  · have h0 : k ≠ 0 := by omega
    have h1 : k ≠ 1 := by omega
    have h2 : k ≠ 2 := by omega
    have h3 : k ≠ 3 := by omega
    have h4 : k ≠ 4 := by omega
    have h5 : k ≠ 5 := by omega
    have h6 : k ≠ 6 := by omega
    have h7 : k ≠ 7 := by omega
    have h8 : k ≠ 8 := by omega
    simp [obeyTool, NEXTFRAME, NONE, LINE, BLOCK, COLOUR, TARGETX, TARGETY, SHOW, PAUSE,
      h0, h1, h2, h3, h4, h5, h6, h7, h8, hk]

set_option maxRecDepth 100000 in
theorem tool_operand_range (b : Nat) (hb : b < 256) :
    getOpcode b = 2 → ((0 ≤ getOperand b ∧ getOperand b ≤ 8) ↔ (128 ≤ b ∧ b ≤ 136)) := by
  revert b
  decide

set_option maxRecDepth 100000 in
theorem clears_is_tool (b : Nat) (hb : b < 256) :
    (128 ≤ b ∧ b ≤ 136) → getOpcode b = 2 := by
  revert b
  decide

/-- What one byte does to `data`. -/
theorem obey_data_field (s : State) (b : Nat) (hb : b < 256) :
    (obey s b).1.data =
      if clearsData b = true then 0
      else if isData b = true then ((s.data <<< 6) % 4294967296) ||| (b &&& 63)
      else s.data := by
  rcases opcode_cases b hb with h0 | h1 | h2 | h3
  · have hc : ¬ (128 ≤ b ∧ b ≤ 136) := fun h => by
      have := clears_is_tool b hb h; omega
    simp [obey, h0, DX, clearsData, isData, DATA, hc]
  · have hc : ¬ (128 ≤ b ∧ b ≤ 136) := fun h => by
      have := clears_is_tool b hb h; omega
    simp [obey, h1, DX, DY, clearsData, isData, DATA, hc]
  · have hr := tool_operand_range b hb h2
    by_cases hc : 128 ≤ b ∧ b ≤ 136
    · simp [obey, h2, DX, DY, TOOL, clearsData, hc, obeyTool_data, hr.mpr hc]
    · have hk : ¬ (0 ≤ getOperand b ∧ getOperand b ≤ 8) := fun h => hc (hr.mp h)
      simp [obey, h2, DX, DY, TOOL, clearsData, isData, DATA, hc, obeyTool_data, hk]
  · have hc : ¬ (128 ≤ b ∧ b ≤ 136) := fun h => by
      have := clears_is_tool b hb h; omega
    simp [obey, h3, DX, DY, TOOL, DATA, clearsData, isData, hc, operand_low_bits b hb]

theorem trailingData_all (bs : List Nat) (h : bs.all isData = true) : trailingData bs = bs := by
  cases bs with
  | nil => rfl
  | cons b bs => simp only [trailingData, h, if_true]

theorem obeyAll_cons_data (s : State) (b : Nat) (bs : List Nat) :
    (obeyAll s (b :: bs)).1.data = (obeyAll (obey s b).1 bs).1.data := rfl

/-- The accumulator after a sequence of bytes, in terms of the bytes that
affect it. -/
theorem obeyAll_data_field : ∀ (bs : List Nat), (∀ b ∈ bs, b < 256) → ∀ (s : State),
    (obeyAll s bs).1.data =
      if (bs.filter affectsData).all isData = true then accumulate s.data (bs.filter affectsData)
      else accumulate 0 (trailingData (bs.filter affectsData)) := by
  intro bs
  induction bs with
  | nil => intro _ s; simp [obeyAll, accumulate]
  | cons b bs ih =>
    intro hb s
    have hb0 := hb b (by simp)
    have hbs : ∀ c ∈ bs, c < 256 := fun c hc => hb c (by simp [hc])
    rw [obeyAll_cons_data, ih hbs, obey_data_field s b hb0]
    by_cases hc : clearsData b = true
    · have hd : isData b = false := by
        simp only [clearsData, decide_eq_true_eq] at hc
        have := clears_is_tool b hb0 hc
        simp [isData, this, DATA]
      have ha : affectsData b = true := by simp [affectsData, hc]
      by_cases hall : (bs.filter affectsData).all isData = true
      · simp [hc, List.filter_cons, ha, hd, trailingData, hall, trailingData_all _ hall]
      · simp [hc, List.filter_cons, ha, hd, trailingData, hall]
    · by_cases hd : isData b = true
      · have ha : affectsData b = true := by simp [affectsData, hd]
        by_cases hall : (bs.filter affectsData).all isData = true
        · simp [hc, List.filter_cons, ha, hd, trailingData, hall, accumulate]
        · simp [hc, List.filter_cons, ha, hd, trailingData, hall, accumulate]
      · have ha : ¬ (affectsData b = true) := by simp [affectsData, hc, hd]
        simp [hc, hd, List.filter_cons, ha]

/-- C13, as stated, fails: after the `DATA` byte 197 (operand 5) and the `DX`
byte 0 the accumulator still holds 5, although the last instruction is not a
`DATA` instruction and the block of `DATA` instructions that ends the sequence
is empty; and after the bytes 193, 0, 194 it holds `1 * 64 + 2`, not the 2 of
the block that ends the sequence. -/
theorem data_accumulator_counterexample :
    (getOpcode 197 = DATA ∧ getOpcode 0 = DX ∧ trailingData [197, 0] = [] ∧
      (obeyAll newState [197, 0]).1.data = 5 ∧
      (obeyAll newState [197, 0]).1.data ≠ accumulate 0 (trailingData [197, 0])) ∧
    (trailingData [193, 0, 194] = [194] ∧ (obeyAll newState [193, 0, 194]).1.data = 66 ∧
      (obeyAll newState [193, 0, 194]).1.data ≠ accumulate 0 (trailingData [193, 0, 194])) := by
  decide

/-- C13, amended: `data` is cleared by the nine `TOOL` instructions 128 to 136
and by nothing else, `DX`, `DY` and the other `TOOL` bytes leaving it as it is.
For every sequence of bytes executed from the initial state, the final `data`
is the accumulation, cut to 32 bits, of the block of consecutive `DATA`
instructions that ends the sequence once the instructions that leave `data`
unchanged are taken out; when the sequence has none of those, it is the
accumulation of the block of `DATA` instructions that ends the sequence itself;
and it is 0 when the last instruction is one of the nine `TOOL` instructions. -/
theorem data_accumulator (bs : List Nat) (hb : ∀ b ∈ bs, b < 256) :
    (obeyAll newState bs).1.data = accumulate 0 (trailingData (bs.filter affectsData)) ∧
    ((∀ b ∈ bs, affectsData b = true) →
      (obeyAll newState bs).1.data = accumulate 0 (trailingData bs)) ∧
    (∀ b, bs.getLast? = some b → clearsData b = true → (obeyAll newState bs).1.data = 0) := by
  have h1 : (obeyAll newState bs).1.data
      = accumulate 0 (trailingData (bs.filter affectsData)) := by
    rw [obeyAll_data_field bs hb newState]
    by_cases hall : (bs.filter affectsData).all isData = true
    · simp only [hall, if_true, trailingData_all _ hall]
      rfl
    · simp [hall]
  refine ⟨h1, ?_, ?_⟩
  · intro hall
    have hf : bs.filter affectsData = bs := List.filter_eq_self.mpr hall
    rw [h1, hf]
  · intro b hlast hc
    obtain ⟨pre, hpre⟩ : ∃ pre, bs = pre ++ [b] := by
      have hne : bs ≠ [] := by
        intro h; rw [h] at hlast; simp at hlast
      refine ⟨bs.dropLast, ?_⟩
      have h2 := List.dropLast_append_getLast hne
      have h3 : bs.getLast hne = b := by
        rw [List.getLast?_eq_getLast _ hne] at hlast
        exact Option.some.inj hlast
      rw [h3] at h2
      exact h2.symm
    have hb0 : b < 256 := hb b (by rw [hpre]; simp)
    rw [hpre, obeyAll_append, obeyAll_one]
    simp only [obey_data_field _ b hb0, hc, if_true]

/-- Witness of `data_accumulator` at the bytes 197, 0, 131, 193, 64, 194. -/
theorem data_accumulator_witness :
    (∀ b ∈ [197, 0, 131, 193, 64, 194], b < 256) ∧
    ((obeyAll newState [197, 0, 131, 193, 64, 194]).1.data
        = accumulate 0 (trailingData ([197, 0, 131, 193, 64, 194].filter affectsData)) ∧
    ((∀ b ∈ [197, 0, 131, 193, 64, 194], affectsData b = true) →
      (obeyAll newState [197, 0, 131, 193, 64, 194]).1.data
        = accumulate 0 (trailingData [197, 0, 131, 193, 64, 194])) ∧
    (∀ b, [197, 0, 131, 193, 64, 194].getLast? = some b → clearsData b = true →
      (obeyAll newState [197, 0, 131, 193, 64, 194]).1.data = 0)) :=
  ⟨by decide, data_accumulator [197, 0, 131, 193, 64, 194] (by decide)⟩

/-! ## Interpreter: render sessions -/

theorem obey_ended (s : State) (b : Nat) (hb : b < 256) (hs : s.ended = false) :
    (obey s b).1.ended = true ↔ b = 136 := by
  rw [← operand_nextframe b hb]
  rcases opcode_cases b hb with h0 | h1 | h2 | h3
  · simp [obey, h0, DX, TOOL, hs]
  · simp [obey, h1, DX, DY, TOOL, hs]
  · simp [obey, h2, DX, DY, TOOL, obeyTool_ended s _ hs]
  · simp [obey, h3, DX, DY, TOOL, DATA, hs]

theorem sketchLoop_eof (fuel : Nat) (s : State) (i : Nat) :
    sketchLoop fuel s i ⟨[], true⟩ = some (s, []) := by
  cases fuel <;> simp [sketchLoop]

/-- The loop of `processSketch` executes the bytes of one frame. -/
theorem sketchLoop_frame : ∀ (l : List Nat), (∀ b ∈ l, b < 256) → ∀ (s : State) (fuel : Nat),
    s.ended = false → l.length + 1 ≤ fuel →
    sketchLoop fuel s (look l).1 (look l).2 = some (obeyAll s (frameOf l)) := by
  intro l
  induction l with
  | nil =>
    intro _ s fuel _ _
    simp only [look_nil, frameOf, obeyAll]
    exact sketchLoop_eof fuel s 255
  | cons b bs ih =>
    intro hb s fuel hs hf
    have hb0 := hb b (by simp)
    have hbs : ∀ c ∈ bs, c < 256 := fun c hc => hb c (by simp [hc])
    obtain ⟨f, rfl⟩ : ∃ f, fuel = f + 1 := ⟨fuel - 1, by simp at hf; omega⟩
    simp only [List.length_cons] at hf
    have he := obey_ended s b hb0 hs
    by_cases h136 : b = 136
    · have ht : (obey s b).1.ended = true := he.mpr h136
      simp only [look_cons, sketchLoop, ht, if_true, frameOf, h136, obeyAll_one]
      rw [h136] at ht
      simp [ht]
    · have ht : ¬ ((obey s b).1.ended = true) := fun h => h136 (he.mp h)
      have hfalse : (obey s b).1.ended = false := by
        cases hx : (obey s b).1.ended
        · rfl
        · exact absurd hx ht
      simp only [look_cons, sketchLoop, ht, if_false, frameOf, h136, fgetc_look]
      rw [ih hbs (obey s b).1 f hfalse (by omega)]
      simp [obeyAll]

theorem frameOf_take : ∀ (l : List Nat) (i : Nat), l[i]? = some 136 →
    (∀ j, j < i → l[j]? ≠ some 136) → frameOf l = l.take (i + 1) := by
  intro l
  induction l with
  | nil => intro i h; simp at h
  | cons b bs ih =>
    intro i h hmin
    cases i with
    | zero =>
      simp at h
      simp [frameOf, h]
    | succ i =>
      have hb : b ≠ 136 := by
        have := hmin 0 (by omega)
        simpa using this
      simp only [List.getElem?_cons_succ] at h
      simp only [frameOf, hb, if_false, List.take_succ_cons]
      rw [ih i h]
      intro j hj
      have := hmin (j + 1) (by omega)
      simpa using this

theorem frameOf_all : ∀ (l : List Nat), (∀ (j : Nat), l[j]? ≠ some 136) → frameOf l = l := by
  intro l
  induction l with
  | nil => intro _; rfl
  | cons b bs ih =>
    intro h
    have hb : b ≠ 136 := by
      have := h 0
      simpa using this
    simp only [frameOf, hb, if_false]
    rw [ih]
    intro j
    have := h (j + 1)
    simpa using this

theorem obeyAll_frame_ended : ∀ (l : List Nat), (∀ b ∈ l, b < 256) → ∀ (s : State),
    s.ended = false → ((obeyAll s (frameOf l)).1.ended = true ↔ 136 ∈ l) := by
  intro l
  induction l with
  | nil => intro _ s hs; simp [frameOf, obeyAll, hs]
  | cons b bs ih =>
    intro hb s hs
    have hb0 := hb b (by simp)
    have hbs : ∀ c ∈ bs, c < 256 := fun c hc => hb c (by simp [hc])
    have he := obey_ended s b hb0 hs
    by_cases h136 : b = 136
    · simp only [frameOf, h136, if_true, obeyAll_one]
      rw [h136] at he
      simp [he.mpr rfl]
    · have hfalse : (obey s b).1.ended = false := by
        cases hx : (obey s b).1.ended
        · rfl
        · exact absurd (he.mp hx) h136
      simp only [frameOf, h136, if_false, obeyAll, List.mem_cons]
      rw [ih hbs _ hfalse]
      constructor
      · intro h; exact Or.inr h
      · intro h
        rcases h with h | h
        · exact absurd h.symm h136
        · exact h

/-- What `processSketch` does with a state whose `end` is false: it executes
the bytes of one frame from the offset `start` on. -/
theorem processSketch_frame (bytes : List Nat) (hb : ∀ b ∈ bytes, b < 256) (s : State)
    (hs : s.ended = false) (key : Int) :
    processSketch bytes (some s) key =
      some (some (if (obeyAll s (frameOf (bytes.drop s.start))).1.ended = false
          then ⟨0, 0, 0, 0, LINE, 0, 0, false⟩
          else ⟨0, 0, 0, 0, LINE, s.start + (frameOf (bytes.drop s.start)).length, 0, false⟩),
        (obeyAll s (frameOf (bytes.drop s.start))).2 ++ [Call.show], decide (key = 27)) := by
  have hd : ∀ b ∈ bytes.drop s.start, b < 256 := fun b h => hb b (List.mem_of_mem_drop h)
  have hl := sketchLoop_frame (bytes.drop s.start) hd s (bytes.length + 1) hs
    (by simp only [List.length_drop]; omega)
  simp only [processSketch, fgetc_look, hl, obeyAll_start]

theorem frameOf_prefix : ∀ (l : List Nat), ∃ n, frameOf l = l.take n := by
  intro l
  induction l with
  | nil => exact ⟨0, rfl⟩
  | cons b bs ih =>
    by_cases h136 : b = 136
    · exact ⟨1, by simp [frameOf, h136]⟩
    · obtain ⟨n, hn⟩ := ih
      exact ⟨n + 1, by simp [frameOf, h136, hn]⟩

/-- C12: a render session from a state whose `end` is false. When the bytes
hold a `NEXTFRAME` instruction (136) at or after the offset `start`, `k` being
the least such offset, `processSketch` executes the bytes at the offsets
`start` to `k` in order, calls `show` and returns the state with
`start = k + 1`, and the next call executes only bytes from the offset `k + 1`
on; when there is none, it executes all the bytes from the offset `start` on
and returns the initial state. -/
theorem render_session (bytes : List Nat) (hb : ∀ b ∈ bytes, b < 256) (s : State)
    (hs : s.ended = false) (key : Int) :
    (∀ k, s.start ≤ k → bytes[k]? = some 136 →
      (∀ j, s.start ≤ j → j < k → bytes[j]? ≠ some 136) →
      processSketch bytes (some s) key =
        some (some ⟨0, 0, 0, 0, LINE, k + 1, 0, false⟩,
          (obeyAll s ((bytes.drop s.start).take (k + 1 - s.start))).2 ++ [Call.show],
          decide (key = 27)) ∧
      ∀ (key2 : Int), ∃ st n,
        processSketch bytes (some ⟨0, 0, 0, 0, LINE, k + 1, 0, false⟩) key2 =
          some (some st,
            (obeyAll ⟨0, 0, 0, 0, LINE, k + 1, 0, false⟩ ((bytes.drop (k + 1)).take n)).2
              ++ [Call.show],
            decide (key2 = 27))) ∧
    ((∀ j, s.start ≤ j → bytes[j]? ≠ some 136) →
      processSketch bytes (some s) key =
        some (some newState, (obeyAll s (bytes.drop s.start)).2 ++ [Call.show],
          decide (key = 27))) := by
  have hd : ∀ b ∈ bytes.drop s.start, b < 256 := fun b h => hb b (List.mem_of_mem_drop h)
  have hp := processSketch_frame bytes hb s hs key
  constructor
  · intro k hk h136 hmin
    have hi : (bytes.drop s.start)[k - s.start]? = some 136 := by
      rw [List.getElem?_drop]
      have e : s.start + (k - s.start) = k := by omega
      rw [e]; exact h136
    have hm : ∀ j, j < k - s.start → (bytes.drop s.start)[j]? ≠ some 136 := by
      intro j hj
      rw [List.getElem?_drop]
      exact hmin (s.start + j) (by omega) (by omega)
    have hf := frameOf_take (bytes.drop s.start) (k - s.start) hi hm
    have e1 : k - s.start + 1 = k + 1 - s.start := by omega
    rw [e1] at hf
    have hmem : 136 ∈ bytes.drop s.start := List.getElem?_mem hi
    have hend := (obeyAll_frame_ended _ hd s hs).mpr hmem
    have hlen : (frameOf (bytes.drop s.start)).length = k + 1 - s.start := by
      rw [hf, List.length_take]
      have : k - s.start < (bytes.drop s.start).length := by
        by_contra hcon
        rw [List.getElem?_eq_none (by omega)] at hi
        exact absurd hi (by simp)
      omega
    constructor
    · rw [hp, hend, hlen, hf]
      have e2 : s.start + (k + 1 - s.start) = k + 1 := by omega
      simp [e2]
    · intro key2
      obtain ⟨n, hn⟩ := frameOf_prefix (bytes.drop (k + 1))
      have hp2 := processSketch_frame bytes hb ⟨0, 0, 0, 0, LINE, k + 1, 0, false⟩ rfl key2
      simp only at hp2
      rw [hn] at hp2
      exact ⟨_, n, hp2⟩
  · intro hnone
    have hall : ∀ (j : Nat), (bytes.drop s.start)[j]? ≠ some 136 := by
      intro j
      rw [List.getElem?_drop]
      exact hnone (s.start + j) (by omega)
    have hf := frameOf_all _ hall
    have hnot : 136 ∉ bytes.drop s.start := by
      intro hmem
      obtain ⟨j, hj, hj2⟩ := List.getElem_of_mem hmem
      have := hall j
      rw [List.getElem?_eq_getElem hj, hj2] at this
      exact this rfl
    have hend : (obeyAll s (frameOf (bytes.drop s.start))).1.ended = false := by
      cases hx : (obeyAll s (frameOf (bytes.drop s.start))).1.ended
      · rfl
      · exact absurd ((obeyAll_frame_ended _ hd s hs).mp hx) hnot
    rw [hp, hend, hf]
    simp [newState]

/-- Witness of `render_session` at a file of six bytes and the initial state. -/
theorem render_session_witness :
    ((∀ b ∈ [129, 5, 64, 136, 1, 65], b < 256) ∧ newState.ended = false) ∧
    ((∀ k, newState.start ≤ k → [129, 5, 64, 136, 1, 65][k]? = some 136 →
      (∀ j, newState.start ≤ j → j < k → [129, 5, 64, 136, 1, 65][j]? ≠ some 136) →
      processSketch [129, 5, 64, 136, 1, 65] (some newState) 0 =
        some (some ⟨0, 0, 0, 0, LINE, k + 1, 0, false⟩,
          (obeyAll newState
            (([129, 5, 64, 136, 1, 65].drop newState.start).take (k + 1 - newState.start))).2
              ++ [Call.show],
          decide ((0 : Int) = 27)) ∧
      ∀ (key2 : Int), ∃ st n,
        processSketch [129, 5, 64, 136, 1, 65] (some ⟨0, 0, 0, 0, LINE, k + 1, 0, false⟩) key2 =
          some (some st,
            (obeyAll ⟨0, 0, 0, 0, LINE, k + 1, 0, false⟩
              (([129, 5, 64, 136, 1, 65].drop (k + 1)).take n)).2 ++ [Call.show],
            decide (key2 = 27))) ∧
    ((∀ j, newState.start ≤ j → [129, 5, 64, 136, 1, 65][j]? ≠ some 136) →
      processSketch [129, 5, 64, 136, 1, 65] (some newState) 0 =
        some (some newState,
          (obeyAll newState ([129, 5, 64, 136, 1, 65].drop newState.start)).2 ++ [Call.show],
          decide ((0 : Int) = 27)))) :=
  ⟨⟨by decide, rfl⟩, render_session [129, 5, 64, 136, 1, 65] (by decide) newState rfl 0⟩

/-- C20: when the loop of `processSketch` stops on a `NEXTFRAME` instruction,
the state handed back has `x = y = tx = ty = 0`, `tool = LINE`, `data = 0` and
`end = false`, whatever the state `sEnd` was when the frame ended; only
`start` keeps the value it had in `sEnd`. -/
theorem frame_boundary (bytes : List Nat) (hb : ∀ b ∈ bytes, b < 256) (s : State)
    (hs : s.ended = false) (key : Int) (hnf : 136 ∈ bytes.drop s.start) :
    ∃ sEnd calls,
      sketchLoop (bytes.length + 1) s (look (bytes.drop s.start)).1
        (look (bytes.drop s.start)).2 = some (sEnd, calls) ∧
      sEnd.ended = true ∧
      processSketch bytes (some s) key =
        some (some ⟨0, 0, 0, 0, LINE, sEnd.start, 0, false⟩, calls ++ [Call.show],
          decide (key = 27)) := by
  have hd : ∀ b ∈ bytes.drop s.start, b < 256 := fun b h => hb b (List.mem_of_mem_drop h)
  have hl := sketchLoop_frame (bytes.drop s.start) hd s (bytes.length + 1) hs
    (by simp only [List.length_drop]; omega)
  have hend := (obeyAll_frame_ended _ hd s hs).mpr hnf
  refine ⟨(obeyAll s (frameOf (bytes.drop s.start))).1,
    (obeyAll s (frameOf (bytes.drop s.start))).2, hl, hend, ?_⟩
  simp only [processSketch, fgetc_look, hl, hend]
  simp

/-- Witness of `frame_boundary` at a file of six bytes and the initial state. -/
theorem frame_boundary_witness :
    ((∀ b ∈ [129, 5, 64, 136, 1, 65], b < 256) ∧ newState.ended = false ∧
      136 ∈ [129, 5, 64, 136, 1, 65].drop newState.start) ∧
    ∃ sEnd calls,
      sketchLoop (([129, 5, 64, 136, 1, 65] : List Nat).length + 1) newState
        (look ([129, 5, 64, 136, 1, 65].drop newState.start)).1
        (look ([129, 5, 64, 136, 1, 65].drop newState.start)).2 = some (sEnd, calls) ∧
      sEnd.ended = true ∧
      processSketch [129, 5, 64, 136, 1, 65] (some newState) 0 =
        some (some ⟨0, 0, 0, 0, LINE, sEnd.start, 0, false⟩, calls ++ [Call.show],
          decide ((0 : Int) = 27)) :=
  ⟨⟨by decide, rfl, by decide⟩,
    frame_boundary [129, 5, 64, 136, 1, 65] (by decide) newState rfl 0 (by decide)⟩

/-! ## Decoder: the loop on the bytes of one run -/

/-- The first five `DATA` bytes of a colour: the decoder stores them, and the
three channels unpacked from the stored bytes are the colour. -/
theorem steps_stored (c : Nat) (hc : c < 256) (s : DecState) (tail : List Nat)
    (hr : s.read = true) (hw : s.write = false) (hk : s.countData = 0) (hh : s.h < 200) :
    ∃ (s5 : DecState), Steps 5 (s.reading (putColour c ++ tail)) (s5.reading (255 :: 131 :: tail)) ∧
      s5.countData = 5 ∧ getRedOrOthers s5.datas0 s5.datas1 = c ∧
      getGreen s5.datas2 s5.datas3 = c ∧ getBlue s5.datas3 s5.datas4 = c := by
  obtain ⟨h0, h1, h2, h3, h4, hred, hgreen, hblue⟩ := colour_fields c hc
  refine ⟨{ s with
      datas0 := (192 + firstData c) % 256,
      datas1 := (192 + secondData c) % 256,
      datas2 := (192 + thirdData c) % 256,
      datas3 := (192 + fourthData c) % 256,
      datas4 := (192 + fifthData c) % 256,
      countData := 5 }, ?_, rfl, hred, hgreen, hblue⟩
  simp only [putColour, List.cons_append, List.nil_append]
  refine steps_step _ rfl (by exact hh) ?_
  rw [body_data0 s _ _ hr hw h0 hk]
  refine steps_step _ rfl (by exact hh) ?_
  simp only [body_data1, hr, hw, h1]
  refine steps_step _ rfl (by exact hh) ?_
  simp only [body_data2, hr, hw, h2]
  refine steps_step _ rfl (by exact hh) ?_
  simp only [body_data3, hr, hw, h3]
  refine steps_step _ rfl (by exact hh) ?_
  simp only [body_data4, hr, hw, h4]
  exact steps_zero _

/-- The first part of the bytes of a run, up to the coordinate `wFinal`: the
variables the decoder holds once the run is written. -/
theorem steps_run_vars (run : Run) (hc : run.colour < 256) (hws : run.wStart < 256)
    (hhs : run.hStart < 256) (hwf : run.wFinal < 256) (s : DecState) (tail : List Nat)
    (hr : s.read = true) (hw : s.write = false) (hk : s.countData = 0) (hh : s.h < 200) :
    ∃ (k : Nat) (s' : DecState), k ≤ 12 ∧
      Steps k (s.reading (putRun run ++ tail))
        (s'.reading (132 :: (putCoord run.hFinal ++ 133 :: 130 :: 64 :: tail))) ∧
      s'.read = true ∧ s'.write = false ∧ s'.countData = 0 ∧
      s'.image = fillRow s.image s.h (luminance run.colour run.colour run.colour)
        run.wStart run.wFinal ∧
      s'.h = (if run.wFinal = 200 then (s.h + 1) % 256 else s.h) ∧
      s'.colour = luminance run.colour run.colour run.colour ∧
      s'.wStart = run.wStart ∧ s'.wFinal = run.wFinal := by
  have e : putRun run ++ tail = putColour run.colour ++ (putCoord run.wStart ++ 132 ::
      (putCoord run.hStart ++ 133 :: 128 :: 64 :: (putCoord run.wFinal ++ 132 ::
        (putCoord run.hFinal ++ 133 :: 130 :: 64 :: tail)))) := by
    simp [putRun, putHead, putTail]
  rw [e]
  have a1 := steps_colour run.colour hc s (putCoord run.wStart ++ 132 ::
      (putCoord run.hStart ++ 133 :: 128 :: 64 :: (putCoord run.wFinal ++ 132 ::
        (putCoord run.hFinal ++ 133 :: 130 :: 64 :: tail)))) hr hw hk hh
  let s1 : DecState :=
    { s with
      datas0 := (192 + firstData run.colour) % 256,
      datas1 := (192 + secondData run.colour) % 256,
      datas2 := (192 + thirdData run.colour) % 256,
      datas3 := (192 + fourthData run.colour) % 256,
      datas4 := (192 + fifthData run.colour) % 256,
      colour := luminance run.colour run.colour run.colour,
      countData := 0 }
  have a2 := steps_wStart run.wStart hws s1 132 (putCoord run.hStart ++ 133 :: 128 :: 64 ::
      (putCoord run.wFinal ++ 132 :: (putCoord run.hFinal ++ 133 :: 130 :: 64 :: tail)))
      hr hw hh (by decide)
  let s2 : DecState := { s1 with wStart := run.wStart, countData := 0 }
  obtain ⟨k, s3, hk3, a3, hf3, hc3⟩ := steps_skip run.hStart hhs s2 132 133 (128 :: 64 ::
      (putCoord run.wFinal ++ 132 :: (putCoord run.hFinal ++ 133 :: 130 :: 64 :: tail)))
      hr hw hh (by decide) (by decide)
  obtain ⟨f1, f2, f3, f4, f5, f6, f7⟩ := hf3
  have hr3 : s3.read = true := by rw [f6]; exact hr
  have hw3 : s3.write = false := by rw [f7]; exact hw
  have hh3 : s3.h < 200 := by rw [f3]; exact hh
  have a4 := steps_wFinal run.wFinal hwf s3 64 132 (putCoord run.hFinal ++ 133 :: 130 :: 64 ::
      tail) hr3 hw3 hh3 (by decide)
  refine ⟨6 + (1 + (k + 1)), _, by omega,
    steps_trans a1 (steps_trans a2 (steps_trans a3 a4)), hr3, hw3, rfl, ?_, ?_, ?_, ?_, rfl⟩
  · show fillRow s3.image s3.h s3.colour s3.wStart run.wFinal = _
    rw [f5, f3, f4, f1]
  · show (if run.wFinal = 200 then (s3.h + 1) % 256 else s3.h) = _
    rw [f3]
  · show s3.colour = _
    rw [f4]
  · show s3.wStart = _
    rw [f1]

/-- C18 fails as stated when the run ends the last row: from row 199, the run
of colour 7 over the columns `[0, 200)` is written and `h` becomes 200, so the
loop ends with the decoder on the byte 132 that follows the coordinate
`wFinal`, and the five bytes after it are never read: the decoder is not on
the first byte after the run. -/
theorem decoder_run_counterexample :
    ∃ st, skLoop 30 (({ skInit zeroUninit [] with h := 199 }).reading
        (putRun ⟨7, 0, 199, 200, 200⟩)) = some st ∧
      st.h = 200 ∧ st.countData = 0 ∧ st.instruction = 132 ∧
      st.file = ⟨[195, 200, 133, 130, 64], false⟩ := by
  obtain ⟨k, s1, hk, a, _, _, hc, _, hh, _⟩ :=
    steps_run_vars ⟨7, 0, 199, 200, 200⟩ (by decide) (by decide) (by decide) (by decide)
      ({ skInit zeroUninit [] with h := 199 }) [] rfl rfl rfl
      (by show (199 : Nat) < 200; decide)
  have e : (30 : Nat) = (30 - k) + k := by omega
  have hh2 : s1.h = 200 := by rw [hh]; rfl
  have ecoord : putCoord 200 = [195, 200] := by decide
  rw [List.append_nil] at a
  rw [e, a, skLoop_stop _ _ (by simp [DecState.reading, height, hh2])]
  refine ⟨_, rfl, hh2, hc, rfl, ?_⟩
  show (look (132 :: (putCoord 200 ++ [133, 130, 64]))).2 = _
  rw [ecoord]
  rfl

/-- C18 (amended): from a state with `countData = 0`, nothing pending and row
`h < 200`, the loop of `skToPgm` on the bytes that `pgmToSk` emits for a run of
colour `c` over the columns `[wStart, wFinal)`, `wStart < wFinal ≤ 200`: after
five iterations the stored `DATA` bytes unpack to `red = green = blue = c`;
then `colour` is the luminance of `(c, c, c)`, `wStart` and `wFinal` are those
of the run, the cells `[wStart, wFinal)` of row `h` hold that colour and every
other cell is unchanged, `h` is one more exactly when `wFinal = 200`, and
`countData = 0`. When the row reached is below 200 the loop goes on and the
decoder is on the first byte after the run; when the run completed row 199
the loop has ended on the byte 132 that follows the coordinate `wFinal`. -/
theorem decoder_run (run : Run) (hc : run.colour < 256) (hhs : run.hStart < 256)
    (hhf : run.hFinal < 256) (hw1 : run.wStart < run.wFinal) (hw2 : run.wFinal ≤ 200)
    (s : DecState) (tail : List Nat) (hr : s.read = true) (hw : s.write = false)
    (hk : s.countData = 0) (hh : s.h < 200) (himg : s.image.length = 40000) :
    (∃ (s5 : DecState) (rest : List Nat),
      Steps 5 (s.reading (putRun run ++ tail)) (s5.reading rest) ∧ s5.countData = 5 ∧
      getRedOrOthers s5.datas0 s5.datas1 = run.colour ∧
      getGreen s5.datas2 s5.datas3 = run.colour ∧
      getBlue s5.datas3 s5.datas4 = run.colour) ∧
    (putCoord run.wStart).length = (if run.wStart < 64 then 1 else 2) ∧
    (putCoord run.wFinal).length = (if run.wFinal < 64 then 1 else 2) ∧
    ∃ (k : Nat) (s' : DecState),
      s'.colour = luminance run.colour run.colour run.colour ∧
      s'.wStart = run.wStart ∧ s'.wFinal = run.wFinal ∧
      s'.image.length = 40000 ∧
      (∀ j, j < 40000 → s'.image.getD j 0 =
        if s.h * width + run.wStart ≤ j ∧ j < s.h * width + run.wFinal
        then luminance run.colour run.colour run.colour else s.image.getD j 0) ∧
      s'.h = (if run.wFinal = 200 then s.h + 1 else s.h) ∧
      s'.countData = 0 ∧ s'.read = true ∧ s'.write = false ∧
      (s'.h < 200 → Steps k (s.reading (putRun run ++ tail)) (s'.reading tail)) ∧
      (¬ s'.h < 200 →
        Steps k (s.reading (putRun run ++ tail))
          (s'.reading (132 :: (putCoord run.hFinal ++ 133 :: 130 :: 64 :: tail))) ∧
        ∀ fuel, skLoop fuel
            (s'.reading (132 :: (putCoord run.hFinal ++ 133 :: 130 :: 64 :: tail))) =
          some (s'.reading (132 :: (putCoord run.hFinal ++ 133 :: 130 :: 64 :: tail)))) := by
  refine ⟨?_, ?_, ?_, ?_⟩
  · obtain ⟨s5, a, h5⟩ := steps_stored run.colour hc s (putCoord run.wStart ++ 132 ::
      (putCoord run.hStart ++ 133 :: 128 :: 64 :: (putCoord run.wFinal ++ 132 ::
        (putCoord run.hFinal ++ 133 :: 130 :: 64 :: tail)))) hr hw hk hh
    have e : putRun run ++ tail = putColour run.colour ++ (putCoord run.wStart ++
        132 :: (putCoord run.hStart ++ 133 :: 128 :: 64 :: (putCoord run.wFinal ++ 132 ::
          (putCoord run.hFinal ++ 133 :: 130 :: 64 :: tail)))) := by
      simp [putRun, putHead, putTail]
    rw [e]
    exact ⟨s5, _, a, h5⟩
  · by_cases h : run.wStart < 64 <;> simp [putCoord, h]
  · by_cases h : run.wFinal < 64 <;> simp [putCoord, h]
  · obtain ⟨k1, s1, hk1, a1, hr1, hw1', hc1, himg1, hh1, hcol1, hws1, hwf1⟩ :=
      steps_run_vars run hc (by omega) hhs (by omega) s tail hr hw hk hh
    have hmod : (s.h + 1) % 256 = s.h + 1 := Nat.mod_eq_of_lt (by omega)
    rw [hmod] at hh1
    have hlen1 : s1.image.length = 40000 := by rw [himg1, fillRow_length]; exact himg
    have hpix : ∀ j, j < 40000 → s1.image.getD j 0 =
        if s.h * width + run.wStart ≤ j ∧ j < s.h * width + run.wFinal
        then luminance run.colour run.colour run.colour else s.image.getD j 0 := by
      intro j hj
      rw [himg1, fillRow_getD _ _ _ _ _ _ (by omega) (by rw [himg]; exact hj)]
    by_cases hh2 : s1.h < 200
    · obtain ⟨k2, s2, hk2, a2, hf2, hc2⟩ :=
        steps_run_tail run.hFinal hhf s1 tail hr1 hw1' hh2
      obtain ⟨f1, f2, f3, f4, f5, f6, f7⟩ := hf2
      refine ⟨k1 + k2, s2, by rw [f4]; exact hcol1, by rw [f1]; exact hws1,
        by rw [f2]; exact hwf1, by rw [f5]; exact hlen1, ?_, by rw [f3]; exact hh1, hc2,
        by rw [f6]; exact hr1, by rw [f7]; exact hw1', fun _ => steps_trans a1 a2, ?_⟩
      · intro j hj
        rw [f5]
        exact hpix j hj
      · intro hn
        rw [f3] at hn
        exact absurd hh2 hn
    · refine ⟨k1, s1, hcol1, hws1, hwf1, hlen1, hpix, hh1, hc1, hr1, hw1',
        fun h => absurd h hh2, fun _ => ⟨a1, fun fuel => ?_⟩⟩
      exact skLoop_stop fuel _ (by simp [DecState.reading, height, hh2])

/-- Witness of `decoder_run` at the first run of `grey7` and the state in
which the loop of `skToPgm` starts. -/
theorem decoder_run_witness :
    ((⟨7, 0, 0, 200, 1⟩ : Run).colour < 256 ∧ (⟨7, 0, 0, 200, 1⟩ : Run).hStart < 256 ∧
      (⟨7, 0, 0, 200, 1⟩ : Run).hFinal < 256 ∧
      (⟨7, 0, 0, 200, 1⟩ : Run).wStart < (⟨7, 0, 0, 200, 1⟩ : Run).wFinal ∧
      (⟨7, 0, 0, 200, 1⟩ : Run).wFinal ≤ 200 ∧ (skInit zeroUninit []).read = true ∧
      (skInit zeroUninit []).write = false ∧ (skInit zeroUninit []).countData = 0 ∧
      (skInit zeroUninit []).h < 200 ∧ (skInit zeroUninit []).image.length = 40000) ∧
    ((∃ (s5 : DecState) (rest : List Nat),
      Steps 5 ((skInit zeroUninit []).reading (putRun ⟨7, 0, 0, 200, 1⟩ ++ []))
        (s5.reading rest) ∧ s5.countData = 5 ∧
      getRedOrOthers s5.datas0 s5.datas1 = (⟨7, 0, 0, 200, 1⟩ : Run).colour ∧
      getGreen s5.datas2 s5.datas3 = (⟨7, 0, 0, 200, 1⟩ : Run).colour ∧
      getBlue s5.datas3 s5.datas4 = (⟨7, 0, 0, 200, 1⟩ : Run).colour) ∧
    (putCoord (⟨7, 0, 0, 200, 1⟩ : Run).wStart).length =
      (if (⟨7, 0, 0, 200, 1⟩ : Run).wStart < 64 then 1 else 2) ∧
    (putCoord (⟨7, 0, 0, 200, 1⟩ : Run).wFinal).length =
      (if (⟨7, 0, 0, 200, 1⟩ : Run).wFinal < 64 then 1 else 2) ∧
    ∃ (k : Nat) (s' : DecState),
      s'.colour = luminance (⟨7, 0, 0, 200, 1⟩ : Run).colour (⟨7, 0, 0, 200, 1⟩ : Run).colour
        (⟨7, 0, 0, 200, 1⟩ : Run).colour ∧
      s'.wStart = (⟨7, 0, 0, 200, 1⟩ : Run).wStart ∧
      s'.wFinal = (⟨7, 0, 0, 200, 1⟩ : Run).wFinal ∧
      s'.image.length = 40000 ∧
      (∀ j, j < 40000 → s'.image.getD j 0 =
        if (skInit zeroUninit []).h * width + (⟨7, 0, 0, 200, 1⟩ : Run).wStart ≤ j ∧
          j < (skInit zeroUninit []).h * width + (⟨7, 0, 0, 200, 1⟩ : Run).wFinal
        then luminance (⟨7, 0, 0, 200, 1⟩ : Run).colour (⟨7, 0, 0, 200, 1⟩ : Run).colour
          (⟨7, 0, 0, 200, 1⟩ : Run).colour
        else (skInit zeroUninit []).image.getD j 0) ∧
      s'.h = (if (⟨7, 0, 0, 200, 1⟩ : Run).wFinal = 200 then (skInit zeroUninit []).h + 1
        else (skInit zeroUninit []).h) ∧
      s'.countData = 0 ∧ s'.read = true ∧ s'.write = false ∧
      (s'.h < 200 →
        Steps k ((skInit zeroUninit []).reading (putRun ⟨7, 0, 0, 200, 1⟩ ++ []))
          (s'.reading [])) ∧
      (¬ s'.h < 200 →
        Steps k ((skInit zeroUninit []).reading (putRun ⟨7, 0, 0, 200, 1⟩ ++ []))
          (s'.reading (132 :: (putCoord (⟨7, 0, 0, 200, 1⟩ : Run).hFinal ++
            133 :: 130 :: 64 :: []))) ∧
        ∀ fuel, skLoop fuel
            (s'.reading (132 :: (putCoord (⟨7, 0, 0, 200, 1⟩ : Run).hFinal ++
              133 :: 130 :: 64 :: []))) =
          some (s'.reading (132 :: (putCoord (⟨7, 0, 0, 200, 1⟩ : Run).hFinal ++
            133 :: 130 :: 64 :: []))))) :=
  ⟨⟨by decide, by decide, by decide, by decide, by decide, rfl, rfl, rfl,
      by show (0 : Nat) < 200; decide, List.length_replicate 40000 0⟩,
    decoder_run ⟨7, 0, 0, 200, 1⟩ (by decide) (by decide) (by decide) (by decide) (by decide)
      (skInit zeroUninit []) [] rfl rfl rfl (by show (0 : Nat) < 200; decide)
      (List.length_replicate 40000 0)⟩

/-! ## Decoder: the executions of line 264 -/

theorem skBody_eq (s : DecState) : skBody s = skFinish (skDispatch s) := rfl

theorem skFinish_vars (t : DecState) :
    (skFinish t).wStart = t.wStart ∧ (skFinish t).wFinal = t.wFinal ∧
    (skFinish t).colour = t.colour ∧
    (skFinish t).image =
      if t.write = true then fillRow t.image t.h t.colour t.wStart t.wFinal else t.image := by
  by_cases hw : t.write = true <;> by_cases hr : t.read = true <;>
    by_cases h2 : t.wFinal = 200 <;> simp [skFinish, hw, hr, h2]

theorem skDispatch_frame (s : DecState) :
    (skDispatch s).image = s.image ∧ (skDispatch s).h = s.h ∧
    (skDispatch s).write = skWrites s := by
  have h128 : ¬ (128 &&& 192 = 192) := by decide
  by_cases c1 : (s.instruction &&& 192) = 192 ∧ s.countData < 5
  · simp only [skDispatch, skWrites, skBranch, c1, if_true]
    split_ifs <;> simp
  · by_cases c2 : (s.instruction &&& 192) = 192 ∧ s.countData = 5
    · simp [skDispatch, skWrites, skBranch, c1, c2]
    · by_cases c3 : s.instruction = 131
      · simp only [skDispatch, skWrites, skBranch, c1, c2, c3, if_true, if_false]
        split_ifs <;> simp
      · by_cases c4 : s.instruction = 128
        · simp only [skDispatch, skWrites, skBranch, c1, c2, c3, c4, if_true, if_false]
          split_ifs <;> simp
        · simp [skDispatch, skWrites, skBranch, c1, c2, c3, c4]

/-- The image after an iteration of the loop of `skToPgm` is the image before
it with the cells of `skFill` written. -/
theorem skBody_image (s : DecState) (a : Assigned) :
    (skBody s).image =
      (skFill s a).foldl (fun img f => fillRow img f.h f.colour f.wStart f.wFinal) s.image := by
  obtain ⟨h1, h2, h3, h4⟩ := skFinish_vars (skDispatch s)
  obtain ⟨g1, g2, g3⟩ := skDispatch_frame s
  rw [skFill, ← g3]
  by_cases hw : (skDispatch s).write = true
  · simp only [hw, if_true, List.foldl_cons, List.foldl_nil]
    rw [skBody_eq, h1, h2, h3, h4, g1, g2]
    simp [hw]
  · simp only [hw, if_false, List.foldl_nil]
    rw [skBody_eq, h4, g1]
    simp [hw]

theorem stepsF_zero (s : DecState) (a : Assigned) : StepsF 0 s a s a [] := by
  intro fuel
  simp

theorem stepsF_trans {k1 k2 : Nat} {s s' s'' : DecState} {a a' a'' : Assigned}
    {l1 l2 : List Fill} (h1 : StepsF k1 s a s' a' l1) (h2 : StepsF k2 s' a' s'' a'' l2) :
    StepsF (k1 + k2) s a s'' a'' (l1 ++ l2) := by
  intro fuel
  have e : fuel + (k1 + k2) = (fuel + k2) + k1 := by omega
  rw [e, h1, h2]
  cases skFills fuel s'' a'' <;> simp

theorem stepsF_silent {k : Nat} (s : DecState) (a : Assigned) {a1 : Assigned}
    {s'' : DecState} {a'' : Assigned} {log : List Fill} (he : s.file.eof = false)
    (hh : s.h < 200) (hg : skFill s a = [] ∧ skAssigned s a = a1)
    (h2 : StepsF k (skBody s) a1 s'' a'' log) : StepsF (k + 1) s a s'' a'' log := by
  intro fuel
  show skFills (fuel + k + 1) s a = _
  simp only [skFills, he, hh, height, hg.1, hg.2, true_and, if_true, List.nil_append]
  rw [h2 fuel]
  cases skFills fuel s'' a'' <;> simp

theorem stepsF_fill {k : Nat} (s : DecState) (a : Assigned) {f : Fill} {a1 : Assigned}
    {s'' : DecState} {a'' : Assigned} {log : List Fill} (he : s.file.eof = false)
    (hh : s.h < 200) (hg : skFill s a = [f] ∧ skAssigned s a = a1)
    (h2 : StepsF k (skBody s) a1 s'' a'' log) : StepsF (k + 1) s a s'' a'' (f :: log) := by
  intro fuel
  show skFills (fuel + k + 1) s a = _
  simp only [skFills, he, hh, height, hg.1, hg.2, true_and, if_true]
  rw [h2 fuel]
  cases skFills fuel s'' a'' <;> simp

theorem silent_data (s : DecState) (a : Assigned) (hw : s.write = false)
    (hb : s.instruction &&& 192 = 192) (hk : s.countData < 5) :
    skFill s a = [] ∧ skAssigned s a = a := by
  simp [skFill, skAssigned, skWrites, skBranch, hw, hb, hk]

theorem silent_sixth (s : DecState) (a : Assigned) (hw : s.write = false)
    (hb : s.instruction &&& 192 = 192) (hk : s.countData = 5) :
    skFill s a = [] ∧ skAssigned s a = ⟨true, a.wStart, a.wFinal⟩ := by
  simp [skFill, skAssigned, skWrites, skBranch, hw, hb, hk]

theorem silent_colour (s : DecState) (a : Assigned) (hw : s.write = false)
    (hi : s.instruction = 131) :
    skFill s a = [] ∧ skAssigned s a = ⟨a.colour, true, a.wFinal⟩ := by
  have h131 : ¬ (131 &&& 192 = 192) := by decide
  simp [skFill, skAssigned, skWrites, skBranch, hw, hi, h131]

theorem silent_other (s : DecState) (a : Assigned) (hw : s.write = false)
    (h1 : s.instruction &&& 192 ≠ 192) (h2 : s.instruction ≠ 131) (h3 : s.instruction ≠ 128) :
    skFill s a = [] ∧ skAssigned s a = a := by
  simp [skFill, skAssigned, skWrites, skBranch, hw, h1, h2, h3]

theorem fill_none (s : DecState) (a : Assigned) (hi : s.instruction = 128) :
    skFill s a = [⟨s.h, (skBody s).wStart, (skBody s).wFinal, (skBody s).colour,
        ⟨a.colour, a.wStart, true⟩⟩] ∧
      skAssigned s a = ⟨a.colour, a.wStart, true⟩ := by
  have h128 : ¬ (128 &&& 192 = 192) := by decide
  have hb : skBranch s = 4 := by simp [skBranch, hi, h128]
  simp [skFill, skAssigned, skWrites, hb]

/-- The six `DATA` bytes of a colour execute line 264 never and assign
`colour`. -/
theorem fills_colour (c : Nat) (hc : c < 256) (s : DecState) (a : Assigned) (tail : List Nat)
    (hr : s.read = true) (hw : s.write = false) (hk : s.countData = 0) (hh : s.h < 200) :
    StepsF 6 (s.reading (putColour c ++ tail)) a
      (({ s with
          datas0 := (192 + firstData c) % 256,
          datas1 := (192 + secondData c) % 256,
          datas2 := (192 + thirdData c) % 256,
          datas3 := (192 + fourthData c) % 256,
          datas4 := (192 + fifthData c) % 256,
          colour := luminance c c c,
          countData := 0 }).reading (131 :: tail)) ⟨true, a.wStart, a.wFinal⟩ [] := by
  obtain ⟨h0, h1, h2, h3, h4, hred, hgreen, hblue⟩ := colour_fields c hc
  have h255 : 255 &&& 192 = 192 := by decide
  simp only [putColour, List.cons_append, List.nil_append]
  refine stepsF_silent _ _ rfl (by exact hh)
    (silent_data _ _ (by exact hw) (by exact h0) (by show s.countData < 5; rw [hk]; decide)) ?_
  rw [body_data0 s _ _ hr hw h0 hk]
  refine stepsF_silent _ _ rfl (by exact hh)
    (silent_data _ _ (by exact hw) (by exact h1) (by show (1 : Nat) < 5; decide)) ?_
  simp only [body_data1, hr, hw, h1]
  refine stepsF_silent _ _ rfl (by exact hh)
    (silent_data _ _ (by rfl) (by exact h2) (by show (2 : Nat) < 5; decide)) ?_
  simp only [body_data2, hr, hw, h2]
  refine stepsF_silent _ _ rfl (by exact hh)
    (silent_data _ _ (by rfl) (by exact h3) (by show (3 : Nat) < 5; decide)) ?_
  simp only [body_data3, hr, hw, h3]
  refine stepsF_silent _ _ rfl (by exact hh)
    (silent_data _ _ (by rfl) (by exact h4) (by show (4 : Nat) < 5; decide)) ?_
  simp only [body_data4, hr, hw, h4]
  refine stepsF_silent _ _ rfl (by exact hh)
    (silent_sixth _ _ (by rfl) (by exact h255) rfl) ?_
  simp only [body_sixth, hr, hw, h255, hred, hgreen, hblue]
  exact stepsF_zero _ _

/-- The byte 131 and the coordinate after it execute line 264 never and
assign `wStart`. -/
theorem fills_wStart (v : Nat) (hv : v < 256) (s : DecState) (a : Assigned) (t : Nat)
    (tail : List Nat) (hr : s.read = true) (hw : s.write = false) (hh : s.h < 200)
    (ht : t &&& 192 ≠ 192) :
    StepsF 1 (s.reading (131 :: (putCoord v ++ t :: tail))) a
      (({ s with wStart := v, countData := 0 }).reading (t :: tail))
      ⟨a.colour, true, a.wFinal⟩ [] := by
  refine stepsF_silent _ _ rfl (by exact hh) (silent_colour _ _ (by exact hw) rfl) ?_
  by_cases h64 : v < 64
  · obtain ⟨_, e2⟩ := coord_one v h64
    simp only [putCoord, h64, if_true, List.cons_append, List.nil_append]
    rw [body_colour1 s _ _ _ hr hw ht, e2]
    exact stepsF_zero _ _
  · obtain ⟨_, e2, e3⟩ := coord_two v hv
    simp only [putCoord, h64, if_false, List.cons_append, List.nil_append]
    rw [body_colour2 s _ _ _ hr hw e2, e3]
    exact stepsF_zero _ _

/-- The byte 128, the byte after it and the coordinate that follows assign
`wFinal` and execute line 264 once. -/
theorem fills_wFinal (v : Nat) (hv : v < 256) (s : DecState) (a : Assigned) (x t : Nat)
    (tail : List Nat) (hr : s.read = true) (hw : s.write = false) (hh : s.h < 200)
    (ht : t &&& 192 ≠ 192) :
    StepsF 1 (s.reading (128 :: x :: (putCoord v ++ t :: tail))) a
      (({ s with
          wFinal := v,
          countData := 0,
          image := fillRow s.image s.h s.colour s.wStart v,
          h := (if v = 200 then (s.h + 1) % 256 else s.h) }).reading (t :: tail))
      ⟨a.colour, a.wStart, true⟩ [⟨s.h, s.wStart, v, s.colour, ⟨a.colour, a.wStart, true⟩⟩] := by
  have hg := fill_none (s.reading (128 :: x :: (putCoord v ++ t :: tail))) a rfl
  by_cases h64 : v < 64
  · obtain ⟨_, e2⟩ := coord_one v h64
    simp only [putCoord, h64, if_true, List.cons_append, List.nil_append] at hg ⊢
    rw [body_none1 s _ _ _ _ hr hw ht, e2] at hg
    refine stepsF_fill _ _ rfl (by exact hh) hg ?_
    rw [body_none1 s _ _ _ _ hr hw ht, e2]
    exact stepsF_zero _ _
  · obtain ⟨_, e2, e3⟩ := coord_two v hv
    simp only [putCoord, h64, if_false, List.cons_append, List.nil_append] at hg ⊢
    rw [body_none2 s _ _ _ _ hr hw e2, e3] at hg
    refine stepsF_fill _ _ rfl (by exact hh) hg ?_
    rw [body_none2 s _ _ _ _ hr hw e2, e3]
    exact stepsF_zero _ _

/-- A byte that is none of `DATA`, 131 and 128, a coordinate and another such
byte execute line 264 never and assign none of the three locals. -/
theorem fills_skip (v : Nat) (hv : v < 256) (s : DecState) (a : Assigned) (t1 t2 : Nat)
    (tail : List Nat) (hr : s.read = true) (hw : s.write = false) (hh : s.h < 200)
    (h1 : t1 &&& 192 ≠ 192 ∧ t1 ≠ 131 ∧ t1 ≠ 128) (h2 : t2 &&& 192 ≠ 192 ∧ t2 ≠ 131 ∧ t2 ≠ 128) :
    ∃ (k : Nat) (s' : DecState), k ≤ 4 ∧
      StepsF k (s.reading (t1 :: (putCoord v ++ t2 :: tail))) a (s'.reading tail) a [] ∧
      SameFrame s s' ∧ s'.countData = 0 := by
  by_cases h64 : v < 64
  · obtain ⟨e1, _⟩ := coord_one v h64
    refine ⟨3, { s with datas0 := (192 + v) % 256, countData := 0 }, by omega, ?_,
      ⟨rfl, rfl, rfl, rfl, rfl, rfl, rfl⟩, rfl⟩
    simp only [putCoord, h64, if_true, List.cons_append, List.nil_append]
    refine stepsF_silent _ _ rfl (by exact hh)
      (silent_other _ _ (by exact hw) (by exact h1.1) (by exact h1.2.1) (by exact h1.2.2)) ?_
    rw [body_other s _ _ hr hw h1.1 h1.2.1 h1.2.2]
    refine stepsF_silent _ _ rfl (by exact hh)
      (silent_data _ _ (by exact hw) (by exact e1) (by show (0 : Nat) < 5; decide)) ?_
    simp only [body_data0, hr, hw, e1]
    refine stepsF_silent _ _ rfl (by exact hh)
      (silent_other _ _ (by rfl) (by exact h2.1) (by exact h2.2.1) (by exact h2.2.2)) ?_
    simp only [body_other, hr, hw, h2.1, h2.2.1, h2.2.2, ne_eq, not_false_eq_true]
    exact stepsF_zero _ _
  · obtain ⟨e1, e2, _⟩ := coord_two v hv
    refine ⟨4,
      { s with
        datas0 := (192 + firstData v) % 256,
        datas1 := (192 + secondData v) % 256,
        countData := 0 },
      by omega, ?_, ⟨rfl, rfl, rfl, rfl, rfl, rfl, rfl⟩, rfl⟩
    simp only [putCoord, h64, if_false, List.cons_append, List.nil_append]
    refine stepsF_silent _ _ rfl (by exact hh)
      (silent_other _ _ (by exact hw) (by exact h1.1) (by exact h1.2.1) (by exact h1.2.2)) ?_
    rw [body_other s _ _ hr hw h1.1 h1.2.1 h1.2.2]
    refine stepsF_silent _ _ rfl (by exact hh)
      (silent_data _ _ (by exact hw) (by exact e1) (by show (0 : Nat) < 5; decide)) ?_
    simp only [body_data0, hr, hw, e1]
    refine stepsF_silent _ _ rfl (by exact hh)
      (silent_data _ _ (by rfl) (by exact e2) (by show (1 : Nat) < 5; decide)) ?_
    simp only [body_data1, hr, hw, e2]
    refine stepsF_silent _ _ rfl (by exact hh)
      (silent_other _ _ (by rfl) (by exact h2.1) (by exact h2.2.1) (by exact h2.2.2)) ?_
    simp only [body_other, hr, hw, h2.1, h2.2.1, h2.2.2, ne_eq, not_false_eq_true]
    exact stepsF_zero _ _

/-- The first part of the bytes of a run, up to the coordinate `wFinal`:
line 264 is executed once, for the run, with the three locals assigned. -/
theorem fills_run_head (run : Run) (hc : run.colour < 256) (hws : run.wStart < 256)
    (hhs : run.hStart < 256) (hwf : run.wFinal < 256) (s : DecState) (a : Assigned)
    (tail : List Nat) (hr : s.read = true) (hw : s.write = false) (hk : s.countData = 0)
    (hh : s.h < 200) :
    ∃ (k : Nat) (s' : DecState), k ≤ 12 ∧
      StepsF k (s.reading (putRun run ++ tail)) a
        (s'.reading (132 :: (putCoord run.hFinal ++ 133 :: 130 :: 64 :: tail)))
        ⟨true, true, true⟩
        [⟨s.h, run.wStart, run.wFinal, luminance run.colour run.colour run.colour,
          ⟨true, true, true⟩⟩] ∧
      s'.read = true ∧ s'.write = false ∧ s'.countData = 0 ∧
      s'.h = (if run.wFinal = 200 then (s.h + 1) % 256 else s.h) := by
  have e : putRun run ++ tail = putColour run.colour ++ (putCoord run.wStart ++ 132 ::
      (putCoord run.hStart ++ 133 :: 128 :: 64 :: (putCoord run.wFinal ++ 132 ::
        (putCoord run.hFinal ++ 133 :: 130 :: 64 :: tail)))) := by
    simp [putRun, putHead, putTail]
  rw [e]
  have a1 := fills_colour run.colour hc s a (putCoord run.wStart ++ 132 ::
      (putCoord run.hStart ++ 133 :: 128 :: 64 :: (putCoord run.wFinal ++ 132 ::
        (putCoord run.hFinal ++ 133 :: 130 :: 64 :: tail)))) hr hw hk hh
  let s1 : DecState :=
    { s with
      datas0 := (192 + firstData run.colour) % 256,
      datas1 := (192 + secondData run.colour) % 256,
      datas2 := (192 + thirdData run.colour) % 256,
      datas3 := (192 + fourthData run.colour) % 256,
      datas4 := (192 + fifthData run.colour) % 256,
      colour := luminance run.colour run.colour run.colour,
      countData := 0 }
  have a2 := fills_wStart run.wStart hws s1 ⟨true, a.wStart, a.wFinal⟩ 132
      (putCoord run.hStart ++ 133 :: 128 :: 64 ::
        (putCoord run.wFinal ++ 132 :: (putCoord run.hFinal ++ 133 :: 130 :: 64 :: tail)))
      hr hw hh (by decide)
  let s2 : DecState := { s1 with wStart := run.wStart, countData := 0 }
  obtain ⟨k, s3, hk3, a3, hf3, hc3⟩ := fills_skip run.hStart hhs s2 ⟨true, true, a.wFinal⟩
      132 133 (128 :: 64 ::
        (putCoord run.wFinal ++ 132 :: (putCoord run.hFinal ++ 133 :: 130 :: 64 :: tail)))
      hr hw hh (by decide) (by decide)
  obtain ⟨f1, f2, f3, f4, f5, f6, f7⟩ := hf3
  have hr3 : s3.read = true := by rw [f6]; exact hr
  have hw3 : s3.write = false := by rw [f7]; exact hw
  have hh3 : s3.h < 200 := by rw [f3]; exact hh
  have a4 := fills_wFinal run.wFinal hwf s3 ⟨true, true, a.wFinal⟩ 64 132
      (putCoord run.hFinal ++ 133 :: 130 :: 64 :: tail) hr3 hw3 hh3 (by decide)
  have e3 : s3.h = s.h := f3
  have e4 : s3.wStart = run.wStart := f1
  have e5 : s3.colour = luminance run.colour run.colour run.colour := f4
  rw [e3, e4, e5] at a4
  refine ⟨6 + (1 + (k + 1)), _, by omega,
    stepsF_trans a1 (stepsF_trans a2 (stepsF_trans a3 a4)), hr3, hw3, rfl, rfl⟩

/-- The rest of the bytes of a run, from the byte 132 after `wFinal` on:
line 264 is not executed. -/
theorem fills_run_tail (v : Nat) (hv : v < 256) (s : DecState) (a : Assigned) (tail : List Nat)
    (hr : s.read = true) (hw : s.write = false) (hh : s.h < 200) :
    ∃ (k : Nat) (s' : DecState), k ≤ 6 ∧
      StepsF k (s.reading (132 :: (putCoord v ++ 133 :: 130 :: 64 :: tail))) a
        (s'.reading tail) a [] ∧
      SameFrame s s' ∧ s'.countData = 0 := by
  obtain ⟨k, s1, hk1, a1, hf1, hc1⟩ := fills_skip v hv s a 132 133 (130 :: 64 :: tail) hr hw hh
    (by decide) (by decide)
  obtain ⟨f1, f2, f3, f4, f5, f6, f7⟩ := hf1
  have hr1 : s1.read = true := by rw [f6]; exact hr
  have hw1 : s1.write = false := by rw [f7]; exact hw
  have hh1 : s1.h < 200 := by rw [f3]; exact hh
  have a2 : StepsF 2 (s1.reading (130 :: 64 :: tail)) a
      (({ s1 with countData := 0 }).reading tail) a [] := by
    refine stepsF_silent _ _ rfl (by exact hh1)
      (silent_other _ _ (by exact hw1) (by show (130 : Nat) &&& 192 ≠ 192; decide)
        (by show (130 : Nat) ≠ 131; decide) (by show (130 : Nat) ≠ 128; decide)) ?_
    rw [body_other s1 _ _ hr1 hw1 (by decide) (by decide) (by decide)]
    refine stepsF_silent _ _ rfl (by exact hh1)
      (silent_other _ _ (by exact hw1) (by show (64 : Nat) &&& 192 ≠ 192; decide)
        (by show (64 : Nat) ≠ 131; decide) (by show (64 : Nat) ≠ 128; decide)) ?_
    rw [body_other { s1 with countData := 0 } 64 tail hr1 hw1 (by decide) (by decide)
      (by decide)]
    exact stepsF_zero _ _
  exact ⟨k + 2, _, by omega, stepsF_trans a1 a2, ⟨f1, f2, f3, f4, f5, f6, f7⟩, rfl⟩

theorem skFills_stop (fuel : Nat) (s : DecState) (a : Assigned)
    (h : ¬ (s.file.eof = false ∧ s.h < height)) : skFills fuel s a = some [] := by
  cases fuel <;> simp only [skFills, h, if_false]

theorem fillsOf_stop (runs : List Run) (h : Nat) (hh : ¬ h < 200) : fillsOf runs h = [] := by
  cases runs with
  | nil => rfl
  | cons run runs => simp [fillsOf, height, hh]

/-- The bytes of the runs `runs`, as `pgmToSk` writes them, make the loop of
`skToPgm` execute line 264 once for each run gone through, with `colour`,
`wStart` and `wFinal` assigned. -/
theorem skFills_runs : ∀ (runs : List Run),
    (∀ run ∈ runs, run.colour < 256 ∧ run.wStart < 256 ∧ run.hStart < 256 ∧ run.wFinal < 256 ∧
      run.hFinal < 256) →
    ∀ (s : DecState), s.read = true → s.write = false → s.countData = 0 →
    ∀ (a : Assigned) (fuel : Nat), (runs.flatMap putRun).length + 1 ≤ fuel →
    skFills fuel (s.reading (runs.flatMap putRun)) a = some (fillsOf runs s.h) := by
  intro runs
  induction runs with
  | nil =>
    intro _ s _ _ _ a fuel _
    exact skFills_stop fuel _ _ (by simp [DecState.reading, look_nil])
  | cons run runs ih =>
    intro hb s hr hw hk a fuel hfuel
    have hrun := hb run (by simp)
    have hrest : ∀ r ∈ runs, r.colour < 256 ∧ r.wStart < 256 ∧ r.hStart < 256 ∧ r.wFinal < 256 ∧
        r.hFinal < 256 := fun r hr => hb r (by simp [hr])
    have hlen := putRun_length run
    simp only [List.flatMap_cons, List.length_append] at hfuel ⊢
    by_cases hh : s.h < 200
    · obtain ⟨k1, s1, hk1, a1, hr1, hw1, hc1, hh1⟩ :=
        fills_run_head run hrun.1 hrun.2.1 hrun.2.2.1 hrun.2.2.2.1 s a (runs.flatMap putRun)
          hr hw hk hh
      have e1 : fuel = (fuel - k1) + k1 := by omega
      rw [e1, a1]
      by_cases hh2 : s1.h < 200
      · obtain ⟨k2, s2, hk2, a2, hf2, hc2⟩ :=
          fills_run_tail run.hFinal hrun.2.2.2.2 s1 ⟨true, true, true⟩ (runs.flatMap putRun)
            hr1 hw1 hh2
        obtain ⟨f1, f2, f3, f4, f5, f6, f7⟩ := hf2
        have e2 : fuel - k1 = (fuel - k1 - k2) + k2 := by omega
        rw [e2, a2, ih hrest s2 (by rw [f6]; exact hr1) (by rw [f7]; exact hw1) hc2 _
          (fuel - k1 - k2) (by omega), f3, hh1]
        simp [fillsOf, height, hh]
      · rw [skFills_stop _ _ _ (by simp [DecState.reading, height, hh2])]
        rw [hh1] at hh2
        simp [fillsOf, height, hh, fillsOf_stop runs _ hh2]
    · rw [skFills_stop _ _ _ (by simp [DecState.reading, height, hh])]
      simp [fillsOf, height, hh]

/-- Each execution of line 264 that `fillsOf` lists is in a row below 200,
has the three locals assigned, and takes its bounds from one of the runs. -/
theorem fillsOf_mem : ∀ (runs : List Run) (h : Nat) (f : Fill), f ∈ fillsOf runs h →
    f.h < 200 ∧ f.assigned = ⟨true, true, true⟩ ∧
    ∃ run ∈ runs, f.wStart = run.wStart ∧ f.wFinal = run.wFinal := by
  intro runs
  induction runs with
  | nil => intro h f hf; simp [fillsOf] at hf
  | cons run runs ih =>
    intro h f hf
    by_cases hh : h < 200
    · simp only [fillsOf, height, hh, if_true, List.mem_cons] at hf
      rcases hf with hf | hf
      · subst hf
        exact ⟨hh, rfl, run, by simp, rfl, rfl⟩
      · obtain ⟨g1, g2, r, hr, g3⟩ := ih _ f hf
        exact ⟨g1, g2, r, by simp [hr], g3⟩
    · simp [fillsOf, height, hh] at hf

theorem rowRuns_ne_nil (h : Nat) : ∀ (ps : List Nat) (c wStart wFinal : Nat),
    rowRuns h c wStart wFinal ps ≠ [] := by
  intro ps
  induction ps with
  | nil => intro c wStart wFinal; simp [rowRuns]
  | cons p ps ih =>
    intro c wStart wFinal
    by_cases hp : p = c
    · simp only [rowRuns, hp, if_true]
      exact ih _ _ _
    · simp [rowRuns, hp]

theorem imageRuns_ne_nil (pgm : List Nat) (hlen : pgm.length = 40000) :
    imageRuns 200 0 pgm ≠ [] := by
  have e : imageRuns 200 0 pgm =
      rowRunsOf 0 (pgm.take width) ++ imageRuns 199 1 (pgm.drop width) := rfl
  rw [e]
  cases hrow : pgm.take width with
  | nil =>
    have hl := congrArg List.length hrow
    simp [width, hlen] at hl
  | cons c rest =>
    simp [rowRunsOf, rowRuns_ne_nil]

/-- C19: for every 200 x 200 raster of bytes, `pgmToSk` returns a sketch, and
on that sketch the loop of `skToPgm` ends and, whatever the uninitialised
locals hold, executes line 264 the same non-empty list of times. Each
execution has `h < 200` and `wStart < wFinal ≤ 200`, so every cell
`image[h][i]` it writes has `i < 200` and lies inside the array, and `colour`,
`wStart` and `wFinal` have all been assigned by then. -/
theorem decoder_safe (pgm : List Nat) (hlen : pgm.length = 40000) (hb : ∀ p ∈ pgm, p < 256) :
    ∃ (sk : List Nat) (fills : List Fill), pgmToSk pgm = some sk ∧
      (∀ u : Uninit, skToPgmFills u sk = some fills) ∧ fills ≠ [] ∧
      ∀ f ∈ fills, f.h < height ∧ f.wStart < f.wFinal ∧ f.wFinal ≤ width ∧
        (∀ i, f.wStart ≤ i → i < f.wFinal → i < width ∧ f.h * width + i < height * width) ∧
        f.assigned = ⟨true, true, true⟩ := by
  have hruns : ∀ run ∈ imageRuns 200 0 pgm, run.colour < 256 ∧ run.wStart < 256 ∧
      run.hStart < 256 ∧ run.wFinal < 256 ∧ run.hFinal < 256 := by
    intro run hrun
    have h1 := imageRuns_fields 200 0 pgm run hrun
    have h2 := imageRuns_bounds 200 0 pgm run hrun
    have h3 := imageRuns_rows 200 0 pgm run hrun
    exact ⟨hb _ h1.2, by omega, by omega, by omega, by omega⟩
  refine ⟨(imageRuns 200 0 pgm).flatMap putRun, fillsOf (imageRuns 200 0 pgm) 0,
    pgmToSk_eq pgm hlen, ?_, ?_, ?_⟩
  · intro u
    exact skFills_runs _ hruns (skInit u []) rfl rfl rfl ⟨false, false, false⟩ _ (Nat.le_refl _)
  · cases hr : imageRuns 200 0 pgm with
    | nil => exact absurd hr (imageRuns_ne_nil pgm hlen)
    | cons run runs => simp [fillsOf, height]
  · intro f hf
    obtain ⟨g1, g2, run, hrun, g3, g4⟩ := fillsOf_mem _ _ f hf
    have h1 := imageRuns_fields 200 0 pgm run hrun
    have h2 := imageRuns_bounds 200 0 pgm run hrun
    rw [g3, g4]
    refine ⟨g1, h1.1, h2.2, ?_, g2⟩
    intro i _ hi
    simp only [height, width]
    constructor <;> omega

/-- Witness of `decoder_safe` at the raster `grey7`. -/
theorem decoder_safe_witness :
    (grey7.length = 40000 ∧ ∀ p ∈ grey7, p < 256) ∧
    ∃ (sk : List Nat) (fills : List Fill), pgmToSk grey7 = some sk ∧
      (∀ u : Uninit, skToPgmFills u sk = some fills) ∧ fills ≠ [] ∧
      ∀ f ∈ fills, f.h < height ∧ f.wStart < f.wFinal ∧ f.wFinal ≤ width ∧
        (∀ i, f.wStart ≤ i → i < f.wFinal → i < width ∧ f.h * width + i < height * width) ∧
        f.assigned = ⟨true, true, true⟩ :=
  ⟨⟨grey7_length, fun p hp => by
      rw [grey7] at hp
      rw [List.eq_of_mem_replicate hp]
      decide⟩,
    decoder_safe grey7 grey7_length (fun p hp => by
      rw [grey7] at hp
      rw [List.eq_of_mem_replicate hp]
      decide)⟩

end FileConverter
